import Mathlib

/-!
# `util/utility.js`: job descriptors and the resilient fetch executor

A shallow embedding of the functions of `src/util/utility.js` and the
properties of them that the design document states.

JavaScript values are embedded as the type `JsVal`.  Numbers are the
integer-valued ones (identifiers, counters, status codes) plus `NaN`;
fractional numbers are outside the embedding.  Strings are Lean strings.

Library functions the file calls (`big-number`, Node's `url` and
`querystring`, `request`, timers, `Math.random`) are embedded by what they
compute on the inputs this program gives them; each such definition says so.
-/

namespace Utility

/-! ## JavaScript values -/

/-- A JavaScript value: the JSON values plus `undefined` and `NaN`. -/
inductive JsVal where
  | undefined
  | null
  | bool (b : Bool)
  | num (n : Int)
  | nan
  | str (s : String)
  | arr (xs : List JsVal)
  | obj (fields : List (String × JsVal))

namespace JsVal

mutual
/-- Decidable equality of values. -/
def decEq : (a b : JsVal) → Decidable (a = b)
  | undefined, b => match b with
    | undefined => isTrue rfl
    | null | bool _ | num _ | nan | str _ | arr _ | obj _ => isFalse (by intro h; cases h)
  | null, b => match b with
    | null => isTrue rfl
    | undefined | bool _ | num _ | nan | str _ | arr _ | obj _ => isFalse (by intro h; cases h)
  | bool x, b => match b with
    | bool y => if h : x = y then isTrue (by rw [h]) else isFalse (by intro e; cases e; exact h rfl)
    | undefined | null | num _ | nan | str _ | arr _ | obj _ => isFalse (by intro h; cases h)
  | num x, b => match b with
    | num y => if h : x = y then isTrue (by rw [h]) else isFalse (by intro e; cases e; exact h rfl)
    | undefined | null | bool _ | nan | str _ | arr _ | obj _ => isFalse (by intro h; cases h)
  | nan, b => match b with
    | nan => isTrue rfl
    | undefined | null | bool _ | num _ | str _ | arr _ | obj _ => isFalse (by intro h; cases h)
  | str x, b => match b with
    | str y => if h : x = y then isTrue (by rw [h]) else isFalse (by intro e; cases e; exact h rfl)
    | undefined | null | bool _ | num _ | nan | arr _ | obj _ => isFalse (by intro h; cases h)
  | arr x, b => match b with
    | arr y => match decEqList x y with
      | isTrue h => isTrue (by rw [h])
      | isFalse h => isFalse (by intro e; cases e; exact h rfl)
    | undefined | null | bool _ | num _ | nan | str _ | obj _ => isFalse (by intro h; cases h)
  | obj x, b => match b with
    | obj y => match decEqFields x y with
      | isTrue h => isTrue (by rw [h])
      | isFalse h => isFalse (by intro e; cases e; exact h rfl)
    | undefined | null | bool _ | num _ | nan | str _ | arr _ => isFalse (by intro h; cases h)
/-- Decidable equality of arrays of values. -/
def decEqList : (a b : List JsVal) → Decidable (a = b)
  | [], [] => isTrue rfl
  | [], _ :: _ => isFalse (by intro h; cases h)
  | _ :: _, [] => isFalse (by intro h; cases h)
  | x :: xs, y :: ys => match decEq x y, decEqList xs ys with
    | isTrue h1, isTrue h2 => isTrue (by rw [h1, h2])
    | isFalse h1, _ => isFalse (by intro e; cases e; exact h1 rfl)
    | _, isFalse h2 => isFalse (by intro e; cases e; exact h2 rfl)
/-- Decidable equality of the property lists of objects. -/
def decEqFields : (a b : List (String × JsVal)) → Decidable (a = b)
  | [], [] => isTrue rfl
  | [], _ :: _ => isFalse (by intro h; cases h)
  | _ :: _, [] => isFalse (by intro h; cases h)
  | (k, x) :: xs, (l, y) :: ys =>
    if hk : k = l then
      match decEq x y, decEqFields xs ys with
      | isTrue h1, isTrue h2 => isTrue (by rw [hk, h1, h2])
      | isFalse h1, _ => isFalse (by intro e; cases e; exact h1 rfl)
      | _, isFalse h2 => isFalse (by intro e; cases e; exact h2 rfl)
    else isFalse (by intro e; cases e; exact hk rfl)
end

instance : DecidableEq JsVal := decEq

/-- JavaScript truthiness (`ToBoolean`): `undefined`, `null`, `false`, `0`,
`NaN` and `''` are falsy, every other value is truthy. -/
def truthy : JsVal → Bool
  | undefined => false
  | null => false
  | bool b => b
  | num n => n != 0
  | nan => false
  | str s => s != ""
  | arr _ => true
  | obj _ => true

mutual
/-- The string a value becomes in a template literal or in `Array.join`
(`ToString`): an array is its elements joined by commas.  A number is
written with all its digits, which is the text JavaScript gives an integer
of magnitude at most 2^53; beyond that JavaScript rounds the digits, and
from 10^21 on writes an exponent. -/
def toStr : JsVal → String
  | undefined => "undefined"
  | null => "null"
  | bool b => if b then "true" else "false"
  | num n => toString n
  | nan => "NaN"
  | str s => s
  | arr xs => joinElems xs
  | obj _ => "[object Object]"
/-- The text of `Array.prototype.join()` with the default separator `,`:
`null` and `undefined` elements contribute the empty string. -/
def joinElems : List JsVal → String
  | [] => ""
  | x :: r =>
    (match x with
      | undefined => ""
      | null => ""
      | v => toStr v)
    ++ (match r with
      | [] => ""
      | _ :: _ => ",")
    ++ joinElems r
end

/-- Own-property lookup in a property list. -/
def lookup (k : String) : List (String × JsVal) → JsVal
  | [] => undefined
  | (k', v) :: r => if k' = k then v else lookup k r

/-- Property read `v.k` on a value that is not `null` or `undefined`, for the
data property names this program reads (none of them is inherited from a
prototype): an object gives its own property, anything else `undefined`. -/
def get (v : JsVal) (k : String) : JsVal :=
  match v with
  | obj fields => lookup k fields
  | _ => undefined

/-- Property read `v.k` that throws a `TypeError` (`none`) when `v` is `null`
or `undefined`. -/
def prop (v : JsVal) (k : String) : Option JsVal :=
  match v with
  | undefined => none
  | null => none
  | _ => some (get v k)

/-- The value of `a || b`. -/
def or (a b : JsVal) : JsVal := if a.truthy then a else b

end JsVal

/-! ## Steam identifiers (`convert64to32`, `convert32to64`) -/

/-- Reads a run of decimal digits, most significant first, onto `acc`. -/
def readDigits : Nat → List Char → Option Nat
  | acc, [] => some acc
  | acc, c :: cs => if c.isDigit then readDigits (10 * acc + (c.toNat - 48)) cs else none

/-- The integer a decimal numeral denotes: an optional sign followed by at
least one digit. -/
def parseDecimal (s : String) : Option Int :=
  match s.data with
  | [] => none
  | '-' :: cs => if cs = [] then none else (readDigits 0 cs).map (fun n => -(n : Int))
  | '+' :: cs => if cs = [] then none else (readDigits 0 cs).map (fun n => (n : Int))
  | cs => (readDigits 0 cs).map (fun n => (n : Int))

/-- An integer of magnitude at most `2 ^ 53`: it is a double, `String`
writes it with all its digits, and sums of two such integers that stay in
the range are exact. -/
def safeInteger (n : Int) : Bool := n.natAbs ≤ 2 ^ 53

/-- The `big-number` constructor `new BigNumber(v)`, an arbitrary-precision
integer: a number or a string is read through its decimal text.  The text of
a number is all its digits for a safe integer; beyond that `String` rounds
the digits or writes an exponent (`1e+21`).  The result is `none` for such a
number and where the text is not a decimal numeral (what the library does
with such an argument is outside the embedding). -/
def bigNumber : JsVal → Option Int
  | .str s => parseDecimal s
  | .num n => if safeInteger n then parseDecimal (toString n) else none
  | _ => none

/-- `convert64to32(id)`: `new BigNumber(id).minus('76561197960265728').toString()`. -/
def convert64to32 (id : JsVal) : Option String :=
  match bigNumber id, bigNumber (.str "76561197960265728") with
  | some a, some b => some (toString (a - b))
  | _, _ => none

/-- `convert32to64(id)`: `new BigNumber('76561197960265728').plus(id).toString()`. -/
def convert32to64 (id : JsVal) : Option String :=
  match bigNumber (.str "76561197960265728"), bigNumber id with
  | some a, some b => some (toString (a + b))
  | _, _ => none

/-! ## Job descriptors (`generateJob`) -/

/-- The object a handler of `generateJob` returns.  A property the object
literal does not have is `none`; `url` is a string for the API jobs and
whatever `payload.url` is for `parse`. -/
structure Job where
  url : JsVal
  title : Option String
  type : String
  payload : Option JsVal
  deriving DecidableEq

/-- What the call `generateJob(type, payload)` does. -/
inductive Outcome where
  /-- A handler of the table ran and returned its job object. -/
  | job (j : Job)
  /-- A method inherited from `Object.prototype` ran and returned `v`. -/
  | value (v : JsVal)
  /-- `valueOf` ran and returned the handler table itself. -/
  | table
  /-- The call threw a `TypeError`. -/
  | throws
  /-- `big-number` was given something that is not a decimal numeral, or
  a number whose text is not all its digits. -/
  | outside
  deriving DecidableEq

/-- The local `apiUrl`. -/
def apiUrl : String := "http://api.steampowered.com"

/-- The local `apiKey`: declared with `let apiKey;` and never assigned. -/
def apiKey : JsVal := .undefined

/-- One conditional piece of the `api_history` template:
`${v ? `&name=${v}` : ''}`. -/
def optParam (name : String) (v : JsVal) : String :=
  if v.truthy then "&" ++ name ++ "=" ++ v.toStr else ""

/-- The outcome of a handler: `none` is a `TypeError` from reading a property
of `null` or `undefined`. -/
def ofHandler : Option Job → Outcome
  | some j => .job j
  | none => .throws

/-- Handler `api_details`. -/
def api_details (type : String) (payload : JsVal) : Option Job := do
  let match_id ← payload.prop "match_id"
  pure {
    url := .str (apiUrl ++ "/IDOTA2Match_570/GetMatchDetails/V001/?key=" ++ apiKey.toStr
      ++ "&match_id=" ++ match_id.toStr)
    title := some (JsVal.joinElems [.str type, match_id])
    type := "api"
    payload := some payload }

/-- Handler `api_history`. -/
def api_history (type : String) (payload : JsVal) : Option Job := do
  let account_id ← payload.prop "account_id"
  let matches_requested ← payload.prop "matches_requested"
  let hero_id ← payload.prop "hero_id"
  let leagueid ← payload.prop "leagueid"
  let start_at_match_id ← payload.prop "start_at_match_id"
  pure {
    url := .str (apiUrl ++ "/IDOTA2Match_570/GetMatchHistory/V001/?key=" ++ apiKey.toStr
      ++ optParam "account_id" account_id
      ++ optParam "matches_requested" matches_requested
      ++ optParam "hero_id" hero_id
      ++ optParam "league_id" leagueid
      ++ optParam "start_at_match_id" start_at_match_id)
    title := some (JsVal.joinElems [.str type, account_id])
    type := "api"
    payload := some payload }

/-- The callback of `payload.players.map` in `api_summaries`:
`p => convert32to64(p.account_id)`.  The outer `none` is a `TypeError`, the
inner one an argument outside the embedding of `big-number`. -/
def summaryId (p : JsVal) : Option (Option String) :=
  (p.prop "account_id").map convert32to64

/-- The result of `players.map(p => convert32to64(p.account_id))`. -/
def summaryIds : List JsVal → Option (Option (List String))
  | [] => some (some [])
  | p :: ps =>
    match summaryId p with
    | none => none
    | some id =>
      match summaryIds ps with
      | none => none
      | some ids =>
        match id, ids with
        | some i, some is => some (some (i :: is))
        | _, _ => some none

/-- Handler `api_summaries`.  `payload.players.map` is a function only when
`payload.players` is an array. -/
def api_summaries (type : String) (payload : JsVal) : Outcome :=
  match payload.prop "players", payload.prop "summaries_id" with
  | some (.arr players), some summaries_id =>
    match summaryIds players with
    | none => .throws
    | some none => .outside
    | some (some ids) => .job {
        url := .str (apiUrl ++ "/ISteamUser/GetPlayerSummaries/v0002/?key=" ++ apiKey.toStr
          ++ "&steamids=" ++ String.intercalate "," ids)
        title := some (JsVal.joinElems [.str type, summaries_id])
        type := "api"
        payload := some payload }
  | _, _ => .throws

/-- Handler `api_sequence`. -/
def api_sequence (type : String) (payload : JsVal) : Option Job := do
  let start_at_match_seq_num ← payload.prop "start_at_match_seq_num"
  let seq_num ← payload.prop "seq_num"
  pure {
    url := .str (apiUrl ++ "/IDOTA2Match_570/GetMatchHistoryBySequenceNum/V001/?key="
      ++ apiKey.toStr ++ "&start_at_match_seq_num=" ++ start_at_match_seq_num.toStr)
    title := some (JsVal.joinElems [.str type, seq_num])
    type := "api"
    payload := none }

/-- Handler `api_heroes`. -/
def api_heroes (type : String) (payload : JsVal) : Option Job := do
  let language ← payload.prop "language"
  pure {
    url := .str (apiUrl ++ "/IEconDOTA2_570/GetHeroes/v0001/?key=" ++ apiKey.toStr
      ++ "&language=" ++ language.toStr)
    title := some (JsVal.joinElems [.str type, language])
    type := "api"
    payload := some payload }

/-- Handler `api_items`. -/
def api_items (payload : JsVal) : Option Job := do
  let language ← payload.prop "language"
  pure {
    url := .str (apiUrl ++ "/IEconDOTA2_570/GetGameItems/v1?key=" ++ apiKey.toStr
      ++ "&language=" ++ language.toStr)
    title := none
    type := "api"
    payload := none }

/-- Handler `api_leagues`. -/
def api_leagues (type : String) (payload : JsVal) : Option Job := do
  let language ← payload.prop "language"
  pure {
    url := .str (apiUrl ++ "/IDOTA2Match_570/GetLeagueListing/v0001/?key=" ++ apiKey.toStr
      ++ "&language=" ++ language.toStr)
    title := some (JsVal.joinElems [.str type])
    type := "api"
    payload := some payload }

/-- Handler `api_skill`. -/
def api_skill (type : String) (payload : JsVal) : Option Job := do
  let start_at_match_id ← payload.prop "start_at_match_id"
  let skill ← payload.prop "skill"
  let hero_id ← payload.prop "hero_id"
  pure {
    url := .str (apiUrl ++ "/IDOTA2Match_570/GetMatchHistory/v0001/?key=" ++ apiKey.toStr
      ++ "&start_at_match_id=" ++ start_at_match_id.toStr
      ++ "&skill=" ++ skill.toStr
      ++ "&hero_id=" ++ hero_id.toStr
      ++ "&min_players=10")
    title := some (JsVal.joinElems [.str type, skill])
    type := "api"
    payload := some payload }

/-- Handler `api_live`. -/
def api_live (type : String) (payload : JsVal) : Option Job :=
  some {
    url := .str (apiUrl ++ "/IDOTA2Match_570/GetLiveLeagueGames/v0001/?key=" ++ apiKey.toStr)
    title := some (JsVal.joinElems [.str type])
    type := "api"
    payload := some payload }

/-- Handler `api_notable`. -/
def api_notable (type : String) (payload : JsVal) : Option Job :=
  some {
    url := .str (apiUrl ++ "/IDOTA2Fantasy_570/GetProPlayerList/v1/?key=" ++ apiKey.toStr)
    title := some (JsVal.joinElems [.str type])
    type := "api"
    payload := some payload }

/-- Handler `api_teams`. -/
def api_teams (type : String) (payload : JsVal) : Option Job := do
  let team_id ← payload.prop "team_id"
  pure {
    url := .str (apiUrl ++ "/IDOTA2Teams_570/GetTeamInfo/v1/?key=" ++ apiKey.toStr
      ++ "&team_id=" ++ team_id.toStr)
    title := some (JsVal.joinElems [.str type])
    type := "api"
    payload := some payload }

/-- Handler `api_item_schema`. -/
def api_item_schema : Option Job :=
  some {
    url := .str (apiUrl ++ "/IEconItems_570/GetSchemaURL/v1?key=" ++ apiKey.toStr)
    title := none
    type := "api"
    payload := none }

/-- Handler `api_item_icon`. -/
def api_item_icon (payload : JsVal) : Option Job := do
  let iconname ← payload.prop "iconname"
  pure {
    url := .str (apiUrl ++ "/IEconDOTA2_570/GetItemIconPath/v1?key=" ++ apiKey.toStr
      ++ "&iconname=" ++ iconname.toStr)
    title := none
    type := "api"
    payload := none }

/-- Handler `parse`. -/
def parse (type : String) (payload : JsVal) : Option Job := do
  let match_id ← payload.prop "match_id"
  let url ← payload.prop "url"
  pure {
    title := some (JsVal.joinElems [.str type, match_id])
    type := type
    url := url
    payload := some payload }

/-- `generateJob(type, payload)`: the call `opts[type]()`.  `opts` is an
object literal with the fourteen handlers, so `opts[type]` is the handler of
that name, else the property of that name `opts` inherits from
`Object.prototype`, else `undefined`; calling what is not a function throws.
The inherited methods are called with `opts` as `this` and no argument. -/
def generateJob (type : String) (payload : JsVal) : Outcome :=
  match type with
  | "api_details" => ofHandler (api_details type payload)
  | "api_history" => ofHandler (api_history type payload)
  | "api_summaries" => api_summaries type payload
  | "api_sequence" => ofHandler (api_sequence type payload)
  | "api_heroes" => ofHandler (api_heroes type payload)
  | "api_items" => ofHandler (api_items payload)
  | "api_leagues" => ofHandler (api_leagues type payload)
  | "api_skill" => ofHandler (api_skill type payload)
  | "api_live" => ofHandler (api_live type payload)
  | "api_notable" => ofHandler (api_notable type payload)
  | "api_teams" => ofHandler (api_teams type payload)
  | "api_item_schema" => ofHandler api_item_schema
  | "api_item_icon" => ofHandler (api_item_icon payload)
  | "parse" => ofHandler (parse type payload)
  | "constructor" => .value (.obj [])
  | "toString" => .value (.str "[object Object]")
  | "toLocaleString" => .value (.str "[object Object]")
  | "valueOf" => .table
  | "hasOwnProperty" => .value (.bool false)
  | "isPrototypeOf" => .value (.bool false)
  | "propertyIsEnumerable" => .value (.bool false)
  | "__lookupGetter__" => .value .undefined
  | "__lookupSetter__" => .value .undefined
  | "__defineGetter__" => .throws
  | "__defineSetter__" => .throws
  | "__proto__" => .throws
  | _ => .throws

/-- The fourteen job names of the handler table. -/
def jobKinds : List String :=
  ["api_details", "api_history", "api_summaries", "api_sequence", "api_heroes", "api_items",
   "api_leagues", "api_skill", "api_live", "api_notable", "api_teams", "api_item_schema",
   "api_item_icon", "parse"]

/-- The names of the function-valued properties of `Object.prototype` that
return normally when called on an object with no argument. -/
def inheritedMethods : List String :=
  ["constructor", "toString", "toLocaleString", "valueOf", "hasOwnProperty", "isPrototypeOf",
   "propertyIsEnumerable", "__lookupGetter__", "__lookupSetter__"]

/-! ## URLs (Node's `url` and `querystring` modules)

The embedding covers URLs of the shape `scheme://host/path?query#fragment`
with a lower-case host, and query strings without percent escapes (the text
of a query parameter is taken as it stands). -/

/-- The object `url.parse(u, true)` returns.  A property that is `null` is
`none`.  `query` is the parsed query object: its names in order, each with
its values (one value for a plain parameter, several for a repeated one). -/
structure Url where
  protocol : Option String
  slashes : Bool
  auth : Option String
  host : Option String
  port : Option String
  hostname : Option String
  hash : Option String
  search : Option String
  query : List (String × List String)
  pathname : Option String
  deriving DecidableEq

/-- Splits a text at the first occurrence of `c`: what precedes it, and what
follows it when `c` occurs. -/
def splitFirst (c : Char) : List Char → List Char × Option (List Char)
  | [] => ([], none)
  | x :: xs =>
    if x = c then ([], some xs)
    else ((x :: (splitFirst c xs).1), (splitFirst c xs).2)

/-- `s.split(c)` for a one-character separator, on the characters of `s`. -/
def splitOnChar (c : Char) : List Char → List (List Char)
  | [] => [[]]
  | x :: xs =>
    if x = c then [] :: splitOnChar c xs
    else
      match splitOnChar c xs with
      | [] => [[x]]
      | w :: ws => (x :: w) :: ws

/-- `s.split(',')`. -/
def splitComma (s : String) : List String :=
  (splitOnChar ',' s.data).map String.mk

/-- Adds one `name=value` pair to a parsed query: a repeated name collects
its values under its first occurrence. -/
def addParam (k v : String) : List (String × List String) → List (String × List String)
  | [] => [(k, [v])]
  | (k', vs) :: r => if k' = k then (k', vs ++ [v]) :: r else (k', vs) :: addParam k v r

/-- `querystring.parse(q)`: the pairs of `q` split at `&`, each split at its
first `=`; an empty piece is skipped.  Names and values are kept as they are
written: the embedding covers queries without `+` and without percent
escapes, which `querystring.parse` would decode. -/
def qsParse (q : List Char) : List (String × List String) :=
  (splitOnChar '&' q).foldl
    (fun acc piece =>
      if piece = [] then acc
      else addParam (String.mk (splitFirst '=' piece).1)
        (String.mk ((splitFirst '=' piece).2.getD [])) acc)
    []

/-- The characters `querystring.escape` leaves as they are. -/
def unreserved (c : Char) : Bool :=
  c.isAlphanum || c = '-' || c = '_' || c = '.' || c = '!' || c = '~' || c = '*'
    || c = '\'' || c = '(' || c = ')'

/-- An upper-case hexadecimal digit. -/
def hexDigit (n : Nat) : Char :=
  if n < 10 then Char.ofNat (48 + n) else Char.ofNat (55 + n)

/-- The escape `%XX` of one byte. -/
def percentByte (b : UInt8) : List Char :=
  ['%', hexDigit (b.toNat / 16), hexDigit (b.toNat % 16)]

/-- `querystring.escape(s)`: every character outside the unreserved set
becomes the percent escapes of its UTF-8 bytes. -/
def qsEscape (s : String) : String :=
  String.mk (s.data.flatMap fun c =>
    if unreserved c then [c] else (String.utf8EncodeChar c).flatMap percentByte)

/-- `querystring.stringify(query)`: `name=value` for every value of every
name, joined by `&`. -/
def qsStringify (query : List (String × List String)) : String :=
  String.intercalate "&"
    (query.flatMap fun kv => kv.2.map fun v => qsEscape kv.1 ++ "=" ++ qsEscape v)

/-- The assignment `query[k] = v` on a parsed query: an existing property
keeps its place, a new one goes last. -/
def setParam (k v : String) : List (String × List String) → List (String × List String)
  | [] => [(k, [v])]
  | (k', vs) :: r => if k' = k then (k', [v]) :: r else (k', vs) :: setParam k v r

/-- The schemes `url` writes with `//`. -/
def slashedProtocol (protocol : String) : Bool :=
  protocol = "http:" || protocol = "https:" || protocol = "ftp:" || protocol = "gopher:"
    || protocol = "file:"

/-- Whether a text is a scheme name: a letter followed by letters, digits,
`+`, `-` or `.`. -/
def isScheme : List Char → Bool
  | [] => false
  | c :: cs => c.isAlpha && cs.all fun x => x.isAlphanum || x = '+' || x = '-' || x = '.'

/-- A text as a property value: `null` when it is empty. -/
def nonEmpty (cs : List Char) : Option String :=
  if cs = [] then none else some (String.mk cs)

/-- The part of `url.parse` after the scheme has been taken off: with `//`
the host runs up to the next `/` and the rest is the path. -/
def parseAuthority (protocol : Option String) (hash search : Option String)
    (query : List (String × List String)) (rest : List Char) : Url :=
  match rest with
  | '/' :: '/' :: r =>
    let hostPort := (splitFirst '/' r).1
    let path := (splitFirst '/' r).2
    { protocol := protocol
      slashes := true
      auth := none
      host := nonEmpty hostPort
      port := ((splitFirst ':' hostPort).2).bind nonEmpty
      hostname := nonEmpty (splitFirst ':' hostPort).1
      hash := hash
      search := search
      query := query
      pathname := some (String.mk ('/' :: path.getD [])) }
  | r =>
    { protocol := protocol
      slashes := false
      auth := none
      host := none
      port := none
      hostname := none
      hash := hash
      search := search
      query := query
      pathname := nonEmpty r }

/-- `url.parse(u, true)`: the fragment is cut at the first `#`, the query at
the first `?` and parsed, then the scheme up to the first `:`.  The embedding
covers URLs of the shape `scheme://host/path?query#fragment` with a host in
lower case and without credentials, and URLs without a host; `url.parse`
lower-cases a host and takes no host from a `//` that follows no scheme. -/
def urlParse (u : String) : Url :=
  let beforeHash := (splitFirst '#' u.data).1
  let hash := (splitFirst '#' u.data).2.map fun h => String.mk ('#' :: h)
  let beforeQuery := (splitFirst '?' beforeHash).1
  let search := (splitFirst '?' beforeHash).2.map fun q => String.mk ('?' :: q)
  let query := qsParse ((splitFirst '?' beforeHash).2.getD [])
  match splitFirst ':' beforeQuery with
  | (scheme, some rest) =>
    if isScheme scheme then
      parseAuthority (some (String.mk (scheme ++ [':']))) hash search query rest
    else parseAuthority none hash search query beforeQuery
  | (_, none) => parseAuthority none hash search query beforeQuery

/-- Puts `c` in front of a non-empty text that does not start with it. -/
def ensureFirst (c : Char) (s : String) : String :=
  match s.data with
  | [] => s
  | x :: _ => if x = c then s else String.mk (c :: s.data)

/-- The local `auth` of `url.format`: the escaped credentials and `@`. -/
def formatAuth (parse : Url) : String :=
  match parse.auth with
  | some a => if a = "" then "" else qsEscape a ++ "@"
  | none => ""

/-- The local `protocol` of `url.format`: the scheme, ending in `:`. -/
def formatProtocol (parse : Url) : String :=
  match parse.protocol with
  | some p => if p = "" ∨ p.data.getLast? = some ':' then p else p ++ ":"
  | none => ""

/-- The local `host` of `url.format`, `false` (`none`) when the URL has
neither `host` nor `hostname`: `host` is used when set, else `hostname` and
`port`. -/
def formatHost (parse : Url) : Option String :=
  match parse.host with
  | some h =>
    if h = "" then
      match parse.hostname with
      | some n =>
        if n = "" then none
        else some (formatAuth parse ++ n ++ (match parse.port with
          | some p => if p = "" then "" else ":" ++ p
          | none => ""))
      | none => none
    else some (formatAuth parse ++ h)
  | none =>
    match parse.hostname with
    | some n =>
      if n = "" then none
      else some (formatAuth parse ++ n ++ (match parse.port with
        | some p => if p = "" then "" else ":" ++ p
        | none => ""))
    | none => none

/-- The local `search` of `url.format`: `search` is used when set, else the
query object is stringified behind a `?`. -/
def formatSearch (parse : Url) : String :=
  match parse.search with
  | some q =>
    if q = "" then (if qsStringify parse.query = "" then "" else "?" ++ qsStringify parse.query)
    else q
  | none => if qsStringify parse.query = "" then "" else "?" ++ qsStringify parse.query

/-- Whether `url.format` writes `//` before the host. -/
def formatSlashed (parse : Url) : Bool :=
  parse.slashes
    || ((formatProtocol parse = "" || slashedProtocol (formatProtocol parse))
        && (formatHost parse).isSome)

/-- `url.format(parse)`: protocol, host, path, search and fragment. -/
def urlFormat (parse : Url) : String :=
  formatProtocol parse
    ++ (if formatSlashed parse then "//" ++ (formatHost parse).getD ""
        else (formatHost parse).getD "")
    ++ (if formatSlashed parse then ensureFirst '/' (parse.pathname.getD "")
        else parse.pathname.getD "")
    ++ ensureFirst '?' (formatSearch parse)
    ++ ensureFirst '#' (parse.hash.getD "")

/-! ## The fetch executor (`getData`) -/

/-- The settings `getData` reads from `../config`. -/
structure Config where
  /-- The number `Number(config.DEFAULT_DELAY)`. -/
  DEFAULT_DELAY : Nat
  /-- The comma-separated API keys. -/
  STEAM_API_KEY : String
  /-- The comma-separated API hosts. -/
  STEAM_API_HOST : String
  deriving DecidableEq

/-- An options object given to `getData`; a property that is not given is
`none`, `noRetry` is the truthiness of that property. -/
structure FetchOptions where
  url : String
  delay : Option Nat
  proxyAffinityRange : Option Nat
  timeout : Option Nat
  noRetry : Bool
  deriving DecidableEq

/-- The first argument of `getData`: a URL string, an array of URL strings,
or an options object. -/
inductive FetchInput where
  | single (u : String)
  | alternatives (us : List String)
  | options (o : FetchOptions)
  deriving DecidableEq

/-- A value of `Math.random()`: the double `num / den`. -/
structure Draw where
  num : Nat
  den : Nat
  deriving DecidableEq

/-- The draw is a double of `[0, 1)`: it is below 1, its numerator has at
most 53 bits, and its denominator is a power of two that is at most
`2 ^ 1074`, which is a divisor of `2 ^ 1074 = (2 ^ 179) ^ 6`.  Every double
of `[0, 1)` is such a fraction. -/
def Draw.valid (r : Draw) : Prop :=
  r.num < r.den ∧ r.num < 2 ^ 53 ∧ (2 ^ 179) ^ 6 % r.den = 0

instance (r : Draw) : Decidable r.valid := by unfold Draw.valid; infer_instance

/-- The number of low bits that `n` has beyond the 53 bits of the
significand of a double: `n` is halved until it is below `2 ^ 53`.  The fuel
`n` is enough for `n`. -/
def droppedBits : Nat → Nat → Nat
  | 0, _ => 0
  | fuel + 1, n => if n < 2 ^ 53 then 0 else droppedBits fuel (n / 2) + 1

/-- The double nearest to `n / den`, for `den` a power of two, as its
numerator over the same `den`: `n` keeps its 53 leading bits, rounded to the
nearest, and to the even one of two that are equally near. -/
def roundDouble (n : Nat) : Nat :=
  if 2 * (n % 2 ^ droppedBits n n) < 2 ^ droppedBits n n then
    n / 2 ^ droppedBits n n * 2 ^ droppedBits n n
  else if 2 * (n % 2 ^ droppedBits n n) = 2 ^ droppedBits n n
      ∧ n / 2 ^ droppedBits n n % 2 = 0 then
    n / 2 ^ droppedBits n n * 2 ^ droppedBits n n
  else (n / 2 ^ droppedBits n n + 1) * 2 ^ droppedBits n n

/-- `Math.floor(r * len)` for the length `len` of an array: the product is
the double nearest to the exact product, and the floor is taken of that
double. -/
def Draw.index (r : Draw) (len : Nat) : Nat := roundDouble (r.num * len) / r.den

/-- What the world supplies to one attempt: the values of the three
`Math.random()` calls (for the URL alternative, the API key, the API host;
a call that the attempt does not make leaves its value unused) and the
arguments `(err, res, body)` the `request` callback receives, `res` by its
`statusCode` and `none` when `res` is missing. -/
structure Attempt where
  rUrl : Draw
  rKey : Draw
  rHost : Draw
  err : JsVal
  res : Option Int
  body : JsVal
  deriving DecidableEq

/-- What `getData` does that can be observed, in order. -/
inductive Event where
  /-- `console.log('%s - getData: %s', new Date(), target)`. -/
  | log (target : String)
  /-- `setTimeout(..., ms)`. -/
  | setTimeout (ms : Nat)
  /-- `request({ proxy, url: target, json: true, timeout }, ...)`. -/
  | request (target : String) (timeout : Nat)
  /-- `console.error('[INVALID] status: %s, retrying: %s', status, target)`. -/
  | invalidLog (status : Option Int) (target : String)
  /-- `console.error('invalid data, retrying: %s, %s', target, JSON.stringify(body))`. -/
  | dataLog (target : String) (body : JsVal)
  /-- The call `cb(...args)`. -/
  | cb (args : List JsVal)
  /-- A `TypeError` thrown out of `getData`. -/
  | throws
  deriving DecidableEq

/-- `x || d` for a numeric option `x` that may be missing. -/
def orDefault (x : Option Nat) (d : Nat) : Nat :=
  match x with
  | some n => if n = 0 then d else n
  | none => d

/-- `x || undefined`: a missing or zero `x` is `undefined`. -/
def orUndefined (x : Option Nat) : Option Nat :=
  match x with
  | some n => if n = 0 then none else some n
  | none => none

/-- The local `u`: `undefined` (`none`) only for an array index out of range. -/
def pickUrl (url : FetchInput) (a : Attempt) : Option String :=
  match url with
  | .alternatives us => us[a.rUrl.index us.length]?
  | .options o => some o.url
  | .single u => some u

/-- The local `delay` after normalisation. -/
def effectiveDelay (config : Config) (url : FetchInput) : Nat :=
  match url with
  | .options o => orDefault o.delay config.DEFAULT_DELAY
  | _ => config.DEFAULT_DELAY

/-- The local `proxyAffinityRange` after normalisation. -/
def effectiveRange (url : FetchInput) : Option Nat :=
  match url with
  | .options o => orUndefined o.proxyAffinityRange
  | _ => none

/-- The local `timeout` after normalisation. -/
def effectiveTimeout (url : FetchInput) : Nat :=
  match url with
  | .options o => orDefault o.timeout 5000
  | _ => 5000

/-- The value of `url.noRetry`: `undefined` on a string or an array. -/
def noRetry (url : FetchInput) : Bool :=
  match url with
  | .options o => o.noRetry
  | _ => false

/-- The local `steamApi`: `parse.host === 'api.steampowered.com'`. -/
def isSteamApi (parse : Url) : Bool := parse.host = some "api.steampowered.com"

/-- The local `apiKeys`. -/
def apiKeys (config : Config) : List String := splitComma config.STEAM_API_KEY

/-- The local `apiHosts` after the affinity range has been applied:
`proxyAffinityRange ? apiHosts.slice(0, proxyAffinityRange) : apiHosts`. -/
def apiHosts (config : Config) (proxyAffinityRange : Option Nat) : List String :=
  match proxyAffinityRange with
  | some k => (splitComma config.STEAM_API_HOST).take k
  | none => splitComma config.STEAM_API_HOST

/-- The API key the attempt selects:
`apiKeys[Math.floor(Math.random() * apiKeys.length)]`. -/
def chosenKey (config : Config) (a : Attempt) : Option String :=
  (apiKeys config)[a.rKey.index (apiKeys config).length]?

/-- The API host the attempt selects:
`apiHosts[Math.floor(Math.random() * apiHosts.length)]`. -/
def chosenHost (config : Config) (proxyAffinityRange : Option Nat) (a : Attempt) :
    Option String :=
  (apiHosts config proxyAffinityRange)[a.rHost.index (apiHosts config proxyAffinityRange).length]?

/-- The body of `if (parse.host === 'api.steampowered.com')`: the key goes
into the query object, `search` is cleared so that `url.format` writes the
query object, and the host is replaced.  An `undefined` key is written as
the empty text by `querystring.stringify`. -/
def rewriteSteam (config : Config) (proxyAffinityRange : Option Nat) (a : Attempt)
    (parse : Url) : Url :=
  { parse with
    query := setParam "key" ((chosenKey config a).getD "") parse.query
    search := none
    host := chosenHost config proxyAffinityRange a }

/-- The object `parse` at the time `target` is built. -/
def finalUrl (config : Config) (url : FetchInput) (a : Attempt) (u : String) : Url :=
  if isSteamApi (urlParse u) then rewriteSteam config (effectiveRange url) a (urlParse u)
  else urlParse u

/-- The local `target`: `urllib.format(parse)`. -/
def targetOf (config : Config) (url : FetchInput) (a : Attempt) (u : String) : String :=
  urlFormat (finalUrl config url a u)

/-- The value of `parse.host` as a JavaScript value. -/
def hostValue (parse : Url) : JsVal :=
  match parse.host with
  | some h => .str h
  | none => .null

/-- The condition of the first `if` of the `request` callback: the response
is invalid. -/
def invalidResponse (steamApi : Bool) (a : Attempt) : Bool :=
  a.err.truthy
    || a.res.isNone
    || a.res != some 200
    || !a.body.truthy
    || (steamApi && !(a.body.get "result").truthy && !(a.body.get "response").truthy
        && !(a.body.get "player_infos").truthy && !(a.body.get "teams").truthy)

/-- The condition under which the `request` callback does not retry:
`body.result.status === 15` or one of the three error texts. -/
def nonRetryable (result : JsVal) : Bool :=
  result.get "status" = .num 15
    || result.get "error" = .str "Practice matches are not available via GetMatchDetails"
    || result.get "error" = .str "No Match ID specified"
    || result.get "error" = .str "Match ID not found"

/-- The condition `body.result.error || body.result.status === 2`. -/
def invalidData (result : JsVal) : Bool :=
  (result.get "error").truthy || result.get "status" = .num 2

/-- The `request` callback `(err, res, body) => ...` of one attempt.
`retry` is what the recursive call `getData(url, cb)` goes on to do. -/
def onResponse (url : FetchInput) (steamApi : Bool) (target : String) (parse : Url)
    (a : Attempt) (retry : List Event) : List Event :=
  if invalidResponse steamApi a then
    if noRetry url then [.cb [a.err.or (.str "invalid response")]]
    else .invalidLog a.res target :: .setTimeout 0 :: retry
  else if (a.body.get "result").truthy then
    if nonRetryable (a.body.get "result") then [.cb [a.body]]
    else if invalidData (a.body.get "result") then
      if noRetry url then [.cb [a.err.or (.str "invalid data")]]
      else .dataLog target a.body :: retry
    else [.cb [.null, a.body, .obj [("hostname", hostValue parse)]]]
  else [.cb [.null, a.body, .obj [("hostname", hostValue parse)]]]

/-- `getData(url, cb)` run against the attempts the world supplies, one per
call of `getData`: the events in order.  When the supplied attempts end the
run is cut there (the next attempt has not happened yet). -/
def getData (config : Config) (url : FetchInput) : List Attempt → List Event
  | [] => []
  | a :: rest =>
    match pickUrl url a with
    | none => [.throws]
    | some u =>
      .log (targetOf config url a u)
        :: .setTimeout (effectiveDelay config url)
        :: .request (targetOf config url a u) (effectiveTimeout url)
        :: onResponse url (isSteamApi (urlParse u)) (targetOf config url a u)
            (finalUrl config url a u) a (getData config url rest)

/-! ## Reading a run of `getData` -/

/-- The argument lists of the calls of `cb` in a run, in order. -/
def callbacks : List Event → List (List JsVal)
  | [] => []
  | e :: r =>
    match e with
    | .cb args => args :: callbacks r
    | _ => callbacks r

/-- The requests issued in a run, in order: target and timeout. -/
def requests : List Event → List (String × Nat)
  | [] => []
  | e :: r =>
    match e with
    | .request target timeout => (target, timeout) :: requests r
    | _ => requests r

/-- The target strings written to the console in a run, in order: by the
per-attempt trace and by the two failure diagnostics. -/
def logged : List Event → List String
  | [] => []
  | e :: r =>
    match e with
    | .log target => target :: logged r
    | .invalidLog _ target => target :: logged r
    | .dataLog target _ => target :: logged r
    | _ => logged r

/-- The `i`-th argument of a call: `undefined` when the call has fewer. -/
def argAt (args : List JsVal) (i : Nat) : JsVal := args.getD i .undefined

/-- A call `cb(err, data, meta)` has the shape of a success delivery of
`body`: the error argument is `null` or absent and the data argument is
`body`. -/
def SuccessShaped (body : JsVal) (args : List JsVal) : Prop :=
  (argAt args 0 = .null ∨ argAt args 0 = .undefined) ∧ argAt args 1 = body

instance (body : JsVal) (args : List JsVal) : Decidable (SuccessShaped body args) := by
  unfold SuccessShaped; infer_instance

/-- The response carries one of the known signals after which `getData` does
not retry: `result.status` is 15 or `result.error` is one of the three texts. -/
def TerminalSignal (body : JsVal) : Prop :=
  (body.get "result").get "status" = .num 15
    ∨ (body.get "result").get "error"
        = .str "Practice matches are not available via GetMatchDetails"
    ∨ (body.get "result").get "error" = .str "No Match ID specified"
    ∨ (body.get "result").get "error" = .str "Match ID not found"

instance (body : JsVal) : Decidable (TerminalSignal body) := by
  unfold TerminalSignal; infer_instance

/-- The attempt is a retryable failure: the response is invalid (transport
error, missing response, status other than 200, missing body, or no envelope
from an API host), or it is valid and its `result` carries no terminal signal
but an `error` or the status 2. -/
def Retryable (steamApi : Bool) (a : Attempt) : Prop :=
  invalidResponse steamApi a = true
    ∨ (¬ TerminalSignal a.body
        ∧ ((a.body.get "result").get "error").truthy = true)
    ∨ (¬ TerminalSignal a.body ∧ (a.body.get "result").get "status" = .num 2)

instance (steamApi : Bool) (a : Attempt) : Decidable (Retryable steamApi a) := by
  unfold Retryable; infer_instance

/-- The attempt is a clean response: valid, with no terminal signal, no
`result.error` and no `result.status` 2. -/
def Clean (steamApi : Bool) (a : Attempt) : Prop :=
  invalidResponse steamApi a = false
    ∧ ¬ TerminalSignal a.body
    ∧ ((a.body.get "result").get "error").truthy = false
    ∧ (a.body.get "result").get "status" ≠ .num 2

instance (steamApi : Bool) (a : Attempt) : Decidable (Clean steamApi a) := by
  unfold Clean; infer_instance

/-! ## Sample inputs -/

/-- A configuration with two keys and two hosts. -/
def sampleConfig : Config :=
  { DEFAULT_DELAY := 1000, STEAM_API_KEY := "K1,K2", STEAM_API_HOST := "h1.example,h2.example" }

/-- The URL `generateJob('api_details', { match_id: 1 })` builds. -/
def detailsUrl : String :=
  "http://api.steampowered.com/IDOTA2Match_570/GetMatchDetails/V001/?key=undefined&match_id=1"

/-- A response with status 200 and the given body; the draws select the
second key and the second host of `sampleConfig`. -/
def okResponse (body : JsVal) : Attempt :=
  { rUrl := ⟨0, 1⟩, rKey := ⟨1, 2⟩, rHost := ⟨1, 2⟩, err := .null, res := some 200, body := body }

/-- A response with status 500 and no body; the draws select the first key
and the first host of `sampleConfig`. -/
def failedResponse : Attempt :=
  { rUrl := ⟨0, 1⟩, rKey := ⟨0, 2⟩, rHost := ⟨0, 2⟩, err := .null, res := some 500,
    body := .undefined }

/-- The envelope `{ result: { status: 15 } }`. -/
def privateMatch : JsVal := .obj [("result", .obj [("status", .num 15)])]

/-- The envelope `{ result: { error: 'boom' } }`. -/
def errorEnvelope : JsVal := .obj [("result", .obj [("error", .str "boom")])]

/-- The envelope `{ result: { match_id: 1 } }`. -/
def cleanEnvelope : JsVal := .obj [("result", .obj [("match_id", .num 1)])]

/-! ## The `api_history` URL as the design document words it -/

/-- The URL template of `GetMatchHistory` up to its credential parameter. -/
def historyTemplate : String :=
  "http://api.steampowered.com/IDOTA2Match_570/GetMatchHistory/V001/?key=undefined"

/-- The optional fields of `api_history` in their fixed order: the name of
the query parameter and the payload property it comes from. -/
def historyFields : List (String × String) :=
  [("account_id", "account_id"), ("matches_requested", "matches_requested"),
   ("hero_id", "hero_id"), ("league_id", "leagueid"),
   ("start_at_match_id", "start_at_match_id")]

/-- A payload property is present: reading it gives something other than
`undefined`. -/
def isPresent (payload : JsVal) (k : String) : Bool := payload.get k != .undefined

/-- The `api_history` URL with `&name=value` for the fields that pass `keep`,
in order. -/
def historyUrlWith (keep : JsVal → Bool) (payload : JsVal) : String :=
  historyTemplate ++ String.join
    ((historyFields.filter fun f => keep (payload.get f.2)).map fun f =>
      "&" ++ f.1 ++ "=" ++ (payload.get f.2).toStr)

/-- The `api_history` URL with `&name=value` for exactly the fields that are
present. -/
def historyUrlByPresence (payload : JsVal) : String :=
  historyUrlWith (fun v => v != .undefined) payload

/-- The `api_history` URL with `&name=value` for exactly the fields whose
value is truthy. -/
def historyUrlByTruthiness (payload : JsVal) : String :=
  historyUrlWith JsVal.truthy payload

/-- The URL of a job, when `generateJob` returns a job whose `url` is a string. -/
def Outcome.urlText : Outcome → Option String
  | .job j =>
    match j.url with
    | .str u => some u
    | _ => none
  | _ => none

/-! ## Query parameters of a job URL -/

/-- The number of positions of the text `t` at which the text `p` starts. -/
def countOcc (p : List Char) : List Char → Nat
  | [] => if p = [] then 1 else 0
  | c :: cs => (if p <+: c :: cs then 1 else 0) + countOcc p cs

/-- The number of occurrences of the text `p` in the text `t`. -/
def occurrences (p t : String) : Nat := countOcc p.data t.data

/-- A text that can stand as the value of a query parameter: it has no `&`
and no `=`. -/
def Plain (s : String) : Prop := '&' ∉ s.data ∧ '=' ∉ s.data

instance (s : String) : Decidable (Plain s) := by unfold Plain; infer_instance

/-- The thirteen job names whose handler builds a Steam API URL. -/
def apiKinds : List String :=
  ["api_details", "api_history", "api_summaries", "api_sequence", "api_heroes", "api_items",
   "api_leagues", "api_skill", "api_live", "api_notable", "api_teams", "api_item_schema",
   "api_item_icon"]

/-! ## Success of an attempt, as the design document words it -/

/-- The conditions under which an attempt is a success: no transport error,
a response with status exactly 200, a body, for a request to the API host one
of the envelopes `result`, `response`, `player_infos`, `teams`, and a
`result` that carries no error, no status 2 and no status 15. -/
def SuccessConditions (steamApi : Bool) (a : Attempt) : Prop :=
  a.err.truthy = false
    ∧ a.res = some 200
    ∧ a.body.truthy = true
    ∧ (steamApi = true →
        (a.body.get "result").truthy = true ∨ (a.body.get "response").truthy = true
          ∨ (a.body.get "player_infos").truthy = true ∨ (a.body.get "teams").truthy = true)
    ∧ ((a.body.get "result").get "error").truthy = false
    ∧ (a.body.get "result").get "status" ≠ .num 2
    ∧ (a.body.get "result").get "status" ≠ .num 15

instance (steamApi : Bool) (a : Attempt) : Decidable (SuccessConditions steamApi a) := by
  unfold SuccessConditions; infer_instance

/-! ## Numeric helpers (`mode`, `average`) -/

/-- The object `modeMap` of `mode`: the property for an element (its key is
the decimal text of the number) holds how often the element has been seen. -/
def lookupCount (key : String) : List (String × Nat) → Option Nat
  | [] => none
  | (k, c) :: r => if k = key then some c else lookupCount key r

/-- The assignment `modeMap[key] = c`. -/
def setCount (key : String) (c : Nat) : List (String × Nat) → List (String × Nat)
  | [] => [(key, c)]
  | (k, c') :: r => if k = key then (k, c) :: r else (k, c') :: setCount key c r

/-- The variables of the loop of `mode`. -/
structure ModeState where
  modeMap : List (String × Nat)
  maxEl : Int
  maxCount : Nat
  deriving DecidableEq

/-- One round of the loop of `mode`: the count of `el` goes up by one (from
nothing to 1), and `el` becomes `maxEl` when its count exceeds `maxCount`. -/
def modeStep (s : ModeState) (el : Int) : ModeState :=
  match lookupCount (toString el) s.modeMap with
  | none =>
    if 1 > s.maxCount then
      { modeMap := setCount (toString el) 1 s.modeMap, maxEl := el, maxCount := 1 }
    else { s with modeMap := setCount (toString el) 1 s.modeMap }
  | some c =>
    if c + 1 > s.maxCount then
      { modeMap := setCount (toString el) (c + 1) s.modeMap, maxEl := el, maxCount := c + 1 }
    else { s with modeMap := setCount (toString el) (c + 1) s.modeMap }

/-- `mode(array)` on an array of numbers; `none` is `null`. -/
def mode (array : List Int) : Option Int :=
  match array with
  | [] => none
  | first :: _ => some (array.foldl modeStep { modeMap := [], maxEl := first, maxCount := 1 }).maxEl

/-- `data.reduce((a, b) => a + b, acc)` on doubles that are integers: a sum
of two safe integers that is a safe integer is exact.  The result is `none`
where an element or a partial sum is beyond the safe integers (the sum may
then be rounded, which is outside the embedding). -/
def sumDoubles : Int → List Int → Option Int
  | acc, [] => some acc
  | acc, b :: rest =>
    if safeInteger b && safeInteger (acc + b) then sumDoubles (acc + b) rest else none

/-- The least `e` with `2 ^ 52 * n ≤ a * 2 ^ e`, found by doubling `a`: the
scale at which the quotient `a / n` has the 53 bits of a significand.  The
fuel `53 + n` is enough for `a ≥ 1`. -/
def scaleBits : Nat → Nat → Nat → Nat
  | 0, _, _ => 0
  | fuel + 1, a, n => if 2 ^ 52 * n ≤ a then 0 else scaleBits fuel (2 * a) n + 1

/-- The double nearest to `a / n` as its numerator over
`2 ^ scaleBits (53 + n) a n`, for a safe integer `a ≥ 0` and `n ≥ 1`: the
quotient at that scale, rounded to the nearest integer, and to the even one
of two that are equally near. -/
def quotientDouble (a n : Nat) : Nat :=
  if 2 * (a * 2 ^ scaleBits (53 + n) a n % n) < n then a * 2 ^ scaleBits (53 + n) a n / n
  else if 2 * (a * 2 ^ scaleBits (53 + n) a n % n) = n
      ∧ a * 2 ^ scaleBits (53 + n) a n / n % 2 = 0 then a * 2 ^ scaleBits (53 + n) a n / n
  else a * 2 ^ scaleBits (53 + n) a n / n + 1

/-- `Math.floor(s / n)` for a safe integer `s` and `n ≥ 1`: the quotient is a
double, the floor is taken of that double (for a negative `s`, minus the
ceiling of the double nearest to `-s / n`). -/
def floorOfQuotient (s : Int) (n : Nat) : Int :=
  if 0 ≤ s then (quotientDouble s.natAbs n / 2 ^ scaleBits (53 + n) s.natAbs n : Nat)
  else -(((quotientDouble s.natAbs n + 2 ^ scaleBits (53 + n) s.natAbs n - 1)
      / 2 ^ scaleBits (53 + n) s.natAbs n : Nat) : Int)

/-- `average(data)` on an array of integers:
`Math.floor(data.reduce((a, b) => a + b, 0) / data.length)`.  For the empty
array the quotient `0 / 0` is `NaN`.  The result is `none` where the sum
leaves the safe integers (outside the embedding). -/
def average (data : List Int) : Option JsVal :=
  match sumDoubles 0 data with
  | none => none
  | some s => if data.length = 0 then some .nan else some (.num (floorOfQuotient s data.length))

/-! ## Merging objects (`mergeObjects`) -/

/-- What a call of `mergeObjects` does to its first argument. -/
inductive Merged (α : Type) where
  /-- The call returned; `a` is the first argument after the call. -/
  | ok (a : α)
  /-- The call threw a `TypeError`. -/
  | typeError
  /-- The call left the embedding: a key that is also the name of a property
  of `Object.prototype` (other than a number merged onto an inherited
  method), a string that may be a numeral of another form than a decimal
  integer, a number beyond the safe integers, or properties written to a
  value that is not a plain object. -/
  | outside
  deriving DecidableEq

/-- The names of the properties every object inherits from
`Object.prototype`. -/
def protoNames : List String :=
  ["constructor", "toString", "toLocaleString", "valueOf", "hasOwnProperty", "isPrototypeOf",
   "propertyIsEnumerable", "__lookupGetter__", "__lookupSetter__", "__defineGetter__",
   "__defineSetter__", "__proto__"]

/-- A character that occurs in some numeric literal: a digit, a blank, a
sign, a point, an exponent or radix letter, a hexadecimal digit, or a letter
of `Infinity`. -/
def numericChar (c : Char) : Bool :=
  c.isDigit || c.isWhitespace
    || ['+', '-', '.', 'e', 'E', 'x', 'X', 'o', 'O', 'b', 'B', 'a', 'c', 'd', 'f', 'A', 'C',
        'D', 'F', 'I', 'n', 'i', 't', 'y'].contains c

/-- `Number(v)` for the values `mergeObjects` applies it to; `none` where the
value is a string that may be a numeral of a form the embedding does not
read, or a decimal numeral beyond the safe integers (its number is rounded).
A string with a character that occurs in no numeric literal is `NaN`. -/
def toNumber : JsVal → Option JsVal
  | .undefined => some .nan
  | .null => some (.num 0)
  | .bool b => some (.num (if b then 1 else 0))
  | .num n => some (.num n)
  | .nan => some .nan
  | .str s =>
    match parseDecimal s with
    | some n => if safeInteger n then some (.num n) else none
    | none =>
      if s = "" then some (.num 0)
      else if s.data.all numericChar then none
      else some .nan
  | .arr _ => none
  | .obj _ => some .nan

/-- A value whose text `toStr` writes as JavaScript does: a number is a safe
integer, and an array holds no array and no number beyond the safe
integers. -/
def plainText : JsVal → Bool
  | .num n => safeInteger n
  | .arr xs =>
    xs.all fun x =>
      match x with
      | .num n => safeInteger n
      | .arr _ => false
      | _ => true
  | _ => true

/-- The value of `m + n` for a number `n` (`m += n`): a string, an array or
an object on the left makes it a concatenation of texts, otherwise it is the
sum of numbers, which is exact for safe integers with a safe sum.  The
result is `none` (outside the embedding) where a number is beyond the safe
integers. -/
def jsAdd (m n : JsVal) : Option JsVal :=
  if !(plainText m && plainText n) then none
  else
    match m with
    | .str s => some (.str (s ++ n.toStr))
    | .arr xs => some (.str ((JsVal.arr xs).toStr ++ n.toStr))
    | .obj fields => some (.str ((JsVal.obj fields).toStr ++ n.toStr))
    | .num a =>
      match n with
      | .num b => if safeInteger (a + b) then some (.num (a + b)) else none
      | _ => some .nan
    | .bool b =>
      match n with
      | .num c =>
        if safeInteger ((if b then 1 else 0) + c) then some (.num ((if b then 1 else 0) + c))
        else none
      | _ => some .nan
    | .null => some n
    | .undefined => some .nan
    | .nan => some .nan

/-- The assignment `merge[attr] = v` on the property list of an object: an
existing property keeps its place, a new one goes last. -/
def setProp (attr : String) (v : JsVal) : List (String × JsVal) → List (String × JsVal)
  | [] => [(attr, v)]
  | (k, w) :: r => if k = attr then (k, v) :: r else (k, w) :: setProp attr v r

/-- The text of the method `Object.prototype[attr]` under Node, as `+=` puts
it in front of a number: `function Object()` and the body `[native code]` in
braces for `constructor`, and the same with the name of the method in the
place of `Object` for the other methods. -/
def inheritedText (attr : String) : String :=
  "function " ++ (if attr = "constructor" then "Object" else attr) ++ "() \x7b [native code] \x7d"

/-- The body of the `forEach` of `mergeObjects` for a key that names a method
of `Object.prototype`, on a `merge` that has no own property of that name and
a `val[attr]` that is a number or `NaN`: `merge[attr]` reads the inherited
method, which is truthy, so the last branch runs and
`merge[attr] += Number(val[attr])` gives `merge` an own property holding the
text of the method followed by the number.  The accessor `__proto__`, a
`merge` with an own property of the name, a number beyond the safe integers
and the other values of `val[attr]` are outside the embedding. -/
def mergeInherited (merge : List (String × JsVal)) (attr : String) (v : JsVal) :
    Merged (List (String × JsVal)) :=
  if attr = "__proto__" || merge.any (fun kv => kv.1 = attr) then .outside
  else
    match v with
    | .nan => .ok (setProp attr (.str (inheritedText attr ++ (JsVal.num 0).toStr)) merge)
    | .num n =>
      if safeInteger n then
        .ok (setProp attr (.str (inheritedText attr ++ (JsVal.num n).toStr)) merge)
      else .outside
    | _ => .outside

/-- The body of the `forEach` of `mergeObjects` for a value `v = val[attr]`
that is not an object: a `NaN` counts as 0; a falsy `merge[attr]` is
overwritten; an array is concatenated to an array or a string; `null` merges
nothing; anything else is added as a number.  Where a number is beyond the
safe integers the call is outside the embedding. -/
def mergeValue (merge : List (String × JsVal)) (attr : String) (v : JsVal) :
    Merged (List (String × JsVal)) :=
  if protoNames.contains attr then mergeInherited merge attr v
  else
    match v with
    | .nan =>
      if !(JsVal.lookup attr merge).truthy then .ok (setProp attr (.num 0) merge)
      else
        match jsAdd (JsVal.lookup attr merge) (.num 0) with
        | some r => .ok (setProp attr r merge)
        | none => .outside
    | .arr ys =>
      if !(JsVal.lookup attr merge).truthy then .ok (setProp attr (.arr ys) merge)
      else
        match JsVal.lookup attr merge with
        | .arr xs => .ok (setProp attr (.arr (xs ++ ys)) merge)
        | .str s =>
          if plainText (.arr ys) then .ok (setProp attr (.str (s ++ (JsVal.arr ys).toStr)) merge)
          else .outside
        | _ => .typeError
    | .null =>
      if !(JsVal.lookup attr merge).truthy then .ok (setProp attr .null merge)
      else .ok merge
    | w =>
      if !(JsVal.lookup attr merge).truthy then .ok (setProp attr w merge)
      else
        match toNumber w with
        | some n =>
          match jsAdd (JsVal.lookup attr merge) n with
          | some r => .ok (setProp attr r merge)
          | none => .outside
        | none => .outside

mutual
/-- `mergeObjects(merge, val)`: the keys of `val || {}` are visited in order.
A `val` without keys changes nothing; with keys, `merge` must be an object. -/
def mergeObjects (merge : JsVal) (val : JsVal) : Merged JsVal :=
  match val with
  | .obj fields =>
    match merge with
    | .obj mf =>
      match mergeFields mf fields with
      | .ok mf' => .ok (.obj mf')
      | .typeError => .typeError
      | .outside => .outside
    | .undefined => if fields.isEmpty then .ok merge else .typeError
    | .null => if fields.isEmpty then .ok merge else .typeError
    | _ => if fields.isEmpty then .ok merge else .outside
  | .str s => if s = "" then .ok merge else .outside
  | .arr xs => if xs.isEmpty then .ok merge else .outside
  | _ => .ok merge
/-- The `forEach` of `mergeObjects` over the properties of `val`. -/
def mergeFields (merge : List (String × JsVal)) :
    List (String × JsVal) → Merged (List (String × JsVal))
  | [] => .ok merge
  | (attr, v) :: rest =>
    match
      (match v with
        | .obj _ =>
          if protoNames.contains attr then Merged.outside
          else if !(JsVal.lookup attr merge).truthy then .ok (setProp attr v merge)
          else
            match mergeObjects (JsVal.lookup attr merge) v with
            | .ok m' => .ok (setProp attr m' merge)
            | .typeError => .typeError
            | .outside => .outside
        | _ => mergeValue merge attr v) with
    | .ok merge' => mergeFields merge' rest
    | .typeError => .typeError
    | .outside => .outside
end

/-! ## Hero matchups (`kCombinations`, `generateMatchups`) -/

/-- `kCombinations(arr, k)` for a count `k`: nothing for `k` of 0 or above
the length, the array itself for `k` equal to the length, the singletons for
`k` of 1, and otherwise, for each start `i`, the element at `i` in front of
each of the `k - 1`-combinations of what follows it. -/
def kCombinations {α : Type} (arr : List α) : Nat → List (List α)
  | 0 => []
  | k + 1 =>
    if k + 1 > arr.length then []
    else if k + 1 = arr.length then [arr]
    else if k + 1 = 1 then arr.map fun x => [x]
    else
      (List.range (arr.length - (k + 1) + 1)).flatMap fun i =>
        (kCombinations (arr.drop (i + 1)) k).map fun tail => (arr.drop i).take 1 ++ tail

/-- The subsequences of `l` of length `k`, one for every set of `k`
positions of `l`, in lexicographic order of the positions. -/
def subsequencesOfLength {α : Type} : Nat → List α → List (List α)
  | 0, _ => [[]]
  | _ + 1, [] => []
  | k + 1, x :: xs =>
    (subsequencesOfLength k xs).map (fun s => x :: s) ++ subsequencesOfLength (k + 1) xs

/-- A player of a match, by the two properties `generateMatchups` reads. -/
structure Player where
  hero_id : Int
  player_slot : Int
  deriving DecidableEq

/-- A match, by the two properties `generateMatchups` reads. -/
structure Match where
  players : List Player
  radiant_win : Bool
  deriving DecidableEq

/-- `isRadiant(player)`. -/
def isRadiant (player : Player) : Bool := player.player_slot < 128

/-- The comparison `a <= b` of two texts, character by character. -/
def charsLe : List Char → List Char → Bool
  | [], _ => true
  | _ :: _, [] => false
  | a :: as, b :: bs => if a < b then true else if b < a then false else charsLe as bs

/-- `groupToString(g)`: the numbers in ascending order, joined by commas. -/
def groupToString (g : List Int) : String :=
  String.intercalate "," ((g.insertionSort (· ≤ ·)).map toString)

/-- `matchupToString(t0, t1, t0win)`. -/
def matchupToString (t0 t1 : List Int) (t0win : Bool) : String :=
  if charsLe (groupToString t0).data (groupToString t1).data then
    groupToString t0 ++ ":" ++ groupToString t1 ++ ":" ++ (if t0win then "0" else "1")
  else
    groupToString t1 ++ ":" ++ groupToString t0 ++ ":" ++ (if t0win then "1" else "0")

/-- The local `rCombs` (or `dCombs`) of `generateMatchups`: the empty group
and then the `i`-combinations for `i` from 1 to `max`. -/
def groupCombs (heroes : List Int) (max : Nat) : List (List Int) :=
  [[]] ++ (List.range max).flatMap fun i => kCombinations heroes (i + 1)

/-- `generateMatchups(match, max)`: nothing when a hero is 0; else a key for
every pair of a radiant and a dire group.  `max || 5` is the largest group. -/
def generateMatchups (m : Match) (max : Option Nat) : List String :=
  if m.players.any (fun p => p.hero_id = 0) then []
  else
    (groupCombs ((m.players.filter isRadiant).map (·.hero_id)) (orDefault max 5)).flatMap
      fun t0 =>
        (groupCombs ((m.players.filter fun p => !isRadiant p).map (·.hero_id))
          (orDefault max 5)).map
          fun t1 => matchupToString t0 t1 m.radiant_win

/-! ## Notions the properties of the helpers are stated with -/

/-- A 5-versus-5 match with ten different heroes. -/
def fiveVersusFive : Match :=
  { players := [⟨1, 0⟩, ⟨2, 1⟩, ⟨3, 2⟩, ⟨4, 3⟩, ⟨5, 4⟩, ⟨6, 128⟩, ⟨7, 129⟩, ⟨8, 130⟩, ⟨9, 131⟩,
      ⟨10, 132⟩],
    radiant_win := true }

/-- A 1-versus-1 match. -/
def oneVersusOne : Match :=
  { players := [⟨1, 0⟩, ⟨2, 128⟩], radiant_win := true }

/-- The number of keys as the design document counts them: the product of
the sums of `C(r, i)` and of `C(d, i)` over `i` from 0 to `max`, where `max`
is 5 when it is not given. -/
def statedMatchupCount (m : Match) (max : Option Nat) : Nat :=
  (∑ i in Finset.range (max.getD 5 + 1), Nat.choose (m.players.filter isRadiant).length i)
    * (∑ i in Finset.range (max.getD 5 + 1),
        Nat.choose (m.players.filter fun p => !isRadiant p).length i)

/-- The sum of the elements divided by their number, as a rational. -/
def exactMean (data : List Int) : ℚ := (data.sum : ℚ) / (data.length : ℚ)

/-- The invariant of the loop of `mode` after the elements `done`, for an
array that starts with `first`: the map holds the counts, no count exceeds
`maxCount`, and `maxEl` has been seen `maxCount` times (or is still the first
element, with `maxCount` 1). -/
def ModeInv (first : Int) (done : List Int) (s : ModeState) : Prop :=
  (∀ e : Int, lookupCount (toString e) s.modeMap
      = if done.count e = 0 then none else some (done.count e))
    ∧ (∀ e : Int, done.count e ≤ s.maxCount)
    ∧ (s.maxCount ≤ done.count s.maxEl ∨ (s.maxCount = 1 ∧ s.maxEl = first))
    ∧ (s.maxEl = first ∨ s.maxEl ∈ done)

/-! ## Theorems -/

theorem digitChar_isDigit (d : Nat) (h : d < 10) :
    (Nat.digitChar d).isDigit = true ∧ (Nat.digitChar d).toNat - 48 = d := by
  interval_cases d <;> decide

theorem readDigits_toDigitsCore (fuel : Nat) :
    ∀ n ds, n < fuel → ∃ pre : List Char,
      Nat.toDigitsCore 10 fuel n ds = pre ++ ds ∧ pre ≠ [] ∧
      (∀ c ∈ pre, c.isDigit = true) ∧
      ∀ acc rest, readDigits acc (pre ++ rest) = readDigits (acc * 10 ^ pre.length + n) rest := by
  induction fuel with
  | zero => intro n ds h; omega
  | succ fuel ih =>
    intro n ds h
    have hd := digitChar_isDigit (n % 10) (Nat.mod_lt _ (by norm_num))
    by_cases h0 : n / 10 = 0
    · refine ⟨[Nat.digitChar (n % 10)], ?_, by simp, ?_, ?_⟩
      · simp [Nat.toDigitsCore, h0]
      · intro c hc
        simp only [List.mem_singleton] at hc
        rw [hc]; exact hd.1
      · intro acc rest
        have hn : n % 10 = n := Nat.mod_eq_of_lt (by omega)
        simp only [List.singleton_append, readDigits, hd.1, if_true, hd.2, List.length_singleton,
          pow_one]
        congr 1
        omega
    · obtain ⟨pre, hpre, hne, hdig, hval⟩ := ih (n / 10) (Nat.digitChar (n % 10) :: ds) (by omega)
      refine ⟨pre ++ [Nat.digitChar (n % 10)], ?_, by simp, ?_, ?_⟩
      · simp [Nat.toDigitsCore, h0, hpre]
      · intro c hc
        rcases List.mem_append.mp hc with hc | hc
        · exact hdig c hc
        · simp only [List.mem_singleton] at hc
          rw [hc]; exact hd.1
      · intro acc rest
        rw [List.append_assoc, hval]
        simp only [List.singleton_append, readDigits, hd.1, if_true, hd.2, List.length_append,
          List.length_singleton, pow_succ]
        congr 1
        have := Nat.div_add_mod n 10
        nlinarith [Nat.div_add_mod n 10]

theorem readDigits_toDigits (n : Nat) :
    readDigits 0 (Nat.toDigits 10 n) = some n ∧ Nat.toDigits 10 n ≠ [] ∧
      ∀ c ∈ Nat.toDigits 10 n, c.isDigit = true := by
  obtain ⟨pre, hpre, hne, hdig, hval⟩ := readDigits_toDigitsCore (n + 1) n [] (by omega)
  have h : Nat.toDigits 10 n = pre := by simpa [Nat.toDigits] using hpre
  rw [h]
  refine ⟨?_, hne, hdig⟩
  have := hval 0 []
  simpa [readDigits] using this

theorem parseDecimal_digits (cs : List Char) (hne : cs ≠ [])
    (hdig : ∀ c ∈ cs, c.isDigit = true) :
    parseDecimal (String.mk cs) = (readDigits 0 cs).map (fun n => (n : Int)) := by
  unfold parseDecimal
  split
  · rename_i h; exact absurd h hne
  · rename_i cs' h
    have := hdig '-' (by simp only [] at h; rw [h]; simp)
    exact absurd this (by decide)
  · rename_i cs' h
    have := hdig '+' (by simp only [] at h; rw [h]; simp)
    exact absurd this (by decide)
  · rfl

theorem parseDecimal_natRepr (n : Nat) : parseDecimal (Nat.repr n) = some (n : Int) := by
  obtain ⟨hval, hne, hdig⟩ := readDigits_toDigits n
  have : Nat.repr n = String.mk (Nat.toDigits 10 n) := rfl
  rw [this, parseDecimal_digits _ hne hdig, hval]
  rfl

/-- Reading back the decimal text of an integer gives the integer. -/
theorem parseDecimal_toString (i : Int) : parseDecimal (toString i) = some i := by
  cases i with
  | ofNat n => exact parseDecimal_natRepr n
  | negSucc n =>
    obtain ⟨hval, hne, hdig⟩ := readDigits_toDigits (n + 1)
    have : toString (Int.negSucc n) = String.mk ('-' :: Nat.toDigits 10 (n + 1)) := rfl
    rw [this]
    unfold parseDecimal
    simp only [hne, if_false, hval, Option.map_some']
    congr 1

/-- C1: `convert32to64` and `convert64to32` are mutual inverses on decimal
identifiers, and exact.  For every integer `x` at least 76561197960265728,
`convert64to32` of the decimal of `x` is the decimal of `x - 76561197960265728`
and `convert32to64` of that is the decimal of `x` again; for every
non-negative integer `y`, `convert32to64` of the decimal of `y` is the decimal
of `y + 76561197960265728` and `convert64to32` of that is the decimal of `y`
again.  No bound on the size of `x` or `y` is assumed. -/
theorem convert_roundtrip (x y : Int) (hx : 76561197960265728 ≤ x) (hy : 0 ≤ y) :
    convert64to32 (.str (toString x)) = some (toString (x - 76561197960265728)) ∧
    ((convert64to32 (.str (toString x))).bind fun s => convert32to64 (.str s))
      = some (toString x) ∧
    convert32to64 (.str (toString y)) = some (toString (y + 76561197960265728)) ∧
    ((convert32to64 (.str (toString y))).bind fun s => convert64to32 (.str s))
      = some (toString y) := by
  have hoff : parseDecimal "76561197960265728" = some (76561197960265728 : Int) :=
    parseDecimal_toString 76561197960265728
  have h1 : convert64to32 (.str (toString x)) = some (toString (x - 76561197960265728)) := by
    simp only [convert64to32, bigNumber, parseDecimal_toString, hoff]
  have h2 : convert32to64 (.str (toString y)) = some (toString (y + 76561197960265728)) := by
    simp only [convert32to64, bigNumber, parseDecimal_toString, hoff]
    rw [add_comm]
  refine ⟨h1, ?_, h2, ?_⟩
  · rw [h1]
    simp only [Option.some_bind, convert32to64, bigNumber, parseDecimal_toString, hoff]
    congr 2
    ring
  · rw [h2]
    simp only [Option.some_bind, convert64to32, bigNumber, parseDecimal_toString, hoff]
    congr 2
    ring

/-- C1 at identifiers above 2^53: `x = 85568397215006721` and
`y = 9007199254740993 = 2^53 + 1`. -/
theorem convert_roundtrip_witness :
    (76561197960265728 : Int) ≤ 85568397215006721 ∧ (0 : Int) ≤ 9007199254740993 ∧
    convert64to32 (.str "85568397215006721") = some "9007199254740993" ∧
    ((convert64to32 (.str "85568397215006721")).bind fun s => convert32to64 (.str s))
      = some "85568397215006721" ∧
    convert32to64 (.str "9007199254740993") = some "85568397215006721" ∧
    ((convert32to64 (.str "9007199254740993")).bind fun s => convert64to32 (.str s))
      = some "9007199254740993" :=
  ⟨by decide, by decide,
    convert_roundtrip 85568397215006721 9007199254740993 (by decide) (by decide)⟩

/-! ### Values -/

theorem JsVal.truthy_of_get_ne (v : JsVal) (k : String) (h : v.get k ≠ .undefined) :
    v.truthy = true := by
  cases v <;> simp_all [JsVal.get, JsVal.truthy]

theorem JsVal.get_of_not_truthy (v : JsVal) (k : String) (h : v.truthy = false) :
    v.get k = .undefined := by
  by_contra hne
  rw [JsVal.truthy_of_get_ne v k hne] at h
  exact absurd h (by decide)

theorem TerminalSignal.result_ne {body : JsVal} (h : TerminalSignal body) :
    body.get "result" ≠ .undefined := by
  intro hr
  unfold TerminalSignal at h
  rw [hr] at h
  revert h
  decide

theorem TerminalSignal.result_truthy {body : JsVal} (h : TerminalSignal body) :
    (body.get "result").truthy = true := by
  unfold TerminalSignal at h
  rcases h with h | h | h | h <;>
    exact JsVal.truthy_of_get_ne _ _ (by rw [h]; decide)

theorem TerminalSignal.body_truthy {body : JsVal} (h : TerminalSignal body) :
    body.truthy = true :=
  JsVal.truthy_of_get_ne _ _ h.result_ne

theorem nonRetryable_iff (body : JsVal) :
    nonRetryable (body.get "result") = true ↔ TerminalSignal body := by
  simp [nonRetryable, TerminalSignal, or_assoc]

/-- A response with status 200, no error and a terminal signal passes the
validity test, whatever the host. -/
theorem invalidResponse_of_terminal (steamApi : Bool) (a : Attempt)
    (herr : a.err.truthy = false) (hres : a.res = some 200) (hsig : TerminalSignal a.body) :
    invalidResponse steamApi a = false := by
  simp [invalidResponse, herr, hres, hsig.body_truthy, hsig.result_truthy]

/-! ### The fetch executor -/

/-- C2: for every fetch configuration (with or without `noRetry`) that has a
URL for the attempt, and every first response with no transport error, status
200 and a body whose `result` has status 15 or one of the three don't-retry
error texts, the run of `getData` is: the trace line, the pacing timer, the
request, and the call of the callback with that body.  The run ends there:
no further attempt is made however many responses the world has ready. -/
theorem getData_terminal_first_attempt (config : Config) (url : FetchInput) (a : Attempt)
    (rest : List Attempt) (u : String) (hu : pickUrl url a = some u)
    (herr : a.err.truthy = false) (hres : a.res = some 200)
    (hsig : TerminalSignal a.body) :
    getData config url (a :: rest)
      = [.log (targetOf config url a u), .setTimeout (effectiveDelay config url),
         .request (targetOf config url a u) (effectiveTimeout url), .cb [a.body]] := by
  have hv := invalidResponse_of_terminal (isSteamApi (urlParse u)) a herr hres hsig
  simp [getData, hu, onResponse, hv, hsig.result_truthy, (nonRetryable_iff a.body).mpr hsig]

/-- C2 on a concrete run: the response `{ result: { status: 15 } }` to a
request for match details, with a clean response ready after it. -/
theorem getData_terminal_first_attempt_witness :
    TerminalSignal (okResponse privateMatch).body ∧
    getData sampleConfig (.single detailsUrl) [okResponse privateMatch, okResponse cleanEnvelope]
      = [.log "http://h2.example/IDOTA2Match_570/GetMatchDetails/V001/?key=K2&match_id=1",
         .setTimeout 1000,
         .request "http://h2.example/IDOTA2Match_570/GetMatchDetails/V001/?key=K2&match_id=1" 5000,
         .cb [.obj [("result", .obj [("status", .num 15)])]]] :=
  ⟨by decide,
    (getData_terminal_first_attempt sampleConfig (.single detailsUrl) (okResponse privateMatch)
      [okResponse cleanEnvelope] detailsUrl (by decide) (by decide) (by decide) (by decide)).trans
      (by decide)⟩

/-- The `request` callback on a response that is valid and carries a terminal
signal: one call of `cb` with the body as its only argument. -/
theorem onResponse_terminal (url : FetchInput) (steamApi : Bool) (target : String) (parse : Url)
    (a : Attempt) (retry : List Event) (hvalid : invalidResponse steamApi a = false)
    (hsig : TerminalSignal a.body) :
    onResponse url steamApi target parse a retry = [.cb [a.body]] := by
  simp [onResponse, hvalid, hsig.result_truthy, (nonRetryable_iff a.body).mpr hsig]

/-- C3, as stated, fails: for the envelope `{ result: { status: 15 } }` the
callback is called once, with the envelope as its first argument, which is
not the shape `(null, body, meta)` of a success delivery. -/
theorem terminal_envelope_not_success_shaped :
    TerminalSignal privateMatch ∧
    callbacks (getData sampleConfig (.single detailsUrl) [okResponse privateMatch])
      = [[privateMatch]] ∧
    ¬ SuccessShaped privateMatch [privateMatch] := by
  decide

/-- C3, amended: when `getData` classifies a response as a terminal
application error (the response is valid and its `result` has status 15 or
one of the three don't-retry error texts), the callback is called exactly
once, with the raw envelope as its first argument, the position of the error,
and with no data argument.  The envelope is truthy, so the call does not have
the shape `(null, body, meta)` of a success delivery. -/
theorem getData_terminal_delivers_envelope_as_error (config : Config) (url : FetchInput)
    (a : Attempt) (rest : List Attempt) (u : String) (hu : pickUrl url a = some u)
    (hvalid : invalidResponse (isSteamApi (urlParse u)) a = false)
    (hsig : TerminalSignal a.body) :
    callbacks (getData config url (a :: rest)) = [[a.body]] ∧
    argAt [a.body] 0 = a.body ∧ argAt [a.body] 1 = .undefined ∧
    a.body.truthy = true ∧ ¬ SuccessShaped a.body [a.body] := by
  have hb := hsig.body_truthy
  refine ⟨?_, rfl, rfl, hb, ?_⟩
  · simp [getData, hu, onResponse_terminal _ _ _ _ _ _ hvalid hsig, callbacks]
  · intro h
    have h0 : argAt [a.body] 0 = a.body := rfl
    rcases h.1 with h1 | h1 <;> rw [h0] at h1 <;> rw [h1] at hb <;> exact absurd hb (by decide)

/-- C3, amended, on the envelope `{ result: { error: 'Match ID not found' } }`. -/
theorem getData_terminal_delivers_envelope_as_error_witness :
    TerminalSignal (.obj [("result", .obj [("error", .str "Match ID not found")])]) ∧
    callbacks (getData sampleConfig (.single detailsUrl)
        [okResponse (.obj [("result", .obj [("error", .str "Match ID not found")])]),
         okResponse cleanEnvelope])
      = [[.obj [("result", .obj [("error", .str "Match ID not found")])]]] :=
  ⟨by decide,
    (getData_terminal_delivers_envelope_as_error sampleConfig (.single detailsUrl)
      (okResponse (.obj [("result", .obj [("error", .str "Match ID not found")])]))
      [okResponse cleanEnvelope] detailsUrl (by decide) (by decide) (by decide)).1⟩

/-- A retryable attempt that is valid has a truthy `result` with no terminal
signal and with invalid data. -/
theorem Retryable.data_of_valid {steamApi : Bool} {a : Attempt} (h : Retryable steamApi a)
    (hvalid : invalidResponse steamApi a = false) :
    (a.body.get "result").truthy = true ∧ nonRetryable (a.body.get "result") = false
      ∧ invalidData (a.body.get "result") = true := by
  have hnt : ¬ TerminalSignal a.body ∧ invalidData (a.body.get "result") = true := by
    rcases h with h | h | h
    · rw [hvalid] at h; exact absurd h (by decide)
    · exact ⟨h.1, by simp [invalidData, h.2]⟩
    · exact ⟨h.1, by simp [invalidData, h.2]⟩
  refine ⟨?_, ?_, hnt.2⟩
  · by_contra hr
    have hu : a.body.get "result" = .undefined ∨ (a.body.get "result").truthy = false := by
      right; simpa using hr
    have h2 := hnt.2
    rcases hu with hu | hu
    · rw [hu] at h2; exact absurd h2 (by decide)
    · have e1 := JsVal.get_of_not_truthy _ "error" hu
      have e2 := JsVal.get_of_not_truthy _ "status" hu
      simp [invalidData, e1, e2, JsVal.truthy] at h2
  · cases hn : nonRetryable (a.body.get "result")
    · rfl
    · exact absurd ((nonRetryable_iff a.body).mp hn) hnt.1

/-- The `request` callback on a retryable attempt when `noRetry` is not set:
a diagnostic and then the retry, nothing for the caller. -/
theorem onResponse_retry (url : FetchInput) (steamApi : Bool) (target : String) (parse : Url)
    (a : Attempt) (retry : List Event) (hno : noRetry url = false)
    (h : Retryable steamApi a) :
    onResponse url steamApi target parse a retry
      = (if invalidResponse steamApi a then [.invalidLog a.res target, .setTimeout 0]
          else [.dataLog target a.body]) ++ retry := by
  cases hv : invalidResponse steamApi a
  · obtain ⟨h1, h2, h3⟩ := h.data_of_valid hv
    simp [onResponse, hv, h1, h2, h3, hno]
  · simp [onResponse, hv, hno]

/-- The `request` callback on a clean attempt: the success delivery. -/
theorem onResponse_clean (url : FetchInput) (steamApi : Bool) (target : String) (parse : Url)
    (a : Attempt) (retry : List Event) (h : Clean steamApi a) :
    onResponse url steamApi target parse a retry
      = [.cb [.null, a.body, .obj [("hostname", hostValue parse)]]] := by
  obtain ⟨hv, hnt, he, hs⟩ := h
  have hn : nonRetryable (a.body.get "result") = false := by
    cases hn : nonRetryable (a.body.get "result")
    · rfl
    · exact absurd ((nonRetryable_iff a.body).mp hn) hnt
  have hd : invalidData (a.body.get "result") = false := by
    simp [invalidData, he, hs]
  simp [onResponse, hv, hn, hd]

/-- The events of one failed attempt that is retried. -/
theorem getData_cons_retry (config : Config) (url : FetchInput) (a : Attempt)
    (rest : List Attempt) (u : String) (hno : noRetry url = false)
    (hu : pickUrl url a = some u) (h : Retryable (isSteamApi (urlParse u)) a) :
    ∃ diag : List Event, callbacks diag = [] ∧ requests diag = [] ∧
      getData config url (a :: rest)
        = .log (targetOf config url a u) :: .setTimeout (effectiveDelay config url)
          :: .request (targetOf config url a u) (effectiveTimeout url)
          :: (diag ++ getData config url rest) := by
  refine ⟨if invalidResponse (isSteamApi (urlParse u)) a
      then [.invalidLog a.res (targetOf config url a u), .setTimeout 0]
      else [.dataLog (targetOf config url a u) a.body], ?_, ?_, ?_⟩
  · split <;> rfl
  · split <;> rfl
  · simp only [getData, hu]
    rw [onResponse_retry _ _ _ _ _ _ hno h]

theorem callbacks_append (xs ys : List Event) :
    callbacks (xs ++ ys) = callbacks xs ++ callbacks ys := by
  induction xs with
  | nil => rfl
  | cons e r ih => cases e <;> simp [callbacks, ih]

theorem requests_append (xs ys : List Event) :
    requests (xs ++ ys) = requests xs ++ requests ys := by
  induction xs with
  | nil => rfl
  | cons e r ih => cases e <;> simp [requests, ih]

/-- C4: where `noRetry` is not set, and the first `k` responses are retryable
and the next one is clean, `getData` issues exactly `k + 1` requests, each the
request that the original configuration `url` determines for that attempt
(its target and its timeout), and calls the callback exactly once, with
`(null, body, { hostname })` of the clean response, the hostname being the
host of that attempt (the selected API host for an API request).  What the
world has ready after the clean response is not used. -/
theorem getData_retries_until_clean (config : Config) (url : FetchInput)
    (fails : List Attempt) (good : Attempt) (rest : List Attempt) (u : String)
    (hno : noRetry url = false)
    (hfails : ∀ a ∈ fails, ∃ ua, pickUrl url a = some ua ∧ Retryable (isSteamApi (urlParse ua)) a)
    (hu : pickUrl url good = some u) (hgood : Clean (isSteamApi (urlParse u)) good) :
    (requests (getData config url (fails ++ good :: rest))).length = fails.length + 1 ∧
    requests (getData config url (fails ++ good :: rest))
      = (fails ++ [good]).map (fun a =>
          (targetOf config url a ((pickUrl url a).getD ""), effectiveTimeout url)) ∧
    callbacks (getData config url (fails ++ good :: rest))
      = [[.null, good.body, .obj [("hostname", hostValue (finalUrl config url good u))]]] ∧
    (isSteamApi (urlParse u) = true →
      (finalUrl config url good u).host = chosenHost config (effectiveRange url) good) := by
  have key : requests (getData config url (fails ++ good :: rest))
      = (fails ++ [good]).map (fun a =>
          (targetOf config url a ((pickUrl url a).getD ""), effectiveTimeout url)) ∧
    callbacks (getData config url (fails ++ good :: rest))
      = [[.null, good.body, .obj [("hostname", hostValue (finalUrl config url good u))]]] := by
    induction fails with
    | nil =>
      simp [getData, hu, onResponse_clean _ _ _ _ _ _ hgood, requests, callbacks]
    | cons a fails ih =>
      obtain ⟨ua, hua, hra⟩ := hfails a (List.mem_cons_self _ _)
      obtain ⟨diag, hd1, hd2, hrun⟩ := getData_cons_retry config url a
        (fails ++ good :: rest) ua hno hua hra
      have ih' := ih (fun b hb => hfails b (List.mem_cons_of_mem _ hb))
      rw [List.cons_append, hrun]
      simp only [requests, callbacks, requests_append, callbacks_append, hd1, hd2,
        List.nil_append, ih'.1, ih'.2, List.cons_append, List.map_cons, hua, Option.getD_some,
        and_self]
  refine ⟨?_, key.1, key.2, ?_⟩
  · rw [key.1]; simp
  · intro hs
    simp [finalUrl, hs, rewriteSteam]

/-- C4 on a concrete run: a status 500, then `{ result: { error: 'boom' } }`,
then a clean envelope. -/
theorem getData_retries_until_clean_witness :
    Retryable true failedResponse ∧ Retryable true (okResponse errorEnvelope) ∧
    Clean true (okResponse cleanEnvelope) ∧
    requests (getData sampleConfig (.single detailsUrl)
        [failedResponse, okResponse errorEnvelope, okResponse cleanEnvelope, failedResponse])
      = [("http://h1.example/IDOTA2Match_570/GetMatchDetails/V001/?key=K1&match_id=1", 5000),
         ("http://h2.example/IDOTA2Match_570/GetMatchDetails/V001/?key=K2&match_id=1", 5000),
         ("http://h2.example/IDOTA2Match_570/GetMatchDetails/V001/?key=K2&match_id=1", 5000)] ∧
    callbacks (getData sampleConfig (.single detailsUrl)
        [failedResponse, okResponse errorEnvelope, okResponse cleanEnvelope, failedResponse])
      = [[.null, cleanEnvelope, .obj [("hostname", .str "h2.example")]]] :=
  have h := getData_retries_until_clean sampleConfig (.single detailsUrl)
    [failedResponse, okResponse errorEnvelope] (okResponse cleanEnvelope) [failedResponse]
    detailsUrl (by decide) (by decide) (by decide) (by decide)
  ⟨by decide, by decide, by decide, h.2.1.trans (by decide), h.2.2.1.trans (by decide)⟩

/-- C5: for every options object with `noRetry` set, if the first attempt is
a failure (an invalid response, or a valid one with a retryable application
error), `getData` calls the callback exactly once, on that attempt, with one
argument that is truthy (so not `null`): the transport error `err` when there
is one, else the marker `'invalid response'` (for an invalid response) or
`'invalid data'` (for an application error).  The run ends there: no retry
is made. -/
theorem getData_noRetry_reports_first_failure (config : Config) (o : FetchOptions) (a : Attempt)
    (rest : List Attempt) (hno : o.noRetry = true)
    (hfail : Retryable (isSteamApi (urlParse o.url)) a) :
    getData config (.options o) (a :: rest)
      = [.log (targetOf config (.options o) a o.url),
         .setTimeout (effectiveDelay config (.options o)),
         .request (targetOf config (.options o) a o.url) (effectiveTimeout (.options o)),
         .cb [if a.err.truthy then a.err
              else if invalidResponse (isSteamApi (urlParse o.url)) a then .str "invalid response"
              else .str "invalid data"]] ∧
    (if a.err.truthy then a.err
      else if invalidResponse (isSteamApi (urlParse o.url)) a then JsVal.str "invalid response"
      else JsVal.str "invalid data").truthy = true ∧
    (if a.err.truthy then a.err
      else if invalidResponse (isSteamApi (urlParse o.url)) a then JsVal.str "invalid response"
      else JsVal.str "invalid data") ≠ .null := by
  have hn : noRetry (.options o) = true := hno
  have ht : (if a.err.truthy then a.err
      else if invalidResponse (isSteamApi (urlParse o.url)) a then JsVal.str "invalid response"
      else JsVal.str "invalid data").truthy = true := by
    split
    · assumption
    · split <;> decide
  refine ⟨?_, ht, ?_⟩
  · cases hv : invalidResponse (isSteamApi (urlParse o.url)) a
    · obtain ⟨h1, h2, h3⟩ := hfail.data_of_valid hv
      simp [getData, pickUrl, onResponse, hv, h1, h2, h3, hn, JsVal.or]
    · simp [getData, pickUrl, onResponse, hv, hn, JsVal.or]
  · intro h
    rw [h] at ht
    exact absurd ht (by decide)

/-- C5 on a concrete run: `noRetry` and a status 500, with a clean response
ready after it. -/
theorem getData_noRetry_reports_first_failure_witness :
    Retryable true failedResponse ∧
    getData sampleConfig (.options ⟨detailsUrl, none, none, none, true⟩)
        [failedResponse, okResponse cleanEnvelope]
      = [.log "http://h1.example/IDOTA2Match_570/GetMatchDetails/V001/?key=K1&match_id=1",
         .setTimeout 1000,
         .request "http://h1.example/IDOTA2Match_570/GetMatchDetails/V001/?key=K1&match_id=1"
           5000,
         .cb [.str "invalid response"]] :=
  ⟨by decide,
    (getData_noRetry_reports_first_failure sampleConfig ⟨detailsUrl, none, none, none, true⟩
      failedResponse [okResponse cleanEnvelope] rfl (by decide)).1.trans (by decide)⟩

/-! ### Host selection -/

theorem splitOnChar_ne_nil (c : Char) (l : List Char) : splitOnChar c l ≠ [] := by
  induction l with
  | nil => simp [splitOnChar]
  | cons x xs ih =>
    unfold splitOnChar
    split
    · simp
    · split <;> simp

theorem splitComma_length_pos (s : String) : 0 < (splitComma s).length := by
  unfold splitComma
  rw [List.length_map]
  exact List.length_pos.mpr (splitOnChar_ne_nil _ _)

/-- The bits that are dropped lie below the 53 leading bits: the kept part
is at least `2 ^ 52`. -/
theorem droppedBits_le (fuel : Nat) :
    ∀ n, droppedBits fuel n = 0 ∨ 2 ^ 52 * 2 ^ droppedBits fuel n ≤ n := by
  induction fuel with
  | zero => intro n; left; rfl
  | succ f ih =>
    intro n
    unfold droppedBits
    split
    · left; rfl
    · rename_i h
      right
      rcases ih (n / 2) with h0 | h1
      · rw [h0]
        simp only [zero_add, pow_one]
        omega
      · rw [pow_succ]
        have := Nat.div_mul_le_self n 2
        calc 2 ^ 52 * (2 ^ droppedBits f (n / 2) * 2)
            = 2 ^ 52 * 2 ^ droppedBits f (n / 2) * 2 := by ring
          _ ≤ n / 2 * 2 := Nat.mul_le_mul_right 2 h1
          _ ≤ n := this

/-- With enough fuel what is kept has at most 53 bits. -/
theorem droppedBits_lt (fuel : Nat) :
    ∀ n, n < 2 ^ 53 * 2 ^ fuel → n / 2 ^ droppedBits fuel n < 2 ^ 53 := by
  induction fuel with
  | zero => intro n h; simpa [droppedBits] using h
  | succ f ih =>
    intro n h
    unfold droppedBits
    split
    · rename_i hlt; simpa using hlt
    · have h2 : n / 2 < 2 ^ 53 * 2 ^ f := by
        rw [pow_succ] at h
        omega
      have := ih (n / 2) h2
      rwa [Nat.div_div_eq_div_mul, ← pow_succ'] at this

/-- The fuel `n` is enough for `n`: `roundDouble n` keeps at most 53 bits
of `n`. -/
theorem droppedBits_self_lt (n : Nat) : n / 2 ^ droppedBits n n < 2 ^ 53 := by
  apply droppedBits_lt
  calc n < 2 ^ n := Nat.lt_two_pow n
    _ ≤ 2 ^ 53 * 2 ^ n := Nat.le_mul_of_pos_left _ (by positivity)

/-- The double nearest to `r * m` is below `m`, for a double `r` below 1:
`r` is at most `1 - 2 ^ -53`, and rounding adds at most half of the last
kept bit. -/
theorem roundDouble_lt (num den m : Nat) (h1 : num < den) (h2 : num < 2 ^ 53) (hm : 0 < m) :
    roundDouble (num * m) < m * den := by
  have hN : num * m < m * den := by
    calc num * m < den * m := Nat.mul_lt_mul_of_pos_right h1 hm
      _ = m * den := Nat.mul_comm _ _
  have hk : den + 2 ^ 53 * num ≤ 2 ^ 53 * den := by omega
  have hK : m * den + 2 ^ 53 * (num * m) ≤ 2 ^ 53 * (m * den) := by
    have := Nat.mul_le_mul_left m hk
    calc m * den + 2 ^ 53 * (num * m) = m * (den + 2 ^ 53 * num) := by ring
      _ ≤ m * (2 ^ 53 * den) := this
      _ = 2 ^ 53 * (m * den) := by ring
  generalize num * m = N at hN hK ⊢
  generalize m * den = D at hN hK ⊢
  have hdm := Nat.div_add_mod N (2 ^ droppedBits N N)
  have hdown : N / 2 ^ droppedBits N N * 2 ^ droppedBits N N ≤ N := Nat.div_mul_le_self _ _
  unfold roundDouble
  split
  · omega
  · split
    · omega
    · rename_i hlt _
      have hup : (N / 2 ^ droppedBits N N + 1) * 2 ^ droppedBits N N
          = 2 ^ droppedBits N N * (N / 2 ^ droppedBits N N) + 2 ^ droppedBits N N := by ring
      rw [hup]
      rcases droppedBits_le N N with h0 | hle
      · rw [h0] at hlt
        simp [Nat.mod_one] at hlt
      · generalize 2 ^ droppedBits N N = p at *
        generalize N / p = q at *
        generalize N % p = rem at *
        omega

/-- `Math.floor(r * m)` is below `m` for a double `r` of `[0, 1)` and `m`
positive, also where the product is rounded up. -/
theorem Draw.index_lt (r : Draw) (m : Nat) (hr : r.valid) (hm : 0 < m) : r.index m < m := by
  obtain ⟨h1, h2, _⟩ := hr
  unfold Draw.index
  rw [Nat.div_lt_iff_lt_mul (by omega)]
  exact roundDouble_lt r.num r.den m h1 h2 hm

/-- The host an attempt selects under an affinity range `k ≥ 1`: the
configured host at an index below `min k n`. -/
theorem chosenHost_some (config : Config) (a : Attempt) (k : Nat) (hk : 1 ≤ k)
    (hr : a.rHost.valid) :
    ∃ h, chosenHost config (some k) a = some h ∧
      a.rHost.index (min k (splitComma config.STEAM_API_HOST).length)
        < min k (splitComma config.STEAM_API_HOST).length ∧
      (splitComma config.STEAM_API_HOST)[a.rHost.index
        (min k (splitComma config.STEAM_API_HOST).length)]? = some h := by
  have hn := splitComma_length_pos config.STEAM_API_HOST
  have hm : 0 < min k (splitComma config.STEAM_API_HOST).length := by omega
  have hi := Draw.index_lt a.rHost _ hr hm
  have hlen : ((splitComma config.STEAM_API_HOST).take k).length
      = min k (splitComma config.STEAM_API_HOST).length := List.length_take _ _
  have hi2 : a.rHost.index (min k (splitComma config.STEAM_API_HOST).length)
      < (splitComma config.STEAM_API_HOST).length := by omega
  refine ⟨(splitComma config.STEAM_API_HOST)[a.rHost.index
      (min k (splitComma config.STEAM_API_HOST).length)], ?_, hi, ?_⟩
  · simp only [chosenHost, apiHosts, hlen]
    rw [List.getElem?_take_of_lt (by omega)]
    exact List.getElem?_eq_getElem hi2
  · exact List.getElem?_eq_getElem hi2

/-- The host an attempt selects when no affinity range is set: the
configured host at an index below `n`. -/
theorem chosenHost_none (config : Config) (a : Attempt) (hr : a.rHost.valid) :
    ∃ h, chosenHost config none a = some h ∧
      a.rHost.index (splitComma config.STEAM_API_HOST).length
        < (splitComma config.STEAM_API_HOST).length ∧
      (splitComma config.STEAM_API_HOST)[a.rHost.index
        (splitComma config.STEAM_API_HOST).length]? = some h := by
  have hn := splitComma_length_pos config.STEAM_API_HOST
  have hi := Draw.index_lt a.rHost _ hr hn
  exact ⟨(splitComma config.STEAM_API_HOST)[a.rHost.index
      (splitComma config.STEAM_API_HOST).length], by
        simp only [chosenHost, apiHosts]; exact List.getElem?_eq_getElem hi, hi,
      List.getElem?_eq_getElem hi⟩

theorem parseAuthority_auth (protocol hash search : Option String)
    (query : List (String × List String)) (rest : List Char) :
    (parseAuthority protocol hash search query rest).auth = none ∧
    ((parseAuthority protocol hash search query rest).host ≠ none →
      (parseAuthority protocol hash search query rest).slashes = true) ∧
    (parseAuthority protocol hash search query rest).protocol = protocol := by
  unfold parseAuthority
  split <;> simp

/-- `url.parse` on a URL of this embedding: no credentials, and a host only
behind `//`. -/
theorem urlParse_auth (u : String) :
    (urlParse u).auth = none ∧ ((urlParse u).host ≠ none → (urlParse u).slashes = true) := by
  unfold urlParse
  simp only []
  split
  · split
    · exact ⟨(parseAuthority_auth _ _ _ _ _).1, (parseAuthority_auth _ _ _ _ _).2.1⟩
    · exact ⟨(parseAuthority_auth _ _ _ _ _).1, (parseAuthority_auth _ _ _ _ _).2.1⟩
  · exact ⟨(parseAuthority_auth _ _ _ _ _).1, (parseAuthority_auth _ _ _ _ _).2.1⟩

/-- The target of a request to the API host starts with the scheme, `//` and
the selected host, when that host is not the empty text. -/
theorem targetOf_host (config : Config) (url : FetchInput) (a : Attempt) (u h : String)
    (hs : isSteamApi (urlParse u) = true) (hh : (finalUrl config url a u).host = some h)
    (hne : h ≠ "") :
    ∃ tail : String,
      targetOf config url a u = formatProtocol (urlParse u) ++ "//" ++ h ++ tail := by
  have hau := urlParse_auth u
  have hhost : (urlParse u).host ≠ none := by
    intro h0
    simp [isSteamApi, h0] at hs
  have hsl := hau.2 hhost
  have hfin : finalUrl config url a u = rewriteSteam config (effectiveRange url) a (urlParse u) := by
    simp [finalUrl, hs]
  rw [hfin] at hh
  have h1 : formatSlashed (rewriteSteam config (effectiveRange url) a (urlParse u)) = true := by
    simp [formatSlashed, rewriteSteam, hsl]
  have h2 : formatHost (rewriteSteam config (effectiveRange url) a (urlParse u)) = some h := by
    have hauth : formatAuth (rewriteSteam config (effectiveRange url) a (urlParse u)) = "" := by
      simp [formatAuth, rewriteSteam, hau.1]
    simp only [formatHost, hh, if_neg hne, hauth, String.empty_append]
  have h3 : formatProtocol (rewriteSteam config (effectiveRange url) a (urlParse u))
      = formatProtocol (urlParse u) := rfl
  refine ⟨(ensureFirst '/'
      ((rewriteSteam config (effectiveRange url) a (urlParse u)).pathname.getD ""))
    ++ ensureFirst '?' (formatSearch (rewriteSteam config (effectiveRange url) a (urlParse u)))
    ++ ensureFirst '#' ((rewriteSteam config (effectiveRange url) a (urlParse u)).hash.getD ""), ?_⟩
  simp only [targetOf, hfin, urlFormat, h1, h2, h3, if_true, Option.getD_some,
    String.append_assoc]

/-- C10: host selection respects the proxy affinity range.  For a request to
the API host, every configured host list (of length `n`, never empty), and
every random draw `r`, a double of `[0, 1)`: with an affinity range `k ≥ 1`
the host written into the request is the configured host at index
`floor(r * min k n)`, which is below `min k n`, so it is one of the first
`min k n` configured hosts; with no affinity range it is the configured host
at index `floor(r * n)`, which is below `n`, an element of the full list.
The product is the product of doubles, rounded to the nearest double; the
index is always within bounds, and the target of the request is the scheme,
`//`, that host and the rest (for a host that is not the empty text). -/
theorem getData_host_within_affinity_range (config : Config) (url : FetchInput) (a : Attempt)
    (u : String) (hs : isSteamApi (urlParse u) = true) (hr : a.rHost.valid) :
    (∀ o k, url = .options o → o.proxyAffinityRange = some k → 1 ≤ k →
      a.rHost.index (min k (splitComma config.STEAM_API_HOST).length)
        < min k (splitComma config.STEAM_API_HOST).length ∧
      (finalUrl config url a u).host
        = (splitComma config.STEAM_API_HOST)[a.rHost.index
            (min k (splitComma config.STEAM_API_HOST).length)]? ∧
      ∃ h, (finalUrl config url a u).host = some h ∧
        h ∈ (splitComma config.STEAM_API_HOST).take
          (min k (splitComma config.STEAM_API_HOST).length) ∧
        (h ≠ "" → ∃ tail : String,
          targetOf config url a u = formatProtocol (urlParse u) ++ "//" ++ h ++ tail)) ∧
    (effectiveRange url = none →
      a.rHost.index (splitComma config.STEAM_API_HOST).length
        < (splitComma config.STEAM_API_HOST).length ∧
      (finalUrl config url a u).host
        = (splitComma config.STEAM_API_HOST)[a.rHost.index
            (splitComma config.STEAM_API_HOST).length]? ∧
      ∃ h, (finalUrl config url a u).host = some h ∧ h ∈ splitComma config.STEAM_API_HOST ∧
        (h ≠ "" → ∃ tail : String,
          targetOf config url a u = formatProtocol (urlParse u) ++ "//" ++ h ++ tail)) := by
  constructor
  · intro o k hurl hk hk1
    obtain ⟨h, hc, hi, hget⟩ := chosenHost_some config a k hk1 hr
    have hrange : effectiveRange url = some k := by
      subst hurl
      simp only [effectiveRange, orUndefined, hk]
      rw [if_neg (by omega)]
    have hhost : (finalUrl config url a u).host = some h := by
      simp [finalUrl, hs, rewriteSteam, hrange, hc]
    refine ⟨hi, by rw [hhost, hget], h, hhost, ?_, targetOf_host config url a u h hs hhost⟩
    rw [List.mem_iff_getElem?]
    exact ⟨_, by rw [List.getElem?_take_of_lt hi]; exact hget⟩
  · intro hrange
    obtain ⟨h, hc, hi, hget⟩ := chosenHost_none config a hr
    have hhost : (finalUrl config url a u).host = some h := by
      simp [finalUrl, hs, rewriteSteam, hrange, hc]
    refine ⟨hi, by rw [hhost, hget], h, hhost, ?_, targetOf_host config url a u h hs hhost⟩
    rw [List.mem_iff_getElem?]
    exact ⟨_, hget⟩

/-- C10 with an affinity range of 2 over five hosts and the draw 1023/1024:
the host is the second configured one; and with no affinity range over
eleven hosts and the draw `1228254443828317 / 2 ^ 52`, whose product with 11
is rounded up to 3: the host is the fourth configured one. -/
theorem getData_host_within_affinity_range_witness :
    Draw.valid ⟨1023, 1024⟩ ∧
    (finalUrl ⟨0, "K", "h0,h1,h2,h3,h4"⟩ (.options ⟨detailsUrl, none, some 2, none, false⟩)
      ⟨⟨0, 1⟩, ⟨0, 1⟩, ⟨1023, 1024⟩, .null, some 200, cleanEnvelope⟩ detailsUrl).host
      = some "h1" ∧
    Draw.valid ⟨1228254443828317, 4503599627370496⟩ ∧
    (finalUrl ⟨0, "K", "h0,h1,h2,h3,h4,h5,h6,h7,h8,h9,h10"⟩ (.single detailsUrl)
      ⟨⟨0, 1⟩, ⟨0, 1⟩, ⟨1228254443828317, 4503599627370496⟩, .null, some 200, cleanEnvelope⟩
      detailsUrl).host = some "h3" :=
  ⟨by decide,
    ((getData_host_within_affinity_range ⟨0, "K", "h0,h1,h2,h3,h4"⟩
      (.options ⟨detailsUrl, none, some 2, none, false⟩)
      ⟨⟨0, 1⟩, ⟨0, 1⟩, ⟨1023, 1024⟩, .null, some 200, cleanEnvelope⟩ detailsUrl
      (by decide) (by decide)).1 _ 2 rfl rfl (by decide)).2.1.trans (by decide),
    by decide,
    ((getData_host_within_affinity_range ⟨0, "K", "h0,h1,h2,h3,h4,h5,h6,h7,h8,h9,h10"⟩
      (.single detailsUrl)
      ⟨⟨0, 1⟩, ⟨0, 1⟩, ⟨1228254443828317, 4503599627370496⟩, .null, some 200, cleanEnvelope⟩
      detailsUrl (by decide) (by decide)).2 rfl).2.1.trans (by decide)⟩

/-! ### The logged target -/

theorem intercalate_go_infix (sep : String) (xs : List String) :
    ∀ acc : String, acc.data <:+: (String.intercalate.go acc sep xs).data ∧
      ∀ x ∈ xs, x.data <:+: (String.intercalate.go acc sep xs).data := by
  induction xs with
  | nil =>
    intro acc
    exact ⟨List.infix_refl _, fun x hx => absurd hx (List.not_mem_nil x)⟩
  | cons y ys ih =>
    intro acc
    obtain ⟨h1, h2⟩ := ih (acc ++ sep ++ y)
    have hacc : acc.data <:+: (acc ++ sep ++ y).data := by
      simp only [String.data_append, List.append_assoc]
      exact List.infix_append' [] acc.data _
    have hy : y.data <:+: (acc ++ sep ++ y).data := by
      simp only [String.data_append]
      exact (List.suffix_append _ _).isInfix
    refine ⟨hacc.trans h1, ?_⟩
    intro x hx
    rcases List.mem_cons.mp hx with hx | hx
    · subst hx; exact hy.trans h1
    · exact h2 x hx

/-- Every joined piece occurs in the joined text. -/
theorem intercalate_infix (sep : String) (xs : List String) (x : String) (hx : x ∈ xs) :
    x.data <:+: (String.intercalate sep xs).data := by
  cases xs with
  | nil => exact absurd hx (List.not_mem_nil x)
  | cons y ys =>
    obtain ⟨h1, h2⟩ := intercalate_go_infix sep ys y
    rcases List.mem_cons.mp hx with hx | hx
    · subst hx; exact h1
    · exact h2 x hx

theorem setParam_mem (k v : String) (q : List (String × List String)) :
    (k, [v]) ∈ setParam k v q := by
  induction q with
  | nil => simp [setParam]
  | cons kv r ih =>
    obtain ⟨k', vs⟩ := kv
    unfold setParam
    split
    · rename_i h; subst h; simp
    · exact List.mem_cons_of_mem _ ih

/-- After `query.key = key` the stringified query has the text `key=` followed
by the escaped key. -/
theorem qsStringify_setParam_key (key : String) (q : List (String × List String)) :
    ("key=" ++ qsEscape key).data <:+: (qsStringify (setParam "key" key q)).data := by
  have hmem : qsEscape "key" ++ "=" ++ qsEscape key
      ∈ (setParam "key" key q).flatMap fun kv =>
          kv.2.map fun v => qsEscape kv.1 ++ "=" ++ qsEscape v := by
    rw [List.mem_flatMap]
    exact ⟨("key", [key]), setParam_mem _ _ _, by simp⟩
  have h := intercalate_infix "&" _ _ hmem
  have e : qsEscape "key" ++ "=" = "key=" := by decide
  rw [e] at h
  exact h

/-- `querystring.escape` leaves a text of unreserved characters as it is. -/
theorem qsEscape_unreserved (s : String) (h : ∀ c ∈ s.data, unreserved c = true) :
    qsEscape s = s := by
  unfold qsEscape
  have : ∀ l : List Char, (∀ c ∈ l, unreserved c = true) →
      (l.flatMap fun c =>
        if unreserved c then [c] else (String.utf8EncodeChar c).flatMap percentByte) = l := by
    intro l
    induction l with
    | nil => intro _; rfl
    | cons c cs ih =>
      intro hl
      rw [List.flatMap_cons, if_pos (hl c (List.mem_cons_self _ _)),
        ih (fun d hd => hl d (List.mem_cons_of_mem _ hd))]
      rfl
  rw [this s.data h]

theorem ensureFirst_cons (c : Char) (s : String) : ensureFirst c (String.mk (c :: s.data)) =
    String.mk (c :: s.data) := by
  simp [ensureFirst]

/-- With `search` cleared and a query that is not empty, `url.format` writes
`?` and the stringified query object. -/
theorem urlFormat_search_none (parse : Url) (hs : parse.search = none)
    (hq : qsStringify parse.query ≠ "") :
    ∃ pre post : String,
      urlFormat parse = pre ++ ("?" ++ qsStringify parse.query) ++ post := by
  have e : ensureFirst '?' ("?" ++ qsStringify parse.query) = "?" ++ qsStringify parse.query :=
    ensureFirst_cons '?' (qsStringify parse.query)
  have hf : formatSearch parse = "?" ++ qsStringify parse.query := by
    simp only [formatSearch, hs, if_neg hq]
  exact ⟨_, _, by rw [urlFormat, hf, e]⟩

/-- C9, as stated, fails: the target written to the log by the per-attempt
trace and by the failure diagnostic contains the API key selected for the
attempt, and a run that differs only in the credential pool logs different
text. -/
theorem logged_target_contains_selected_key :
    isSteamApi (urlParse detailsUrl) = true ∧
    chosenKey sampleConfig failedResponse = some "K1" ∧
    logged (getData sampleConfig (.single detailsUrl) [failedResponse])
      = ["http://h1.example/IDOTA2Match_570/GetMatchDetails/V001/?key=K1&match_id=1",
         "http://h1.example/IDOTA2Match_570/GetMatchDetails/V001/?key=K1&match_id=1"] ∧
    "K1".data
      <:+: "http://h1.example/IDOTA2Match_570/GetMatchDetails/V001/?key=K1&match_id=1".data ∧
    logged (getData { sampleConfig with STEAM_API_KEY := "S1,S2" } (.single detailsUrl)
        [failedResponse])
      ≠ logged (getData sampleConfig (.single detailsUrl) [failedResponse]) := by
  decide

/-- C9, amended: for every request whose host is `api.steampowered.com`,
every credential pool and every random draw in `[0, 1)`, the target string
that `getData` writes to the log is the URL it requests, and it carries the
API key selected for the attempt: it contains `key=` followed by the
querystring-escaped key, which is the key itself when the key consists of
unreserved characters (letters, digits, `-_.!~*'()`). -/
theorem getData_logs_requested_url_with_key (config : Config) (url : FetchInput) (a : Attempt)
    (rest : List Attempt) (u : String) (hu : pickUrl url a = some u)
    (hs : isSteamApi (urlParse u) = true) (hr : a.rKey.valid) :
    (chosenKey config a).isSome = true ∧
    (logged (getData config url (a :: rest))).head? = some (targetOf config url a u) ∧
    (requests (getData config url (a :: rest))).head?
      = some (targetOf config url a u, effectiveTimeout url) ∧
    ∀ key, chosenKey config a = some key →
      key ∈ apiKeys config ∧
      ("key=" ++ qsEscape key).data <:+: (targetOf config url a u).data ∧
      ((∀ c ∈ key.data, unreserved c = true) →
        key.data <:+: (targetOf config url a u).data) := by
  have hn : 0 < (apiKeys config).length := splitComma_length_pos _
  have hi := Draw.index_lt a.rKey _ hr hn
  have hkey : chosenKey config a = some ((apiKeys config)[a.rKey.index (apiKeys config).length]) :=
    List.getElem?_eq_getElem hi
  refine ⟨by rw [hkey]; rfl, by simp [getData, hu, logged], by simp [getData, hu, requests], ?_⟩
  intro key hk
  have hmem : key ∈ apiKeys config := by
    rw [hkey] at hk
    cases hk
    exact List.getElem_mem _
  have hinf : ("key=" ++ qsEscape key).data <:+: (targetOf config url a u).data := by
    have hq := qsStringify_setParam_key key (urlParse u).query
    have hne : qsStringify (setParam "key" key (urlParse u).query) ≠ "" := by
      intro h0
      rw [h0] at hq
      have := List.IsInfix.length_le hq
      simp at this
    obtain ⟨pre, post, hfmt⟩ := urlFormat_search_none
      (rewriteSteam config (effectiveRange url) a (urlParse u)) rfl
      (by simpa [rewriteSteam, hk] using hne)
    simp only [targetOf, finalUrl, hs, if_true, hfmt, String.data_append]
    simp only [rewriteSteam, hk, Option.getD_some]
    exact hq.trans ⟨pre.data ++ "?".data, post.data, by simp only [List.append_assoc]⟩
  refine ⟨hmem, hinf, ?_⟩
  intro hun
  rw [qsEscape_unreserved _ hun] at hinf
  refine List.IsInfix.trans ?_ hinf
  simp only [String.data_append]
  exact (List.suffix_append _ _).isInfix

/-- C9, amended, on a request for match details with the second key of the
pool selected. -/
theorem getData_logs_requested_url_with_key_witness :
    Draw.valid ⟨1, 2⟩ ∧
    chosenKey sampleConfig (okResponse cleanEnvelope) = some "K2" ∧
    targetOf sampleConfig (.single detailsUrl) (okResponse cleanEnvelope) detailsUrl
      = "http://h2.example/IDOTA2Match_570/GetMatchDetails/V001/?key=K2&match_id=1" ∧
    "K2".data <:+: (targetOf sampleConfig (.single detailsUrl) (okResponse cleanEnvelope)
      detailsUrl).data :=
  ⟨by decide, by decide, by decide,
    ((getData_logs_requested_url_with_key sampleConfig (.single detailsUrl)
      (okResponse cleanEnvelope) [] detailsUrl (by decide) (by decide) (by decide)).2.2.2
        "K2" (by decide)).2.2 (by decide)⟩

/-! ### Occurrences of a text -/

theorem countOcc_short (p : List Char) : ∀ t : List Char, t.length < p.length → countOcc p t = 0 := by
  intro t
  induction t with
  | nil =>
    intro h
    have : p ≠ [] := by rintro rfl; simp at h
    simp [countOcc, this]
  | cons c cs ih =>
    intro h
    have hp : ¬ p <+: c :: cs := fun hp => by
      have := hp.length_le
      omega
    simp only [countOcc, if_neg hp, Nat.zero_add]
    exact ih (by simp at h; omega)

theorem prefix_append_iff_of_le (p T Y : List Char) (h : p.length ≤ T.length) :
    p <+: T ++ Y ↔ p <+: T :=
  ⟨fun hp => List.prefix_of_prefix_length_le hp (List.prefix_append T Y) h,
   fun hp => hp.trans (List.prefix_append T Y)⟩

theorem countOcc_append (p : List Char) (hp : p ≠ []) (Y : List Char) :
    ∀ T : List Char, countOcc p (T ++ Y)
      = countOcc p T + countOcc p (T.drop (T.length - (p.length - 1)) ++ Y) := by
  intro T
  induction T with
  | nil => simp [countOcc, hp]
  | cons c T ih =>
    have hpl : 0 < p.length := List.length_pos.mpr hp
    by_cases hlen : p.length ≤ (c :: T).length
    · have hd : (c :: T).drop ((c :: T).length - (p.length - 1))
          = T.drop (T.length - (p.length - 1)) := by
        have : (c :: T).length - (p.length - 1) = (T.length - (p.length - 1)) + 1 := by
          simp only [List.length_cons] at hlen ⊢
          omega
        rw [this, List.drop_succ_cons]
      have hiff := prefix_append_iff_of_le p (c :: T) Y hlen
      rw [hd, List.cons_append]
      simp only [countOcc]
      rw [ih]
      by_cases hpre : p <+: c :: T
      · rw [if_pos hpre, if_pos (by rw [← List.cons_append]; exact hiff.mpr hpre)]
        omega
      · rw [if_neg hpre, if_neg (by rw [← List.cons_append]; exact fun h => hpre (hiff.mp h))]
        omega
    · have hlt : (c :: T).length < p.length := by omega
      have hd : (c :: T).drop ((c :: T).length - (p.length - 1)) = c :: T := by
        have : (c :: T).length - (p.length - 1) = 0 := by omega
        rw [this, List.drop_zero]
      rw [hd, countOcc_short p (c :: T) hlt, Nat.zero_add]

/-- A stretch of text without the first character of the pattern holds no
start of an occurrence. -/
theorem countOcc_skip (h : Char) (q w X : List Char) (hw : h ∉ w) :
    countOcc (h :: q) (w ++ X) = countOcc (h :: q) X := by
  induction w with
  | nil => rfl
  | cons c w ih =>
    have hc : h ≠ c := fun e => hw (by rw [e]; exact List.mem_cons_self _ _)
    have hpre : ¬ (h :: q) <+: c :: (w ++ X) := by
      rw [List.cons_prefix_cons]
      exact fun e => hc e.1
    rw [List.cons_append]
    simp only [countOcc, if_neg hpre, Nat.zero_add]
    exact ih (fun hm => hw (List.mem_cons_of_mem _ hm))

theorem countOcc_append_skip (h : Char) (q T Y : List Char)
    (hT : h ∉ T.drop (T.length - q.length)) :
    countOcc (h :: q) (T ++ Y) = countOcc (h :: q) T + countOcc (h :: q) Y := by
  rw [countOcc_append (h :: q) (by simp) Y T]
  simp only [List.length_cons, Nat.add_sub_cancel]
  rw [countOcc_skip h q _ Y hT]

/-- No suffix of `key=` starts in a value without `=` that is followed by
nothing or by `&`. -/
theorem key_suffix_not_prefix (v X : List Char) (hv : '=' ∉ v)
    (hX : X = [] ∨ ∃ X', X = '&' :: X') :
    ∀ q ∈ [['k', 'e', 'y', '='], ['e', 'y', '='], ['y', '='], ['=']], ¬ q <+: v ++ X := by
  induction v with
  | nil =>
    intro q hq
    rcases hX with rfl | ⟨X', rfl⟩
    · simp only [List.mem_cons, List.mem_singleton, List.not_mem_nil, or_false] at hq
      rcases hq with rfl | rfl | rfl | rfl <;> simp
    · simp only [List.mem_cons, List.mem_singleton, List.not_mem_nil, or_false] at hq
      rcases hq with rfl | rfl | rfl | rfl <;> simp [List.cons_prefix_cons]
  | cons c v ih =>
    have hc : c ≠ '=' := fun e => hv (by rw [e]; exact List.mem_cons_self _ _)
    have ih' := ih (fun hm => hv (List.mem_cons_of_mem _ hm))
    intro q hq
    simp only [List.mem_cons, List.mem_singleton, List.not_mem_nil, or_false] at hq
    rw [List.cons_append]
    rcases hq with rfl | rfl | rfl | rfl
    · rw [List.cons_prefix_cons]; exact fun e => ih' _ (by simp) e.2
    · rw [List.cons_prefix_cons]; exact fun e => ih' _ (by simp) e.2
    · rw [List.cons_prefix_cons]; exact fun e => ih' _ (by simp) e.2
    · rw [List.cons_prefix_cons]; exact fun e => hc e.1.symm

theorem countOcc_key_value (v X : List Char) (hv : '=' ∉ v)
    (hX : X = [] ∨ ∃ X', X = '&' :: X') :
    countOcc ['k', 'e', 'y', '='] (v ++ X) = countOcc ['k', 'e', 'y', '='] X := by
  induction v with
  | nil => rfl
  | cons c v ih =>
    have hpre := key_suffix_not_prefix (c :: v) X hv hX _ (List.mem_cons_self _ _)
    rw [List.cons_append] at hpre ⊢
    simp only [countOcc, if_neg hpre, Nat.zero_add]
    exact ih (fun hm => hv (List.mem_cons_of_mem _ hm))

theorem countOcc_key_plain (v : List Char) (hv : '=' ∉ v) :
    countOcc ['k', 'e', 'y', '='] v = 0 := by
  have h := countOcc_key_value v [] hv (Or.inl rfl)
  rw [List.append_nil] at h
  rw [h]; rfl

theorem countOcc_amp_plain (q v : List Char) (hv : '&' ∉ v) :
    countOcc ('&' :: q) v = 0 := by
  have h := countOcc_skip '&' q v [] hv
  rw [List.append_nil] at h
  rw [h]; rfl

/-- The occurrences in a fixed text followed by a value: those of the fixed
text, when nothing starts in its last characters or in the value. -/
theorem occurrences_append_value (p : String) (h : Char) (q : List Char) (hp : p.data = h :: q)
    (T v : String) (hT : h ∉ T.data.drop (T.data.length - q.length))
    (hv : countOcc (h :: q) v.data = 0) :
    occurrences p (T ++ v) = occurrences p T := by
  unfold occurrences
  rw [hp, String.data_append, countOcc_append_skip h q _ _ hT, hv, Nat.add_zero]

theorem JsVal.prop_of_ne (payload : JsVal) (h1 : payload ≠ .undefined) (h2 : payload ≠ .null)
    (k : String) : payload.prop k = some (payload.get k) := by
  cases payload <;> simp_all [JsVal.prop]

theorem JsVal.prop_eq_none (payload : JsVal) (h : payload = .undefined ∨ payload = .null)
    (k : String) : payload.prop k = none := by
  rcases h with h | h <;> subst h <;> rfl

/-! ### Job descriptors -/

/-- C6, as stated, fails: `toString` and `constructor` are not job names, yet
`generateJob` does not throw for them: the method `opts` inherits from
`Object.prototype` runs and its value is returned. -/
theorem generateJob_inherited_name_does_not_throw :
    "toString" ∉ jobKinds ∧ "constructor" ∉ jobKinds ∧
    generateJob "toString" (.obj []) = .value (.str "[object Object]") ∧
    generateJob "constructor" (.obj []) = .value (.obj []) ∧
    generateJob "toString" (.obj []) ≠ .throws ∧
    generateJob "constructor" (.obj []) ≠ .throws := by
  decide

/-- C6, amended: `generateJob` throws for every type string that is neither
one of the fourteen job names nor the name of a method that `opts` inherits
from `Object.prototype` and that returns normally; for such an inherited name
(`toString`, `constructor`, ...) it does not throw and returns that method's
value, which is no job descriptor. -/
theorem generateJob_unknown_type (type : String) (payload : JsVal) (h : type ∉ jobKinds) :
    (type ∉ inheritedMethods → generateJob type payload = .throws) ∧
    (type ∈ inheritedMethods →
      generateJob type payload ≠ .throws ∧ ∀ j, generateJob type payload ≠ .job j) := by
  simp only [jobKinds, inheritedMethods, List.mem_cons, List.mem_singleton, List.not_mem_nil,
    or_false, not_or] at h ⊢
  constructor
  · intro h2
    unfold generateJob
    split <;> simp_all
  · intro h2
    unfold generateJob
    rcases h2 with h2 | h2 | h2 | h2 | h2 | h2 | h2 | h2 | h2 <;> subst h2 <;> simp

/-- C6, amended, at the type strings `api_unknown` and `valueOf`. -/
theorem generateJob_unknown_type_witness :
    "api_unknown" ∉ jobKinds ∧ "valueOf" ∉ jobKinds ∧
    generateJob "api_unknown" (.obj []) = .throws ∧
    generateJob "valueOf" (.obj []) ≠ .throws :=
  ⟨by decide, by decide,
    (generateJob_unknown_type "api_unknown" (.obj []) (by decide)).1 (by decide),
    ((generateJob_unknown_type "valueOf" (.obj []) (by decide)).2 (by decide)).1⟩

theorem String.join_nil : String.join [] = "" := rfl

theorem String.foldl_append_eq (xs : List String) (acc : String) :
    List.foldl (fun r s => r ++ s) acc xs = acc ++ String.join xs := by
  induction xs generalizing acc with
  | nil => simp [String.join]
  | cons x xs ih =>
    simp only [List.foldl_cons, String.join]
    rw [ih (acc ++ x), ih ("" ++ x), String.empty_append, String.append_assoc]

theorem String.join_cons (x : String) (xs : List String) :
    String.join (x :: xs) = x ++ String.join xs := by
  show List.foldl (fun r s => r ++ s) "" (x :: xs) = _
  rw [List.foldl_cons, String.foldl_append_eq, String.empty_append]

/-- One step of the `api_history` query as the design document words it: the
first field contributes its conditional piece. -/
theorem join_truthy_fields_cons (payload : JsVal) (f : String × String)
    (fs : List (String × String)) :
    String.join (((f :: fs).filter fun f => (payload.get f.2).truthy).map fun f =>
        "&" ++ f.1 ++ "=" ++ (payload.get f.2).toStr)
      = optParam f.1 (payload.get f.2)
        ++ String.join ((fs.filter fun f => (payload.get f.2).truthy).map fun f =>
            "&" ++ f.1 ++ "=" ++ (payload.get f.2).toStr) := by
  cases h : (payload.get f.2).truthy
  · simp [List.filter, h, optParam]
  · simp only [List.filter, h, optParam, List.map_cons, String.join_cons, if_true]

/-- C7, as stated, fails: with `account_id` present and equal to 0 the URL
has no `&account_id=0`. -/
theorem api_history_drops_zero :
    isPresent (.obj [("account_id", .num 0)]) "account_id" = true ∧
    (generateJob "api_history" (.obj [("account_id", .num 0)])).urlText
      = some "http://api.steampowered.com/IDOTA2Match_570/GetMatchHistory/V001/?key=undefined" ∧
    historyUrlByPresence (.obj [("account_id", .num 0)])
      = "http://api.steampowered.com/IDOTA2Match_570/GetMatchHistory/V001/?key=undefined&account_id=0" ∧
    (generateJob "api_history" (.obj [("account_id", .num 0)])).urlText
      ≠ some (historyUrlByPresence (.obj [("account_id", .num 0)])) := by
  decide

/-- C7, amended: for `generateJob('api_history', payload)` and every payload
other than `null` and `undefined`, the URL is the `GetMatchHistory` template
followed, in the fixed order `account_id`, `matches_requested`, `hero_id`,
`league_id` (from `payload.leagueid`), `start_at_match_id`, by `&name=value`
for exactly those fields whose value is truthy; a field that is absent, or
present with a falsy value (`0`, `''`, `null`, `false`, `NaN`), contributes no
text at all. -/
theorem api_history_url (payload : JsVal) (h1 : payload ≠ .undefined) (h2 : payload ≠ .null) :
    (generateJob "api_history" payload).urlText = some (historyUrlByTruthiness payload) := by
  have hp : ∀ k, payload.prop k = some (payload.get k) := by
    intro k; cases payload <;> simp_all [JsVal.prop]
  have ht : apiUrl ++ "/IDOTA2Match_570/GetMatchHistory/V001/?key=" ++ apiKey.toStr
      = historyTemplate := by decide
  simp only [generateJob, api_history, hp, ofHandler, Outcome.urlText, Option.bind_eq_bind,
    Option.some_bind, Option.pure_def, historyUrlByTruthiness, historyUrlWith, historyFields,
    join_truthy_fields_cons, List.filter_nil, List.map_nil, String.join_nil, Option.some.injEq,
    ht]
  simp only [String.append_assoc, String.append_empty]

/-- C7, amended, on a payload with a hero filter, a zero account and no other
field. -/
theorem api_history_url_witness :
    (generateJob "api_history" (.obj [("account_id", .num 0), ("hero_id", .num 5)])).urlText
      = some "http://api.steampowered.com/IDOTA2Match_570/GetMatchHistory/V001/?key=undefined&hero_id=5" :=
  (api_history_url (.obj [("account_id", .num 0), ("hero_id", .num 5)]) (by decide)
    (by decide)).trans (by decide)

/-! ### Parameters of the job URLs -/

theorem counts_single_text (T v : String) (hv : Plain v)
    (hk1 : 'k' ∉ T.data.drop (T.data.length - 3)) (hk2 : occurrences "key=" T = 1)
    (ha1 : '&' ∉ T.data.drop (T.data.length - 8)) (ha2 : occurrences "&hero_id=" T = 0) :
    occurrences "key=" (T ++ v) = 1 ∧ occurrences "&hero_id=" (T ++ v) = 0 := by
  constructor
  · rw [occurrences_append_value "key=" 'k' ['e', 'y', '='] rfl T _ hk1
      (countOcc_key_plain _ hv.2), hk2]
  · rw [occurrences_append_value "&hero_id=" '&' ['h', 'e', 'r', 'o', '_', 'i', 'd', '='] rfl T _
      ha1 (countOcc_amp_plain _ _ hv.1), ha2]



theorem url_api_details (payload : JsVal) (text : String)
    (hurl : (generateJob "api_details" payload).urlText = some text) :
    text = (apiUrl ++ "/IDOTA2Match_570/GetMatchDetails/V001/?key=" ++ apiKey.toStr
      ++ "&match_id=") ++ (payload.get "match_id").toStr := by
  by_cases h : payload = .undefined ∨ payload = .null
  · simp [generateJob, api_details, JsVal.prop_eq_none _ h, ofHandler, Outcome.urlText] at hurl
  · rw [not_or] at h
    simp only [generateJob, api_details, JsVal.prop_of_ne _ h.1 h.2, ofHandler, Outcome.urlText,
      Option.bind_eq_bind, Option.some_bind, Option.pure_def, Option.some.injEq] at hurl
    exact hurl.symm

theorem url_api_sequence (payload : JsVal) (text : String)
    (hurl : (generateJob "api_sequence" payload).urlText = some text) :
    text = (apiUrl ++ "/IDOTA2Match_570/GetMatchHistoryBySequenceNum/V001/?key="
      ++ apiKey.toStr ++ "&start_at_match_seq_num=")
      ++ (payload.get "start_at_match_seq_num").toStr := by
  by_cases h : payload = .undefined ∨ payload = .null
  · simp [generateJob, api_sequence, JsVal.prop_eq_none _ h, ofHandler, Outcome.urlText] at hurl
  · rw [not_or] at h
    simp only [generateJob, api_sequence, JsVal.prop_of_ne _ h.1 h.2, ofHandler, Outcome.urlText,
      Option.bind_eq_bind, Option.some_bind, Option.pure_def, Option.some.injEq] at hurl
    exact hurl.symm

theorem url_api_heroes (payload : JsVal) (text : String)
    (hurl : (generateJob "api_heroes" payload).urlText = some text) :
    text = (apiUrl ++ "/IEconDOTA2_570/GetHeroes/v0001/?key=" ++ apiKey.toStr ++ "&language=")
      ++ (payload.get "language").toStr := by
  by_cases h : payload = .undefined ∨ payload = .null
  · simp [generateJob, api_heroes, JsVal.prop_eq_none _ h, ofHandler, Outcome.urlText] at hurl
  · rw [not_or] at h
    simp only [generateJob, api_heroes, JsVal.prop_of_ne _ h.1 h.2, ofHandler, Outcome.urlText,
      Option.bind_eq_bind, Option.some_bind, Option.pure_def, Option.some.injEq] at hurl
    exact hurl.symm

theorem url_api_items (payload : JsVal) (text : String)
    (hurl : (generateJob "api_items" payload).urlText = some text) :
    text = (apiUrl ++ "/IEconDOTA2_570/GetGameItems/v1?key=" ++ apiKey.toStr ++ "&language=")
      ++ (payload.get "language").toStr := by
  by_cases h : payload = .undefined ∨ payload = .null
  · simp [generateJob, api_items, JsVal.prop_eq_none _ h, ofHandler, Outcome.urlText] at hurl
  · rw [not_or] at h
    simp only [generateJob, api_items, JsVal.prop_of_ne _ h.1 h.2, ofHandler, Outcome.urlText,
      Option.bind_eq_bind, Option.some_bind, Option.pure_def, Option.some.injEq] at hurl
    exact hurl.symm

theorem url_api_leagues (payload : JsVal) (text : String)
    (hurl : (generateJob "api_leagues" payload).urlText = some text) :
    text = (apiUrl ++ "/IDOTA2Match_570/GetLeagueListing/v0001/?key=" ++ apiKey.toStr
      ++ "&language=") ++ (payload.get "language").toStr := by
  by_cases h : payload = .undefined ∨ payload = .null
  · simp [generateJob, api_leagues, JsVal.prop_eq_none _ h, ofHandler, Outcome.urlText] at hurl
  · rw [not_or] at h
    simp only [generateJob, api_leagues, JsVal.prop_of_ne _ h.1 h.2, ofHandler, Outcome.urlText,
      Option.bind_eq_bind, Option.some_bind, Option.pure_def, Option.some.injEq] at hurl
    exact hurl.symm

theorem url_api_teams (payload : JsVal) (text : String)
    (hurl : (generateJob "api_teams" payload).urlText = some text) :
    text = (apiUrl ++ "/IDOTA2Teams_570/GetTeamInfo/v1/?key=" ++ apiKey.toStr ++ "&team_id=")
      ++ (payload.get "team_id").toStr := by
  by_cases h : payload = .undefined ∨ payload = .null
  · simp [generateJob, api_teams, JsVal.prop_eq_none _ h, ofHandler, Outcome.urlText] at hurl
  · rw [not_or] at h
    simp only [generateJob, api_teams, JsVal.prop_of_ne _ h.1 h.2, ofHandler, Outcome.urlText,
      Option.bind_eq_bind, Option.some_bind, Option.pure_def, Option.some.injEq] at hurl
    exact hurl.symm

theorem url_api_item_icon (payload : JsVal) (text : String)
    (hurl : (generateJob "api_item_icon" payload).urlText = some text) :
    text = (apiUrl ++ "/IEconDOTA2_570/GetItemIconPath/v1?key=" ++ apiKey.toStr ++ "&iconname=")
      ++ (payload.get "iconname").toStr := by
  by_cases h : payload = .undefined ∨ payload = .null
  · simp [generateJob, api_item_icon, JsVal.prop_eq_none _ h, ofHandler, Outcome.urlText] at hurl
  · rw [not_or] at h
    simp only [generateJob, api_item_icon, JsVal.prop_of_ne _ h.1 h.2, ofHandler,
      Outcome.urlText, Option.bind_eq_bind, Option.some_bind, Option.pure_def,
      Option.some.injEq] at hurl
    exact hurl.symm

/-- The kinds whose URL is a fixed text followed by one payload value. -/
theorem counts_single_value_kinds (type : String) (payload : JsVal) (text : String)
    (hkind : type ∈ ["api_details", "api_sequence", "api_heroes", "api_items", "api_leagues",
      "api_teams", "api_item_icon"])
    (hurl : (generateJob type payload).urlText = some text)
    (hplain : ∀ k, Plain (payload.get k).toStr) :
    occurrences "key=" text = 1 ∧ occurrences "&hero_id=" text = 0 := by
  simp only [List.mem_cons, List.mem_singleton, List.not_mem_nil, or_false] at hkind
  rcases hkind with h | h | h | h | h | h | h <;> subst h
  · rw [url_api_details payload text hurl]
    exact counts_single_text _ _ (hplain _) (by decide) (by decide) (by decide) (by decide)
  · rw [url_api_sequence payload text hurl]
    exact counts_single_text _ _ (hplain _) (by decide) (by decide) (by decide) (by decide)
  · rw [url_api_heroes payload text hurl]
    exact counts_single_text _ _ (hplain _) (by decide) (by decide) (by decide) (by decide)
  · rw [url_api_items payload text hurl]
    exact counts_single_text _ _ (hplain _) (by decide) (by decide) (by decide) (by decide)
  · rw [url_api_leagues payload text hurl]
    exact counts_single_text _ _ (hplain _) (by decide) (by decide) (by decide) (by decide)
  · rw [url_api_teams payload text hurl]
    exact counts_single_text _ _ (hplain _) (by decide) (by decide) (by decide) (by decide)
  · rw [url_api_item_icon payload text hurl]
    exact counts_single_text _ _ (hplain _) (by decide) (by decide) (by decide) (by decide)

/-- The kinds whose URL is a fixed text. -/
theorem counts_fixed_kinds (type : String) (payload : JsVal) (text : String)
    (hkind : type ∈ ["api_live", "api_notable", "api_item_schema"])
    (hurl : (generateJob type payload).urlText = some text) :
    occurrences "key=" text = 1 ∧ occurrences "&hero_id=" text = 0 := by
  simp only [List.mem_cons, List.mem_singleton, List.not_mem_nil, or_false] at hkind
  rcases hkind with h | h | h <;> subst h
  · simp only [generateJob, api_live, ofHandler, Outcome.urlText, Option.some.injEq] at hurl
    subst hurl; decide
  · simp only [generateJob, api_notable, ofHandler, Outcome.urlText, Option.some.injEq] at hurl
    subst hurl; decide
  · simp only [generateJob, api_item_schema, ofHandler, Outcome.urlText,
      Option.some.injEq] at hurl
    subst hurl; decide


/-- A fixed text `L` and a value in the middle of a URL hold no `key=`. -/
theorem key_segment (L : String) (v X : List Char)
    (hL1 : 'k' ∉ L.data.drop (L.data.length - 3))
    (hL0 : countOcc ['k', 'e', 'y', '='] L.data = 0) (hv : '=' ∉ v)
    (hX : X = [] ∨ ∃ X', X = '&' :: X') :
    countOcc ['k', 'e', 'y', '='] (L.data ++ (v ++ X)) = countOcc ['k', 'e', 'y', '='] X := by
  rw [countOcc_append_skip 'k' ['e', 'y', '='] _ _ hL1, hL0, Nat.zero_add,
    countOcc_key_value v X hv hX]

/-- A fixed text `L` and a value in the middle of a URL hold no `&hero_id=`,
when `L` holds none. -/
theorem amp_segment (L : String) (v X : List Char)
    (hL1 : '&' ∉ L.data.drop (L.data.length - 8))
    (hL0 : countOcc ['&', 'h', 'e', 'r', 'o', '_', 'i', 'd', '='] L.data = 0) (hv : '&' ∉ v) :
    countOcc ['&', 'h', 'e', 'r', 'o', '_', 'i', 'd', '='] (L.data ++ (v ++ X))
      = countOcc ['&', 'h', 'e', 'r', 'o', '_', 'i', 'd', '='] X := by
  rw [countOcc_append_skip '&' ['h', 'e', 'r', 'o', '_', 'i', 'd', '='] _ _ hL1, hL0,
    Nat.zero_add, countOcc_skip '&' _ v X hv]

theorem optParam_data (name : String) (v : JsVal) :
    (optParam name v).data
      = if v.truthy then ("&" ++ name ++ "=").data ++ v.toStr.data else [] := by
  unfold optParam
  split <;> simp [String.data_append]

theorem optParam_head (name : String) (v : JsVal) (X : List Char)
    (hX : X = [] ∨ ∃ X', X = '&' :: X') :
    (optParam name v).data ++ X = [] ∨ ∃ X', (optParam name v).data ++ X = '&' :: X' := by
  rw [optParam_data]
  split
  · right
    exact ⟨_, by simp only [String.data_append, List.append_assoc]; rfl⟩
  · simpa using hX

theorem key_optParam (name : String) (v : JsVal) (X : List Char)
    (hL1 : 'k' ∉ ("&" ++ name ++ "=").data.drop (("&" ++ name ++ "=").data.length - 3))
    (hL0 : countOcc ['k', 'e', 'y', '='] ("&" ++ name ++ "=").data = 0)
    (hv : Plain v.toStr) (hX : X = [] ∨ ∃ X', X = '&' :: X') :
    countOcc ['k', 'e', 'y', '='] ((optParam name v).data ++ X)
      = countOcc ['k', 'e', 'y', '='] X := by
  rw [optParam_data]
  split
  · rw [List.append_assoc]
    exact key_segment _ _ _ hL1 hL0 hv.2 hX
  · rfl

theorem amp_optParam (name : String) (v : JsVal) (X : List Char)
    (hL1 : '&' ∉ ("&" ++ name ++ "=").data.drop (("&" ++ name ++ "=").data.length - 8))
    (hL0 : countOcc ['&', 'h', 'e', 'r', 'o', '_', 'i', 'd', '=']
      ("&" ++ name ++ "=").data = 0)
    (hv : Plain v.toStr) :
    countOcc ['&', 'h', 'e', 'r', 'o', '_', 'i', 'd', '='] ((optParam name v).data ++ X)
      = countOcc ['&', 'h', 'e', 'r', 'o', '_', 'i', 'd', '='] X := by
  rw [optParam_data]
  split
  · rw [List.append_assoc]
    exact amp_segment _ _ _ hL1 hL0 hv.1
  · rfl

theorem url_api_history (payload : JsVal) (text : String)
    (hurl : (generateJob "api_history" payload).urlText = some text) :
    text = (apiUrl ++ "/IDOTA2Match_570/GetMatchHistory/V001/?key=" ++ apiKey.toStr)
      ++ optParam "account_id" (payload.get "account_id")
      ++ optParam "matches_requested" (payload.get "matches_requested")
      ++ optParam "hero_id" (payload.get "hero_id")
      ++ optParam "league_id" (payload.get "leagueid")
      ++ optParam "start_at_match_id" (payload.get "start_at_match_id") := by
  by_cases h : payload = .undefined ∨ payload = .null
  · simp [generateJob, api_history, JsVal.prop_eq_none _ h, ofHandler, Outcome.urlText] at hurl
  · rw [not_or] at h
    simp only [generateJob, api_history, JsVal.prop_of_ne _ h.1 h.2, ofHandler, Outcome.urlText,
      Option.bind_eq_bind, Option.some_bind, Option.pure_def, Option.some.injEq] at hurl
    exact hurl.symm

/-- The two counts for a URL of the shape of `api_history`: a fixed text and
five conditional pieces. -/
theorem counts_history_shape (T : String) (payload : JsVal)
    (hplain : ∀ k, Plain (payload.get k).toStr)
    (hk1 : 'k' ∉ T.data.drop (T.data.length - 3))
    (hk2 : countOcc ['k', 'e', 'y', '='] T.data = 1)
    (ha1 : '&' ∉ T.data.drop (T.data.length - 8))
    (ha2 : countOcc ['&', 'h', 'e', 'r', 'o', '_', 'i', 'd', '='] T.data = 0) :
    occurrences "key=" (T
        ++ optParam "account_id" (payload.get "account_id")
        ++ optParam "matches_requested" (payload.get "matches_requested")
        ++ optParam "hero_id" (payload.get "hero_id")
        ++ optParam "league_id" (payload.get "leagueid")
        ++ optParam "start_at_match_id" (payload.get "start_at_match_id")) = 1 ∧
    (payload.get "hero_id" = .undefined →
      occurrences "&hero_id=" (T
        ++ optParam "account_id" (payload.get "account_id")
        ++ optParam "matches_requested" (payload.get "matches_requested")
        ++ optParam "hero_id" (payload.get "hero_id")
        ++ optParam "league_id" (payload.get "leagueid")
        ++ optParam "start_at_match_id" (payload.get "start_at_match_id")) = 0) := by
  have hnil : ([] : List Char) = [] ∨ ∃ X', ([] : List Char) = '&' :: X' := Or.inl rfl
  have h5 := optParam_head "start_at_match_id" (payload.get "start_at_match_id") [] hnil
  have h4 := optParam_head "league_id" (payload.get "leagueid") _ h5
  have h3 := optParam_head "hero_id" (payload.get "hero_id") _ h4
  have h2 := optParam_head "matches_requested" (payload.get "matches_requested") _ h3
  have h1 := optParam_head "account_id" (payload.get "account_id") _ h2
  constructor
  · unfold occurrences
    rw [show ("key=" : String).data = ['k', 'e', 'y', '='] from rfl]
    simp only [String.data_append, List.append_assoc]
    rw [← List.append_nil (optParam "start_at_match_id" (payload.get "start_at_match_id")).data]
    rw [countOcc_append_skip 'k' ['e', 'y', '='] _ _ hk1, hk2,
      key_optParam _ _ _ (by decide) (by decide) (hplain _) h2,
      key_optParam _ _ _ (by decide) (by decide) (hplain _) h3,
      key_optParam _ _ _ (by decide) (by decide) (hplain _) h4,
      key_optParam _ _ _ (by decide) (by decide) (hplain _) h5,
      key_optParam _ _ _ (by decide) (by decide) (hplain _) hnil]
    rfl
  · intro hhero
    unfold occurrences
    rw [show ("&hero_id=" : String).data = ['&', 'h', 'e', 'r', 'o', '_', 'i', 'd', '='] from rfl]
    have h0 : (optParam "hero_id" (payload.get "hero_id")).data = [] := by
      rw [hhero]; rfl
    simp only [String.data_append, List.append_assoc, h0, List.nil_append]
    rw [← List.append_nil (optParam "start_at_match_id" (payload.get "start_at_match_id")).data]
    rw [countOcc_append_skip '&' ['h', 'e', 'r', 'o', '_', 'i', 'd', '='] _ _ ha1, ha2,
      amp_optParam _ _ _ (by decide) (by decide) (hplain _),
      amp_optParam _ _ _ (by decide) (by decide) (hplain _),
      amp_optParam _ _ _ (by decide) (by decide) (hplain _),
      amp_optParam _ _ _ (by decide) (by decide) (hplain _)]
    rfl

theorem counts_api_history (payload : JsVal) (text : String)
    (hurl : (generateJob "api_history" payload).urlText = some text)
    (hplain : ∀ k, Plain (payload.get k).toStr) :
    occurrences "key=" text = 1 ∧
      (payload.get "hero_id" = .undefined → occurrences "&hero_id=" text = 0) := by
  rw [url_api_history payload text hurl]
  exact counts_history_shape _ payload hplain (by decide) (by decide) (by decide) (by decide)

theorem url_api_skill (payload : JsVal) (text : String)
    (hurl : (generateJob "api_skill" payload).urlText = some text) :
    text = (apiUrl ++ "/IDOTA2Match_570/GetMatchHistory/v0001/?key=" ++ apiKey.toStr
      ++ "&start_at_match_id=") ++ (payload.get "start_at_match_id").toStr
      ++ "&skill=" ++ (payload.get "skill").toStr
      ++ "&hero_id=" ++ (payload.get "hero_id").toStr
      ++ "&min_players=10" := by
  by_cases h : payload = .undefined ∨ payload = .null
  · simp [generateJob, api_skill, JsVal.prop_eq_none _ h, ofHandler, Outcome.urlText] at hurl
  · rw [not_or] at h
    simp only [generateJob, api_skill, JsVal.prop_of_ne _ h.1 h.2, ofHandler, Outcome.urlText,
      Option.bind_eq_bind, Option.some_bind, Option.pure_def, Option.some.injEq] at hurl
    exact hurl.symm

/-- The count of `key=` and the `hero_id` parameter for a URL of the shape
of `api_skill`. -/
theorem counts_skill_shape (T : String) (v1 v2 v3 : String)
    (hp1 : Plain v1) (hp2 : Plain v2) (hp3 : Plain v3)
    (hk1 : 'k' ∉ T.data.drop (T.data.length - 3))
    (hk2 : countOcc ['k', 'e', 'y', '='] T.data = 1) :
    occurrences "key=" (T ++ v1 ++ "&skill=" ++ v2 ++ "&hero_id=" ++ v3 ++ "&min_players=10")
      = 1 ∧
    ("&hero_id=" ++ v3).data
      <:+: (T ++ v1 ++ "&skill=" ++ v2 ++ "&hero_id=" ++ v3 ++ "&min_players=10").data := by
  constructor
  · unfold occurrences
    rw [show ("key=" : String).data = ['k', 'e', 'y', '='] from rfl]
    rw [String.data_append, String.data_append, String.data_append, String.data_append,
      String.data_append, String.data_append]
    repeat rw [List.append_assoc]
    rw [countOcc_append_skip 'k' ['e', 'y', '='] _ _ hk1, hk2,
      countOcc_key_value _ _ hp1.2 (by exact Or.inr ⟨_, rfl⟩),
      key_segment "&skill=" _ _ (by decide) (by decide) hp2.2 (by exact Or.inr ⟨_, rfl⟩),
      key_segment "&hero_id=" _ _ (by decide) (by decide) hp3.2 (by exact Or.inr ⟨_, rfl⟩)]
    rfl
  · rw [String.data_append, String.data_append, String.data_append, String.data_append,
      String.data_append, String.data_append, String.data_append]
    exact ⟨(T.data ++ v1.data ++ "&skill=".data ++ v2.data), "&min_players=10".data,
      by simp only [List.append_assoc]⟩

theorem counts_api_skill (payload : JsVal) (text : String)
    (hurl : (generateJob "api_skill" payload).urlText = some text)
    (hplain : ∀ k, Plain (payload.get k).toStr) :
    occurrences "key=" text = 1 ∧
      ("&hero_id=" ++ (payload.get "hero_id").toStr).data <:+: text.data := by
  rw [url_api_skill payload text hurl]
  exact counts_skill_shape _ _ _ _ (hplain _) (hplain _) (hplain _) (by decide) (by decide)


/-- The decimal text of an integer has only digits and a sign. -/
theorem toString_int_plain (i : Int) : Plain (toString i) := by
  have hd : ∀ n : Nat, ∀ c ∈ (Nat.toDigits 10 n), c ≠ '&' ∧ c ≠ '=' := by
    intro n c hc
    have := (readDigits_toDigits n).2.2 c hc
    constructor <;> (rintro rfl; exact absurd this (by decide))
  cases i with
  | ofNat n =>
    have e : (toString (Int.ofNat n)).data = Nat.toDigits 10 n := rfl
    unfold Plain
    rw [e]
    exact ⟨fun h => (hd n _ h).1 rfl, fun h => (hd n _ h).2 rfl⟩
  | negSucc n =>
    have e : (toString (Int.negSucc n)).data = '-' :: Nat.toDigits 10 (n + 1) := rfl
    unfold Plain
    rw [e]
    constructor
    · intro h
      rcases List.mem_cons.mp h with h | h
      · exact absurd h (by decide)
      · exact (hd _ _ h).1 rfl
    · intro h
      rcases List.mem_cons.mp h with h | h
      · exact absurd h (by decide)
      · exact (hd _ _ h).2 rfl

theorem intercalate_go_chars (sep : String) (xs : List String) :
    ∀ acc : String, ∀ c ∈ (String.intercalate.go acc sep xs).data,
      c ∈ acc.data ∨ c ∈ sep.data ∨ ∃ x ∈ xs, c ∈ x.data := by
  induction xs with
  | nil =>
    intro acc c hc
    exact Or.inl hc
  | cons y ys ih =>
    intro acc c hc
    have := ih (acc ++ sep ++ y) c hc
    rcases this with h | h | h
    · rw [String.data_append, String.data_append, List.mem_append, List.mem_append] at h
      rcases h with (h | h) | h
      · exact Or.inl h
      · exact Or.inr (Or.inl h)
      · exact Or.inr (Or.inr ⟨y, List.mem_cons_self _ _, h⟩)
    · exact Or.inr (Or.inl h)
    · obtain ⟨x, hx, h⟩ := h
      exact Or.inr (Or.inr ⟨x, List.mem_cons_of_mem _ hx, h⟩)

/-- The comma-joined text of plain texts is plain. -/
theorem intercalate_comma_plain (xs : List String) (h : ∀ x ∈ xs, Plain x) :
    Plain (String.intercalate "," xs) := by
  have key : ∀ c ∈ (String.intercalate "," xs).data, c = ',' ∨ ∃ x ∈ xs, c ∈ x.data := by
    intro c hc
    cases xs with
    | nil => exact absurd hc (by simp [String.intercalate])
    | cons y ys =>
      have := intercalate_go_chars "," ys y c hc
      rcases this with h1 | h1 | ⟨x, hx, h1⟩
      · exact Or.inr ⟨y, List.mem_cons_self _ _, h1⟩
      · left; simpa using h1
      · exact Or.inr ⟨x, List.mem_cons_of_mem _ hx, h1⟩
  constructor
  · intro hc
    rcases key _ hc with h1 | ⟨x, hx, h1⟩
    · exact absurd h1 (by decide)
    · exact (h x hx).1 h1
  · intro hc
    rcases key _ hc with h1 | ⟨x, hx, h1⟩
    · exact absurd h1 (by decide)
    · exact (h x hx).2 h1

theorem convert32to64_plain (v : JsVal) (s : String) (h : convert32to64 v = some s) :
    Plain s := by
  unfold convert32to64 at h
  split at h
  · simp only [Option.some.injEq] at h
    rw [← h]
    exact toString_int_plain _
  · exact absurd h (by simp)

theorem summaryIds_plain (ps : List JsVal) :
    ∀ ids, summaryIds ps = some (some ids) → ∀ id ∈ ids, Plain id := by
  induction ps with
  | nil =>
    intro ids h
    simp only [summaryIds, Option.some.injEq] at h
    subst h
    intro id hid
    exact absurd hid (List.not_mem_nil id)
  | cons p ps ih =>
    intro ids h
    unfold summaryIds at h
    split at h
    · exact absurd h (by simp)
    · rename_i id1 hid1
      split at h
      · exact absurd h (by simp)
      · rename_i ids1 hids1
        split at h
        · rename_i i is
          simp only [Option.some.injEq] at h
          subst h
          intro id hid
          rcases List.mem_cons.mp hid with rfl | hid
          · unfold summaryId at hid1
            cases hp : p.prop "account_id" with
            | none => rw [hp] at hid1; exact absurd hid1 (by simp)
            | some v =>
              rw [hp] at hid1
              simp only [Option.map_some', Option.some.injEq] at hid1
              exact convert32to64_plain v _ hid1
          · exact ih is hids1 id hid
        · exact absurd h (by simp)

theorem url_api_summaries (payload : JsVal) (text : String)
    (hurl : (generateJob "api_summaries" payload).urlText = some text) :
    ∃ ids : List String, (∀ id ∈ ids, Plain id) ∧
      text = (apiUrl ++ "/ISteamUser/GetPlayerSummaries/v0002/?key=" ++ apiKey.toStr
        ++ "&steamids=") ++ String.intercalate "," ids := by
  simp only [generateJob, api_summaries] at hurl
  split at hurl
  · rename_i players summaries_id hplayers hsum
    split at hurl
    · exact absurd hurl (by simp [Outcome.urlText])
    · exact absurd hurl (by simp [Outcome.urlText])
    · rename_i ids hids
      simp only [Outcome.urlText, Option.some.injEq] at hurl
      exact ⟨ids, summaryIds_plain players ids hids, hurl.symm⟩
  · exact absurd hurl (by simp [Outcome.urlText])

theorem counts_api_summaries (payload : JsVal) (text : String)
    (hurl : (generateJob "api_summaries" payload).urlText = some text) :
    occurrences "key=" text = 1 ∧ occurrences "&hero_id=" text = 0 := by
  obtain ⟨ids, hids, rfl⟩ := url_api_summaries payload text hurl
  exact counts_single_text _ _ (intercalate_comma_plain ids hids) (by decide) (by decide)
    (by decide) (by decide)


set_option maxRecDepth 8000 in
/-- C8, as stated, fails: for `api_skill` and a payload without `hero_id` the
URL has the parameter `&hero_id=`, with the text `undefined`. -/
theorem api_skill_writes_absent_hero_id :
    "api_skill" ∈ jobKinds ∧
    (JsVal.obj [("start_at_match_id", .num 1), ("skill", .num 3)]).get "hero_id" = .undefined ∧
    (generateJob "api_skill" (.obj [("start_at_match_id", .num 1), ("skill", .num 3)])).urlText
      = some "http://api.steampowered.com/IDOTA2Match_570/GetMatchHistory/v0001/?key=undefined&start_at_match_id=1&skill=3&hero_id=undefined&min_players=10" ∧
    occurrences "&hero_id="
      "http://api.steampowered.com/IDOTA2Match_570/GetMatchHistory/v0001/?key=undefined&start_at_match_id=1&skill=3&hero_id=undefined&min_players=10"
      = 1 := by
  refine ⟨by decide, by decide, by decide, by decide⟩

/-- C8, amended: for every `api_*` job kind and every payload for which
`generateJob` builds a URL and whose property texts contain no `&` and no
`=`: the URL contains exactly one credential parameter `key=`; for every kind
other than `api_skill`, if the payload does not contain `hero_id` the URL
contains no `&hero_id=`; for `api_skill`, where `hero_id` is always written,
the URL contains `&hero_id=` followed by the text of `payload.hero_id`
(`undefined` when it is absent). -/
theorem generateJob_url_parameters (type : String) (payload : JsVal) (text : String)
    (hkind : type ∈ apiKinds)
    (hurl : (generateJob type payload).urlText = some text)
    (hplain : ∀ k, Plain (payload.get k).toStr) :
    occurrences "key=" text = 1 ∧
    (type ≠ "api_skill" → payload.get "hero_id" = .undefined →
      occurrences "&hero_id=" text = 0) ∧
    (type = "api_skill" →
      ("&hero_id=" ++ (payload.get "hero_id").toStr).data <:+: text.data) := by
  simp only [apiKinds, List.mem_cons, List.mem_singleton, List.not_mem_nil, or_false] at hkind
  rcases hkind with h | h | h | h | h | h | h | h | h | h | h | h | h
  · have := counts_single_value_kinds type payload text (by rw [h]; decide) hurl hplain
    exact ⟨this.1, fun _ _ => this.2, fun e => absurd (h.symm.trans e) (by decide)⟩
  · subst h
    have := counts_api_history payload text hurl hplain
    exact ⟨this.1, fun _ e => this.2 e, fun e => absurd e (by decide)⟩
  · subst h
    have := counts_api_summaries payload text hurl
    exact ⟨this.1, fun _ _ => this.2, fun e => absurd e (by decide)⟩
  · have := counts_single_value_kinds type payload text (by rw [h]; decide) hurl hplain
    exact ⟨this.1, fun _ _ => this.2, fun e => absurd (h.symm.trans e) (by decide)⟩
  · have := counts_single_value_kinds type payload text (by rw [h]; decide) hurl hplain
    exact ⟨this.1, fun _ _ => this.2, fun e => absurd (h.symm.trans e) (by decide)⟩
  · have := counts_single_value_kinds type payload text (by rw [h]; decide) hurl hplain
    exact ⟨this.1, fun _ _ => this.2, fun e => absurd (h.symm.trans e) (by decide)⟩
  · have := counts_single_value_kinds type payload text (by rw [h]; decide) hurl hplain
    exact ⟨this.1, fun _ _ => this.2, fun e => absurd (h.symm.trans e) (by decide)⟩
  · subst h
    have := counts_api_skill payload text hurl hplain
    exact ⟨this.1, fun e => absurd rfl e, fun _ => this.2⟩
  · have := counts_fixed_kinds type payload text (by rw [h]; decide) hurl
    exact ⟨this.1, fun _ _ => this.2, fun e => absurd (h.symm.trans e) (by decide)⟩
  · have := counts_fixed_kinds type payload text (by rw [h]; decide) hurl
    exact ⟨this.1, fun _ _ => this.2, fun e => absurd (h.symm.trans e) (by decide)⟩
  · have := counts_single_value_kinds type payload text (by rw [h]; decide) hurl hplain
    exact ⟨this.1, fun _ _ => this.2, fun e => absurd (h.symm.trans e) (by decide)⟩
  · have := counts_fixed_kinds type payload text (by rw [h]; decide) hurl
    exact ⟨this.1, fun _ _ => this.2, fun e => absurd (h.symm.trans e) (by decide)⟩
  · have := counts_single_value_kinds type payload text (by rw [h]; decide) hurl hplain
    exact ⟨this.1, fun _ _ => this.2, fun e => absurd (h.symm.trans e) (by decide)⟩

/-- The property texts of the payload `{ account_id: 7 }` are plain. -/
theorem plain_sample_payload (k : String) :
    Plain ((JsVal.obj [("account_id", .num 7)]).get k).toStr := by
  simp only [JsVal.get, JsVal.lookup]
  split <;> decide

/-- C8, amended, on `api_history` with the payload `{ account_id: 7 }`. -/
theorem generateJob_url_parameters_witness :
    "api_history" ∈ apiKinds ∧
    (generateJob "api_history" (.obj [("account_id", .num 7)])).urlText
      = some "http://api.steampowered.com/IDOTA2Match_570/GetMatchHistory/V001/?key=undefined&account_id=7" ∧
    occurrences "key="
      "http://api.steampowered.com/IDOTA2Match_570/GetMatchHistory/V001/?key=undefined&account_id=7"
      = 1 ∧
    occurrences "&hero_id="
      "http://api.steampowered.com/IDOTA2Match_570/GetMatchHistory/V001/?key=undefined&account_id=7"
      = 0 :=
  have h := generateJob_url_parameters "api_history" (.obj [("account_id", .num 7)])
    "http://api.steampowered.com/IDOTA2Match_570/GetMatchHistory/V001/?key=undefined&account_id=7"
    (by decide) (by decide) plain_sample_payload
  ⟨by decide, by decide, h.1, h.2.1 (by decide) (by decide)⟩

/-! ### Player summaries -/

theorem convert32to64_of_bigNumber (v : JsVal) (i : Int) (h : bigNumber v = some i) :
    convert32to64 v = some (toString (76561197960265728 + i)) := by
  have hoff : parseDecimal "76561197960265728" = some (76561197960265728 : Int) :=
    parseDecimal_toString 76561197960265728
  have hb : bigNumber (.str "76561197960265728") = some (76561197960265728 : Int) := hoff
  unfold convert32to64
  rw [hb, h]

theorem summaryIds_of_accounts (players : List JsVal) (ids : List Int)
    (hids : List.Forall₂
      (fun p i => ∃ v, p.prop "account_id" = some v ∧ bigNumber v = some i) players ids) :
    summaryIds players
      = some (some (ids.map fun i => toString (76561197960265728 + i))) := by
  induction hids with
  | nil => rfl
  | cons hp _ ih =>
    obtain ⟨v, hv, hb⟩ := hp
    simp only [summaryIds, summaryId, hv, Option.map_some', convert32to64_of_bigNumber v _ hb,
      ih, List.map_cons]

/-- C11: for `generateJob('api_summaries', payload)` and every payload with a
list of players whose `account_id`s are integers (numbers that are safe
integers, of magnitude at most 2^53, or decimal strings of any length), the
URL is the `GetPlayerSummaries` template followed by `&steamids=` and the
comma-separated list, in player order, of the exact decimal of
`76561197960265728 + account_id` for each player.  The sum is integer
arithmetic of any size: nothing is rounded. -/
theorem api_summaries_steamids (payload : JsVal) (players : List JsVal) (ids : List Int)
    (hplayers : payload.get "players" = .arr players)
    (hids : List.Forall₂
      (fun p i => ∃ v, p.prop "account_id" = some v ∧ bigNumber v = some i) players ids) :
    (generateJob "api_summaries" payload).urlText
      = some ("http://api.steampowered.com/ISteamUser/GetPlayerSummaries/v0002/?key=undefined&steamids="
          ++ String.intercalate "," (ids.map fun i => toString (76561197960265728 + i))) := by
  have h1 : payload ≠ .undefined := by
    rintro rfl; simp [JsVal.get] at hplayers
  have h2 : payload ≠ .null := by
    rintro rfl; simp [JsVal.get] at hplayers
  have ht : apiUrl ++ "/ISteamUser/GetPlayerSummaries/v0002/?key=" ++ apiKey.toStr
      ++ "&steamids="
      = "http://api.steampowered.com/ISteamUser/GetPlayerSummaries/v0002/?key=undefined&steamids="
      := by decide
  simp only [generateJob, api_summaries, JsVal.prop_of_ne _ h1 h2, hplayers,
    summaryIds_of_accounts players ids hids, Outcome.urlText, ht]

/-- C11 on two players, the second with an account id above 2^53. -/
theorem api_summaries_steamids_witness :
    (generateJob "api_summaries" (.obj [("players",
        .arr [.obj [("account_id", .num 7)], .obj [("account_id", .str "9007199254740993")]])])).urlText
      = some "http://api.steampowered.com/ISteamUser/GetPlayerSummaries/v0002/?key=undefined&steamids=76561197960265735,85568397215006721" :=
  (api_summaries_steamids (.obj [("players",
        .arr [.obj [("account_id", .num 7)], .obj [("account_id", .str "9007199254740993")]])])
      [.obj [("account_id", .num 7)],
      .obj [("account_id", .str "9007199254740993")]] [7, 9007199254740993] rfl
    (.cons ⟨.num 7, rfl, by decide⟩
      (.cons ⟨.str "9007199254740993", rfl, by decide⟩ .nil))).trans (by decide)

/-! ### Classification of an attempt -/

theorem invalidResponse_eq_false_iff (steamApi : Bool) (a : Attempt) :
    invalidResponse steamApi a = false ↔
      a.err.truthy = false ∧ a.res = some 200 ∧ a.body.truthy = true
        ∧ (steamApi = true →
          (a.body.get "result").truthy = true ∨ (a.body.get "response").truthy = true
            ∨ (a.body.get "player_infos").truthy = true ∨ (a.body.get "teams").truthy = true) := by
  unfold invalidResponse
  cases steamApi <;> cases a.err.truthy <;> cases a.body.truthy <;>
    cases (a.body.get "result").truthy <;> cases (a.body.get "response").truthy <;>
    cases (a.body.get "player_infos").truthy <;> cases (a.body.get "teams").truthy <;>
    rcases a.res with _ | s <;> simp

/-- The success conditions are those of a clean attempt. -/
theorem successConditions_iff_clean (steamApi : Bool) (a : Attempt) :
    SuccessConditions steamApi a ↔ Clean steamApi a := by
  unfold SuccessConditions Clean
  rw [invalidResponse_eq_false_iff]
  constructor
  · rintro ⟨h1, h2, h3, h4, h5, h6, h7⟩
    refine ⟨⟨h1, h2, h3, h4⟩, ?_, h5, h6⟩
    intro ht
    rcases ht with ht | ht | ht | ht
    · exact h7 ht
    · rw [ht] at h5; exact absurd h5 (by decide)
    · rw [ht] at h5; exact absurd h5 (by decide)
    · rw [ht] at h5; exact absurd h5 (by decide)
  · rintro ⟨⟨h1, h2, h3, h4⟩, hnt, h5, h6⟩
    exact ⟨h1, h2, h3, h4, h5, h6, fun h => hnt (Or.inl h)⟩

/-- What the `request` callback of an attempt that is not clean hands to the
caller: nothing, or one truthy argument. -/
theorem onResponse_not_clean (url : FetchInput) (steamApi : Bool) (target : String) (parse : Url)
    (a : Attempt) (h : ¬ Clean steamApi a) :
    callbacks (onResponse url steamApi target parse a []) = []
      ∨ ∃ e : JsVal, e.truthy = true ∧
          callbacks (onResponse url steamApi target parse a []) = [[e]] := by
  have hor : ∀ s : String, s ≠ "" → (a.err.or (.str s)).truthy = true := by
    intro s hs
    unfold JsVal.or
    split
    · assumption
    · simp [JsVal.truthy, hs]
  unfold onResponse
  cases hv : invalidResponse steamApi a
  · simp only [Bool.false_eq_true, if_false]
    cases hr : (a.body.get "result").truthy
    · exfalso
      apply h
      refine ⟨hv, ?_, ?_, ?_⟩
      · intro ht; rw [ht.result_truthy] at hr; exact absurd hr (by decide)
      · rw [JsVal.get_of_not_truthy _ "error" hr]; rfl
      · rw [JsVal.get_of_not_truthy _ "status" hr]; decide
    · simp only [if_true]
      cases hn : nonRetryable (a.body.get "result")
      · simp only [Bool.false_eq_true, if_false]
        cases hd : invalidData (a.body.get "result")
        · exfalso
          apply h
          refine ⟨hv, ?_, ?_, ?_⟩
          · intro ht
            rw [(nonRetryable_iff a.body).mpr ht] at hn
            exact absurd hn (by decide)
          · simp only [invalidData, Bool.or_eq_false_iff] at hd; exact hd.1
          · simp only [invalidData, Bool.or_eq_false_iff, decide_eq_false_iff_not] at hd
            exact hd.2
        · simp only [if_true]
          cases noRetry url
          · left; simp [callbacks]
          · right
            exact ⟨_, hor "invalid data" (by decide), by simp [callbacks]⟩
      · simp only [if_true]
        right
        exact ⟨a.body, ((nonRetryable_iff a.body).mp hn).body_truthy, by simp [callbacks]⟩
  · simp only [if_true]
    cases noRetry url
    · left; simp [callbacks]
    · right
      exact ⟨_, hor "invalid response" (by decide), by simp [callbacks]⟩

/-- C12: an attempt of `getData` is delivered as success, that is the
callback receives `(null, body, { hostname })` with the host of the attempt,
if and only if there is no transport error, the status is exactly 200, a body
is present, for a request to the API host the body has one of the envelopes
`result`, `response`, `player_infos`, `teams`, and `body.result` carries no
error, no status 2 and no status 15.  In every other case no call of the
callback has the shape of a success delivery of the body. -/
theorem getData_success_iff (config : Config) (url : FetchInput) (a : Attempt) (u : String)
    (hu : pickUrl url a = some u) :
    (callbacks (getData config url [a])
        = [[.null, a.body, .obj [("hostname", hostValue (finalUrl config url a u))]]]
      ↔ SuccessConditions (isSteamApi (urlParse u)) a) ∧
    (¬ SuccessConditions (isSteamApi (urlParse u)) a →
      ∀ args ∈ callbacks (getData config url [a]), ¬ SuccessShaped a.body args) := by
  have hrun : callbacks (getData config url [a])
      = callbacks (onResponse url (isSteamApi (urlParse u)) (targetOf config url a u)
          (finalUrl config url a u) a []) := by
    simp [getData, hu, callbacks]
  rw [hrun, successConditions_iff_clean]
  constructor
  · constructor
    · intro hcb
      by_contra hc
      rcases onResponse_not_clean url _ (targetOf config url a u) (finalUrl config url a u) a hc
        with h | ⟨e, _, h⟩
      · rw [h] at hcb; exact absurd hcb (by simp)
      · rw [h] at hcb; simp at hcb
    · intro hc
      rw [onResponse_clean _ _ _ _ _ _ hc]
      rfl
  · intro hc args hargs
    rcases onResponse_not_clean url _ (targetOf config url a u) (finalUrl config url a u) a hc
      with h | ⟨e, he, h⟩
    · rw [h] at hargs; exact absurd hargs (List.not_mem_nil _)
    · rw [h] at hargs
      simp only [List.mem_singleton] at hargs
      subst hargs
      intro hs
      have h0 : argAt [e] 0 = e := rfl
      rcases hs.1 with h1 | h1 <;> rw [h0] at h1 <;> rw [h1] at he <;>
        exact absurd he (by decide)

/-- C12 on a clean envelope and on an envelope with status 2. -/
theorem getData_success_iff_witness :
    SuccessConditions true (okResponse cleanEnvelope) ∧
    callbacks (getData sampleConfig (.single detailsUrl) [okResponse cleanEnvelope])
      = [[.null, cleanEnvelope, .obj [("hostname", .str "h2.example")]]] ∧
    ¬ SuccessConditions true (okResponse (.obj [("result", .obj [("status", .num 2)])])) ∧
    callbacks (getData sampleConfig (.single detailsUrl)
      [okResponse (.obj [("result", .obj [("status", .num 2)])])]) = [] :=
  ⟨by decide,
    ((getData_success_iff sampleConfig (.single detailsUrl) (okResponse cleanEnvelope) detailsUrl
      (by decide)).1.mpr (by decide)).trans (by decide),
    by decide, by decide⟩

/-! ### Normalisation of the configuration -/

/-- C13, as stated, fails: an options object with an explicitly given delay
of 0 is paced with the default delay, not with 0. -/
theorem explicit_zero_delay_gets_default :
    effectiveDelay sampleConfig (.options ⟨detailsUrl, some 0, none, none, false⟩) = 1000 ∧
    (getData sampleConfig (.options ⟨detailsUrl, some 0, none, none, false⟩)
      [okResponse cleanEnvelope]).take 2
      = [.log "http://h2.example/IDOTA2Match_570/GetMatchDetails/V001/?key=K2&match_id=1",
         .setTimeout 1000] ∧
    effectiveDelay sampleConfig (.options ⟨detailsUrl, some 0, none, none, false⟩) ≠ 0 := by
  decide

/-- C13, amended: for a URL string or an array of URLs the pacing delay is
the configured default delay, the timeout is 5000 ms and no proxy affinity
range is set; for an options object each of `delay`, `timeout` and
`proxyAffinityRange` is the value given whenever the field is given and not
0, and the default (default delay, 5000 ms, unset) when the field is omitted
or given as 0.  These are the values the attempt runs with: the timer before
the request, the timeout of the request, and the range the API host is drawn
from. -/
theorem getData_normalisation (config : Config) (url : FetchInput) (a : Attempt)
    (rest : List Attempt) (u : String) (hu : pickUrl url a = some u) :
    (getData config url (a :: rest)).take 3
      = [.log (targetOf config url a u), .setTimeout (effectiveDelay config url),
         .request (targetOf config url a u) (effectiveTimeout url)] ∧
    (isSteamApi (urlParse u) = true →
      (finalUrl config url a u).host = chosenHost config (effectiveRange url) a) ∧
    ((∀ o, url ≠ .options o) →
      effectiveDelay config url = config.DEFAULT_DELAY ∧ effectiveTimeout url = 5000
        ∧ effectiveRange url = none) ∧
    (∀ o, url = .options o →
      (∀ d, o.delay = some d → d ≠ 0 → effectiveDelay config url = d) ∧
      (o.delay = none ∨ o.delay = some 0 → effectiveDelay config url = config.DEFAULT_DELAY) ∧
      (∀ t, o.timeout = some t → t ≠ 0 → effectiveTimeout url = t) ∧
      (o.timeout = none ∨ o.timeout = some 0 → effectiveTimeout url = 5000) ∧
      (∀ k, o.proxyAffinityRange = some k → k ≠ 0 → effectiveRange url = some k) ∧
      (o.proxyAffinityRange = none ∨ o.proxyAffinityRange = some 0 →
        effectiveRange url = none)) := by
  refine ⟨by simp [getData, hu], ?_, ?_, ?_⟩
  · intro hs
    simp [finalUrl, hs, rewriteSteam]
  · intro hne
    cases url with
    | single s => exact ⟨rfl, rfl, rfl⟩
    | alternatives us => exact ⟨rfl, rfl, rfl⟩
    | options o => exact absurd rfl (hne o)
  · intro o ho
    subst ho
    refine ⟨?_, ?_, ?_, ?_, ?_, ?_⟩
    · intro d hd hd0
      simp [effectiveDelay, orDefault, hd, hd0]
    · rintro (h | h) <;> simp [effectiveDelay, orDefault, h]
    · intro t ht ht0
      simp [effectiveTimeout, orDefault, ht, ht0]
    · rintro (h | h) <;> simp [effectiveTimeout, orDefault, h]
    · intro k hk hk0
      simp [effectiveRange, orUndefined, hk, hk0]
    · rintro (h | h) <;> simp [effectiveRange, orUndefined, h]

/-- C13, amended, on an options object with a delay of 250, a timeout of 0
and no affinity range. -/
theorem getData_normalisation_witness :
    (getData sampleConfig (.options ⟨detailsUrl, some 250, none, some 0, false⟩)
      [okResponse cleanEnvelope]).take 3
      = [.log "http://h2.example/IDOTA2Match_570/GetMatchDetails/V001/?key=K2&match_id=1",
         .setTimeout 250,
         .request "http://h2.example/IDOTA2Match_570/GetMatchDetails/V001/?key=K2&match_id=1"
           5000] :=
  (getData_normalisation sampleConfig (.options ⟨detailsUrl, some 250, none, some 0, false⟩)
    (okResponse cleanEnvelope) [] detailsUrl (by decide)).1.trans (by decide)

/-! ### Shape of the descriptors -/

theorem job_of_handler (h : Option Job) (j : Job) (hj : ofHandler h = .job j) : h = some j := by
  cases h with
  | none => simp [ofHandler] at hj
  | some j' => simp only [ofHandler, Outcome.job.injEq] at hj; rw [hj]

/-- The job objects of the API handlers have the type `api` and a URL that
starts with the API root. -/
theorem api_job_shape (type : String) (payload : JsVal) (j : Job) (hkind : type ∈ apiKinds)
    (hj : generateJob type payload = .job j) :
    j.type = "api" ∧ ∃ text, j.url = .str text ∧
      "http://api.steampowered.com/".data <+: text.data := by
  have pre : ∀ T v : String, "http://api.steampowered.com/".data <+: T.data →
      "http://api.steampowered.com/".data <+: (T ++ v).data := by
    intro T v h
    rw [String.data_append]
    exact h.trans (List.prefix_append _ _)
  by_cases hp : payload = .undefined ∨ payload = .null
  · simp only [apiKinds, List.mem_cons, List.mem_singleton, List.not_mem_nil, or_false] at hkind
    rcases hkind with h | h | h | h | h | h | h | h | h | h | h | h | h <;> subst h <;>
      simp only [generateJob, api_details, api_history, api_summaries, api_sequence, api_heroes,
        api_items, api_leagues, api_skill, api_live, api_notable, api_teams, api_item_schema,
        api_item_icon, JsVal.prop_eq_none _ hp, ofHandler, Option.bind_eq_bind,
        Option.none_bind, Option.pure_def, Outcome.job.injEq, reduceCtorEq] at hj <;>
      first
        | exact absurd hj (by simp)
        | (subst hj; exact ⟨rfl, _, rfl, by decide⟩)
  · rw [not_or] at hp
    by_cases hs : type = "api_summaries"
    · subst hs
      simp only [generateJob, api_summaries, JsVal.prop_of_ne _ hp.1 hp.2] at hj
      split at hj
      · split at hj
        · exact absurd hj (by simp)
        · exact absurd hj (by simp)
        · simp only [Outcome.job.injEq] at hj
          subst hj
          exact ⟨rfl, _, rfl, pre _ _ (by decide)⟩
      · exact absurd hj (by simp)
    · simp only [apiKinds, List.mem_cons, List.mem_singleton, List.not_mem_nil,
        or_false] at hkind
      rcases hkind with h | h | h | h | h | h | h | h | h | h | h | h | h <;> subst h <;>
        first
          | exact absurd rfl hs
          | (simp only [generateJob, api_details, api_history, api_sequence, api_heroes,
              api_items, api_leagues, api_skill, api_live, api_notable, api_teams,
              api_item_schema, api_item_icon, JsVal.prop_of_ne _ hp.1 hp.2, ofHandler,
              Option.bind_eq_bind, Option.some_bind, Option.pure_def, Outcome.job.injEq] at hj
             subst hj
             refine ⟨rfl, _, rfl, ?_⟩
             repeat (first | decide | apply pre))

/-- C14: for `generateJob('parse', payload)` the job's `url` is exactly
`payload.url` (no template, no credential parameter), its `type` is `parse`
and its `payload` is the input payload; such a job is returned for every
payload other than `null` and `undefined`.  For every `api_*` kind the job's
`type` is `api` and its `url` begins with `http://api.steampowered.com/`. -/
theorem generateJob_descriptor_shape (type : String) (payload : JsVal) (j : Job)
    (hj : generateJob type payload = .job j) :
    (type = "parse" →
      j.url = payload.get "url" ∧ j.type = "parse" ∧ j.payload = some payload) ∧
    (type ∈ apiKinds →
      j.type = "api" ∧ ∃ text, j.url = .str text ∧
        "http://api.steampowered.com/".data <+: text.data) ∧
    (payload ≠ .undefined → payload ≠ .null →
      generateJob "parse" payload = .job {
        title := some (JsVal.joinElems [.str "parse", payload.get "match_id"])
        type := "parse"
        url := payload.get "url"
        payload := some payload }) := by
  refine ⟨?_, fun hk => api_job_shape type payload j hk hj, ?_⟩
  · intro ht
    subst ht
    by_cases hp : payload = .undefined ∨ payload = .null
    · simp [generateJob, parse, JsVal.prop_eq_none _ hp, ofHandler] at hj
    · rw [not_or] at hp
      simp only [generateJob, parse, JsVal.prop_of_ne _ hp.1 hp.2, ofHandler,
        Option.bind_eq_bind, Option.some_bind, Option.pure_def, Outcome.job.injEq] at hj
      subst hj
      exact ⟨rfl, rfl, rfl⟩
  · intro h1 h2
    simp only [generateJob, parse, JsVal.prop_of_ne _ h1 h2, ofHandler,
      Option.bind_eq_bind, Option.some_bind, Option.pure_def]

/-- C14 on a replay URL. -/
theorem generateJob_descriptor_shape_witness :
    generateJob "parse" (.obj [("match_id", .num 1),
        ("url", .str "http://replay1.valve.net/570/1_2.dem.bz2")])
      = .job {
          title := some "parse,1"
          type := "parse"
          url := .str "http://replay1.valve.net/570/1_2.dem.bz2"
          payload := some (.obj [("match_id", .num 1),
            ("url", .str "http://replay1.valve.net/570/1_2.dem.bz2")]) } ∧
    (Job.mk (.str "http://replay1.valve.net/570/1_2.dem.bz2") (some "parse,1") "parse"
        (some (.obj [("match_id", .num 1),
          ("url", .str "http://replay1.valve.net/570/1_2.dem.bz2")]))).url
      = (JsVal.obj [("match_id", .num 1),
          ("url", .str "http://replay1.valve.net/570/1_2.dem.bz2")]).get "url" :=
  ⟨by decide,
    ((generateJob_descriptor_shape "parse" (.obj [("match_id", .num 1),
        ("url", .str "http://replay1.valve.net/570/1_2.dem.bz2")])
      (Job.mk (.str "http://replay1.valve.net/570/1_2.dem.bz2") (some "parse,1") "parse"
        (some (.obj [("match_id", .num 1),
          ("url", .str "http://replay1.valve.net/570/1_2.dem.bz2")])))
      (by decide)).1 rfl).1⟩

/-! ### Combinations -/

theorem subsequencesOfLength_perm {α : Type} (k : Nat) (l : List α) :
    (subsequencesOfLength k l).Perm (List.sublistsLen k l) := by
  induction l generalizing k with
  | nil => cases k <;> simp [subsequencesOfLength]
  | cons x xs ih =>
    cases k with
    | zero => simp [subsequencesOfLength]
    | succ k =>
      rw [subsequencesOfLength, List.sublistsLen_succ_cons]
      exact (List.perm_append_comm).trans (((ih (k + 1)).append ((ih k).map _)))

theorem subsequencesOfLength_of_lt {α : Type} (k : Nat) (l : List α) (h : l.length < k) :
    subsequencesOfLength k l = [] := by
  have := (subsequencesOfLength_perm k l).length_eq
  rw [List.sublistsLen_of_length_lt h] at this
  exact List.eq_nil_of_length_eq_zero this

theorem subsequencesOfLength_self {α : Type} (l : List α) :
    subsequencesOfLength l.length l = [l] := by
  induction l with
  | nil => rfl
  | cons x xs ih =>
    simp only [List.length_cons, subsequencesOfLength, ih, List.map_cons, List.map_nil,
      subsequencesOfLength_of_lt (xs.length + 1) xs (Nat.lt_succ_self _), List.append_nil]

theorem subsequencesOfLength_one {α : Type} (l : List α) :
    subsequencesOfLength 1 l = l.map fun x => [x] := by
  induction l with
  | nil => rfl
  | cons x xs ih => simp [subsequencesOfLength, ih]

/-- The loop of `kCombinations`, given that the recursive calls enumerate
the subsequences. -/
theorem loop_eq_subsequences {α : Type} (k : Nat) (arr : List α) (h : k + 1 ≤ arr.length) :
    ((List.range (arr.length - (k + 1) + 1)).flatMap fun i =>
      (subsequencesOfLength k (arr.drop (i + 1))).map fun tail => (arr.drop i).take 1 ++ tail)
      = subsequencesOfLength (k + 1) arr := by
  induction arr with
  | nil => simp at h
  | cons x xs ih =>
    by_cases hx : k + 1 ≤ xs.length
    · have hr : (x :: xs).length - (k + 1) + 1 = (xs.length - (k + 1) + 1) + 1 := by
        simp only [List.length_cons]; omega
      rw [hr, List.range_succ_eq_map, List.flatMap_cons, List.flatMap_map]
      simp only [List.drop_zero, List.take_succ_cons, List.take_zero, List.singleton_append,
        Function.comp_def, List.drop_succ_cons, zero_add]
      rw [ih hx, subsequencesOfLength]
    · have hlen : xs.length = k := by simp only [List.length_cons] at h; omega
      have hr : (x :: xs).length - (k + 1) + 1 = 1 := by
        simp only [List.length_cons]; omega
      rw [hr, subsequencesOfLength,
        subsequencesOfLength_of_lt (k + 1) xs (by omega)]
      simp [List.range_succ]

/-- For `k ≥ 1`, `kCombinations` enumerates the subsequences of length `k`. -/
theorem kCombinations_eq_subsequences {α : Type} (k : Nat) :
    ∀ arr : List α, kCombinations arr (k + 1) = subsequencesOfLength (k + 1) arr := by
  induction k with
  | zero =>
    intro arr
    unfold kCombinations
    split
    · rename_i h; exact (subsequencesOfLength_of_lt _ _ h).symm
    · split
      · rename_i h; rw [h]; exact (subsequencesOfLength_self arr).symm
      · simp [subsequencesOfLength_one]
  | succ k ih =>
    intro arr
    unfold kCombinations
    split
    · rename_i h; exact (subsequencesOfLength_of_lt _ _ h).symm
    · split
      · rename_i h; rw [h]; exact (subsequencesOfLength_self arr).symm
      · rename_i h1 h2
        rw [if_neg (by omega)]
        simp only [ih]
        exact loop_eq_subsequences (k + 1) arr (by omega)

theorem subsequencesOfLength_map {α β : Type} (f : α → β) (k : Nat) (l : List α) :
    subsequencesOfLength k (l.map f) = (subsequencesOfLength k l).map (List.map f) := by
  induction l generalizing k with
  | nil => cases k <;> rfl
  | cons x xs ih =>
    cases k with
    | zero => rfl
    | succ k =>
      simp only [List.map_cons, subsequencesOfLength, ih, List.map_append, List.map_map]
      rfl

theorem kCombinations_zero {α : Type} (arr : List α) : kCombinations arr 0 = [] := by
  unfold kCombinations; rfl

/-- C15: `kCombinations` enumerates the `k`-combinations of its input.  For
`k` of 0 or above the length `n` the result is empty.  For `1 ≤ k ≤ n` the
result is the list of the order-preserving subsequences of length `k`, one
for every set of `k` positions, in lexicographic order of the positions: its
members are exactly the sublists of length `k`, its length is the binomial
coefficient `C(n, k)`, it is the image of the `k`-combinations of the
positions, and those are pairwise distinct (so are the combinations
themselves when the elements of the array are). -/
theorem kCombinations_enumerates {α : Type} (arr : List α) (k : Nat) :
    ((k = 0 ∨ arr.length < k) → kCombinations arr k = []) ∧
    (1 ≤ k → k ≤ arr.length →
      kCombinations arr k = subsequencesOfLength k arr ∧
      (∀ s, s ∈ kCombinations arr k ↔ s.Sublist arr ∧ s.length = k) ∧
      (kCombinations arr k).length = Nat.choose arr.length k ∧
      kCombinations arr k
        = (kCombinations (List.finRange arr.length) k).map (fun positions =>
            positions.map arr.get) ∧
      (kCombinations (List.finRange arr.length) k).Nodup ∧
      (arr.Nodup → (kCombinations arr k).Nodup)) := by
  constructor
  · rintro (h | h)
    · rw [h]; exact kCombinations_zero arr
    · cases k with
      | zero => exact kCombinations_zero arr
      | succ k =>
        rw [kCombinations_eq_subsequences]
        exact subsequencesOfLength_of_lt _ _ h
  · intro h1 _
    obtain ⟨k, rfl⟩ : ∃ k', k = k' + 1 := ⟨k - 1, by omega⟩
    have hperm := subsequencesOfLength_perm (k + 1) arr
    refine ⟨kCombinations_eq_subsequences k arr, ?_, ?_, ?_, ?_, ?_⟩
    · intro s
      rw [kCombinations_eq_subsequences, hperm.mem_iff, List.mem_sublistsLen]
    · rw [kCombinations_eq_subsequences, hperm.length_eq, List.length_sublistsLen]
    · rw [kCombinations_eq_subsequences, kCombinations_eq_subsequences,
        ← subsequencesOfLength_map, List.finRange_map_get]
    · rw [kCombinations_eq_subsequences]
      exact (subsequencesOfLength_perm (k + 1) _).nodup_iff.mpr
        (List.nodup_sublistsLen _ (List.nodup_finRange _))
    · intro hnd
      rw [kCombinations_eq_subsequences]
      exact hperm.nodup_iff.mpr (List.nodup_sublistsLen _ hnd)

/-- C15 on the 2-combinations of four heroes. -/
theorem kCombinations_enumerates_witness :
    kCombinations [10, 20, 30, 40] 2
      = [[10, 20], [10, 30], [10, 40], [20, 30], [20, 40], [30, 40]] ∧
    (kCombinations [10, 20, 30, 40] 2).length = Nat.choose 4 2 ∧
    kCombinations [10, 20, 30, 40] 5 = [] :=
  ⟨((kCombinations_enumerates [10, 20, 30, 40] 2).2 (by decide) (by decide)).1.trans (by decide),
    ((kCombinations_enumerates [10, 20, 30, 40] 2).2 (by decide) (by decide)).2.2.1,
    (kCombinations_enumerates [10, 20, 30, 40] 5).1 (Or.inr (by decide))⟩

/-! ### Hero matchups -/

theorem kCombinations_length {α : Type} (arr : List α) (k : Nat) (hk : 1 ≤ k) :
    (kCombinations arr k).length = Nat.choose arr.length k := by
  obtain ⟨k, rfl⟩ : ∃ k', k = k' + 1 := ⟨k - 1, by omega⟩
  rw [kCombinations_eq_subsequences, (subsequencesOfLength_perm (k + 1) arr).length_eq,
    List.length_sublistsLen]

theorem groupCombs_length (heroes : List Int) (max : Nat) :
    (groupCombs heroes max).length
      = ∑ i in Finset.range (max + 1), Nat.choose heroes.length i := by
  have h : ((List.range max).flatMap fun i => kCombinations heroes (i + 1)).length
      = ∑ i in Finset.range max, Nat.choose heroes.length (i + 1) := by
    induction max with
    | zero => simp
    | succ n ih =>
      rw [List.range_succ, List.flatMap_append, List.length_append, ih,
        Finset.sum_range_succ]
      simp [kCombinations_length]
  rw [groupCombs, List.length_append, h, Finset.sum_range_succ']
  simp [Nat.add_comm]

theorem flatMap_map_length {α β γ : Type} (xs : List α) (ys : List β) (f : α → β → γ) :
    (xs.flatMap fun x => ys.map fun y => f x y).length = xs.length * ys.length := by
  induction xs with
  | nil => simp
  | cons x xs ih =>
    rw [List.flatMap_cons, List.length_append, ih, List.length_map, List.length_cons]
    ring

/-- C20, as stated, fails for a `max` of 0: the sums over `i` from 0 to 0
give one key, the key of the two empty groups, but `max || 5` makes the
largest group 5, and a 1-versus-1 match gets its four keys. -/
theorem generateMatchups_zero_max_counts_as_five :
    generateMatchups oneVersusOne (some 0) = ["::0", ":2:0", ":1:1", "1:2:0"] ∧
    (generateMatchups oneVersusOne (some 0)).length = 4 ∧
    statedMatchupCount oneVersusOne (some 0) = 1 := by
  decide

/-- C20, amended: `generateMatchups` produces one key for every pair of a
radiant group of 0 to `max` heroes and a dire group of 0 to `max` heroes,
where `max` is 5 when it is not given or given as 0.  For every match in
which no player has hero 0, with `r` radiant heroes (`player_slot` below 128)
and `d` dire heroes, the result has
`(Σ i ≤ max, C(r, i)) * (Σ i ≤ max, C(d, i))` keys, which is the number the
design document states unless `max` is given as 0; for every match in which
some player has hero 0 the result is empty. -/
theorem generateMatchups_length (m : Match) (max : Option Nat) :
    ((∀ p ∈ m.players, p.hero_id ≠ 0) →
      (generateMatchups m max).length
        = (∑ i in Finset.range (orDefault max 5 + 1),
            Nat.choose (m.players.filter isRadiant).length i)
          * (∑ i in Finset.range (orDefault max 5 + 1),
            Nat.choose (m.players.filter fun p => !isRadiant p).length i)) ∧
    ((∀ p ∈ m.players, p.hero_id ≠ 0) → max ≠ some 0 →
      (generateMatchups m max).length = statedMatchupCount m max) ∧
    ((∃ p ∈ m.players, p.hero_id = 0) → generateMatchups m max = []) ∧
    orDefault none 5 = 5 ∧ orDefault (some 0) 5 = 5 ∧
    ∀ n, orDefault (some (n + 1)) 5 = n + 1 := by
  have hlen : (∀ p ∈ m.players, p.hero_id ≠ 0) →
      (generateMatchups m max).length
        = (∑ i in Finset.range (orDefault max 5 + 1),
            Nat.choose (m.players.filter isRadiant).length i)
          * (∑ i in Finset.range (orDefault max 5 + 1),
            Nat.choose (m.players.filter fun p => !isRadiant p).length i) := by
    intro h
    have hany : (m.players.any fun p => decide (p.hero_id = 0)) = false := by
      rw [List.any_eq_false]
      intro p hp
      simpa using h p hp
    unfold generateMatchups
    rw [hany]
    simp only [Bool.false_eq_true, if_false]
    rw [flatMap_map_length, groupCombs_length, groupCombs_length, List.length_map,
      List.length_map]
  refine ⟨hlen, ?_, ?_, rfl, rfl, fun n => rfl⟩
  · intro h hmax
    have hd : orDefault max 5 = max.getD 5 := by
      cases max with
      | none => rfl
      | some n =>
        have hn : n ≠ 0 := fun h0 => hmax (by rw [h0])
        simp [orDefault, hn]
    rw [hlen h, hd, statedMatchupCount]
  · rintro ⟨p, hp, h0⟩
    have hany : (m.players.any fun p => decide (p.hero_id = 0)) = true := by
      rw [List.any_eq_true]
      exact ⟨p, hp, by simpa using h0⟩
    unfold generateMatchups
    rw [hany]
    rfl

/-! ### The mode -/

theorem lookupCount_setCount_self (key : String) (c : Nat) (m : List (String × Nat)) :
    lookupCount key (setCount key c m) = some c := by
  induction m with
  | nil => simp [setCount, lookupCount]
  | cons kv r ih =>
    obtain ⟨k, c'⟩ := kv
    unfold setCount
    split
    · rename_i h; simp [lookupCount, h]
    · rename_i h; simp [lookupCount, h, ih]

theorem lookupCount_setCount_ne (key key' : String) (c : Nat) (m : List (String × Nat))
    (hne : key' ≠ key) :
    lookupCount key' (setCount key c m) = lookupCount key' m := by
  induction m with
  | nil =>
    simp only [setCount, lookupCount]
    rw [if_neg (fun h => hne h.symm)]
  | cons kv r ih =>
    obtain ⟨k, c'⟩ := kv
    unfold setCount
    split
    · rename_i h
      subst h
      simp only [lookupCount]
      rw [if_neg (fun h => hne h.symm), if_neg (fun h => hne h.symm)]
    · simp only [lookupCount, ih]

/-- Different numbers have different keys. -/
theorem toString_int_injective (a b : Int) (h : toString a = toString b) : a = b := by
  have ha := parseDecimal_toString a
  rw [h, parseDecimal_toString b] at ha
  exact (Option.some.inj ha).symm

/-- The count the loop writes for `el` is its count so far plus one. -/
theorem modeStep_eq (s : ModeState) (el : Int) (done : List Int) (first : Int)
    (h : ModeInv first done s) :
    modeStep s el
      = if done.count el + 1 > s.maxCount then
          { modeMap := setCount (toString el) (done.count el + 1) s.modeMap, maxEl := el,
            maxCount := done.count el + 1 }
        else { s with modeMap := setCount (toString el) (done.count el + 1) s.modeMap } := by
  unfold modeStep
  rw [h.1 el]
  by_cases hc : done.count el = 0
  · simp [hc]
  · simp [hc]

theorem ModeInv.step {first : Int} {done : List Int} {s : ModeState}
    (h : ModeInv first done s) (el : Int) : ModeInv first (done ++ [el]) (modeStep s el) := by
  have hstep := modeStep_eq s el done first h
  obtain ⟨ha, hb, hc, hd⟩ := h
  have hcount : ∀ e : Int, (done ++ [el]).count e = done.count e + if e = el then 1 else 0 := by
    intro e
    rw [List.count_append, List.count_singleton']
    by_cases he : e = el
    · simp [he]
    · have : ¬ el = e := fun h => he h.symm
      simp [he, this]
  have hmap : ∀ e : Int,
      lookupCount (toString e) (setCount (toString el) (done.count el + 1) s.modeMap)
        = if (done ++ [el]).count e = 0 then none else some ((done ++ [el]).count e) := by
    intro e
    by_cases he : e = el
    · subst he
      rw [lookupCount_setCount_self, hcount]
      simp
    · rw [lookupCount_setCount_ne _ _ _ _ (fun h => he (toString_int_injective _ _ h)), ha e,
        hcount, if_neg he, Nat.add_zero]
  rw [hstep]
  by_cases hgt : done.count el + 1 > s.maxCount
  · rw [if_pos hgt]
    refine ⟨hmap, ?_, ?_, ?_⟩
    · intro e
      rw [hcount]
      by_cases he : e = el
      · subst he; simp
      · have := hb e
        simp only [he, if_false, Nat.add_zero]
        omega
    · left
      show done.count el + 1 ≤ (done ++ [el]).count el
      rw [hcount]; simp
    · right
      show el ∈ done ++ [el]
      simp
  · rw [if_neg hgt]
    refine ⟨hmap, ?_, ?_, ?_⟩
    · intro e
      show (done ++ [el]).count e ≤ s.maxCount
      rw [hcount]
      by_cases he : e = el
      · subst he; simp only [if_true]; omega
      · have := hb e
        simp only [he, if_false, Nat.add_zero]
        exact this
    · show s.maxCount ≤ (done ++ [el]).count s.maxEl ∨ (s.maxCount = 1 ∧ s.maxEl = first)
      rcases hc with hc | hc
      · left
        rw [hcount]
        omega
      · exact Or.inr hc
    · show s.maxEl = first ∨ s.maxEl ∈ done ++ [el]
      rcases hd with hd | hd
      · exact Or.inl hd
      · exact Or.inr (List.mem_append_left _ hd)

theorem ModeInv.foldl {first : Int} (todo : List Int) :
    ∀ (done : List Int) (s : ModeState), ModeInv first done s →
      ModeInv first (done ++ todo) (todo.foldl modeStep s) := by
  induction todo with
  | nil => intro done s h; simpa using h
  | cons el todo ih =>
    intro done s h
    have := ih (done ++ [el]) (modeStep s el) (h.step el)
    simpa [List.append_assoc] using this

/-- C16: `mode` finds the mode of an array of numbers.  For the empty array
it returns `null`.  For every non-empty array it returns an element of the
array, and no element of the array occurs more often than the one returned. -/
theorem mode_most_frequent (array : List Int) :
    mode [] = none ∧
    (array ≠ [] → (mode array).isSome = true) ∧
    ∀ r, mode array = some r → r ∈ array ∧ ∀ e, array.count e ≤ array.count r := by
  refine ⟨rfl, ?_, ?_⟩
  · intro h
    cases array with
    | nil => exact absurd rfl h
    | cons x xs => rfl
  · intro r hr
    cases array with
    | nil => simp [mode] at hr
    | cons x xs =>
      have hinit : ModeInv x [] { modeMap := [], maxEl := x, maxCount := 1 } := by
        refine ⟨fun e => by simp [lookupCount], fun e => by simp, Or.inr ⟨rfl, rfl⟩, Or.inl rfl⟩
      have hfin := ModeInv.foldl (x :: xs) [] _ hinit
      rw [List.nil_append] at hfin
      simp only [mode, Option.some.injEq] at hr
      subst hr
      obtain ⟨_, hb, hc, hd⟩ := hfin
      constructor
      · rcases hd with hd | hd
        · rw [hd]; exact List.mem_cons_self _ _
        · exact hd
      · intro e
        rcases hc with hc | ⟨hc1, hc2⟩
        · exact (hb e).trans hc
        · have h1 : 1 ≤ (x :: xs).count
              (List.foldl modeStep { modeMap := [], maxEl := x, maxCount := 1 } (x :: xs)).maxEl := by
            rw [hc2]; simp
          have := hb e
          omega

/-- C16 on an array with two candidates, and on the empty array. -/
theorem mode_most_frequent_witness :
    mode [3, 1, 1, 3, 3] = some 3 ∧ (3 : Int) ∈ ([3, 1, 1, 3, 3] : List Int) ∧
    (∀ e, ([3, 1, 1, 3, 3] : List Int).count e ≤ ([3, 1, 1, 3, 3] : List Int).count 3) ∧
    mode [] = none :=
  ⟨by decide, ((mode_most_frequent [3, 1, 1, 3, 3]).2.2 3 (by decide)).1,
    ((mode_most_frequent [3, 1, 1, 3, 3]).2.2 3 (by decide)).2, by decide⟩

/-! ### The average -/

/-- C17: `average([1, 2])` is 1, where the arithmetic mean, the sum of the
elements divided by their number, is 3/2: the quotient is rounded down by
`Math.floor`. -/
theorem average_is_not_exact_mean :
    average [1, 2] = some (.num 1) ∧ exactMean [1, 2] = 3 / 2 ∧
    ((1 : Int) : ℚ) ≠ exactMean [1, 2] := by
  refine ⟨by decide, ?_, ?_⟩ <;> norm_num [exactMean]

/-- C20, amended, on a 5-versus-5 match: 1024 keys without a `max`, and
with a `max` of 0 as well. -/
theorem generateMatchups_length_witness :
    (∀ p ∈ fiveVersusFive.players, p.hero_id ≠ 0) ∧
    (generateMatchups fiveVersusFive none).length = 1024 ∧
    (generateMatchups fiveVersusFive (some 0)).length = 1024 ∧
    statedMatchupCount fiveVersusFive none = 1024 :=
  ⟨by decide,
    ((generateMatchups_length fiveVersusFive none).1 (by decide)).trans (by decide),
    ((generateMatchups_length fiveVersusFive (some 0)).1 (by decide)).trans (by decide),
    ((generateMatchups_length fiveVersusFive none).2.1 (by decide) (by decide)).symm.trans
      (((generateMatchups_length fiveVersusFive none).1 (by decide)).trans (by decide))⟩

/-! ### Merging objects -/

/-- C18: on an empty `merge` and a `val` with `constructor: 5` the property
is absent from `merge` and the value in `val` is a number, but `merge[attr]`
reads the method every object inherits, so the number is appended to its
text and `merge.constructor` is not the sum `0 + 5`. -/
theorem mergeObjects_inherited_method_not_summed :
    mergeObjects (.obj []) (.obj [("constructor", .num 5)])
      = .ok (.obj [("constructor", .str "function Object() \x7b [native code] \x7d5")]) ∧
    JsVal.lookup "constructor" [] = .undefined ∧
    JsVal.str "function Object() \x7b [native code] \x7d5" ≠ .num (0 + 5) := by
  decide

/-- C19: on `merge` with `chat: "gl"` and `val` with `chat: "hf"` the call leaves
`merge.chat` equal to `"glNaN"`: the second string is turned into a number
before it is added, so the strings are not concatenated to `"glhf"`. -/
theorem mergeObjects_strings_not_concatenated :
    mergeObjects (.obj [("chat", .str "gl")]) (.obj [("chat", .str "hf")])
      = .ok (.obj [("chat", .str "glNaN")]) ∧
    toNumber (.str "hf") = some .nan ∧
    jsAdd (.str "gl") .nan = some (.str "glNaN") ∧
    JsVal.str "glNaN" ≠ .str ("gl" ++ "hf") := by
  decide

end Utility
